import Mathlib

/-!
Verification development for the hydrachain consensus manager
(`src/hydrachain/consensus/manager.py`).

The file embeds the consensus engine shallowly: every stateful Python
method becomes a Lean function on explicit state records, Python
exceptions become an explicit `PyErr` error component that is returned
together with the mutated state (Python mutations performed before a
raise survive the raise, so errors must not discard the state).

The message base types (`Vote`, `LockSet`, `BlockProposal`,
`VotingInstruction`) live in `base.py`, which is not part of the
repository snapshot; those definitions are modelled from the spec
(sections 3 and 4.1) and are marked as such in their doc comments.
-/

namespace Hydrachain

/-- Validator address, an opaque identifier (spec section 3). -/
abbrev Address := Nat

/-- Block hash, an opaque identifier. -/
abbrev Hash := Nat

/-- A chain block as consumed by the consensus core: only the block
number, the parent hash and its own hash are observed by `manager.py`. -/
structure Block where
  number : Nat
  prevhash : Hash
  hash : Hash
deriving DecidableEq, Repr

/-- Modelled from the spec: vote payload variants of `base.py` —
`VoteBlock(blockhash)` endorses a block, `VoteNil` abstains. -/
inductive VoteKind where
  | VoteBlock (blockhash : Hash)
  | VoteNil
deriving DecidableEq, Repr

/-- Modelled from the spec: a signed vote record `{sender, height, round,
kind}` of `base.py` (spec section 3); the signature itself is out of
scope, so the recovered `sender` is stored directly. -/
structure Vote where
  sender : Address
  height : Nat
  round : Nat
  kind : VoteKind
deriving DecidableEq, Repr

/-- The blockhash of a vote, when it is a `VoteBlock`. -/
def Vote.blockhash : Vote → Option Hash
  | ⟨_, _, _, .VoteBlock b⟩ => some b
  | ⟨_, _, _, .VoteNil⟩ => none

/-- Modelled from the spec: `base.py`'s `LockSet` — the votes observed at
one `(height, round)`, parameterized by `num_eligible_votes` (spec
section 3).  The `(height, round)` of a lock-set is derived from its
votes, as `manager.py` constructs lock-sets passing only
`num_eligible_votes` (line 353). -/
structure LockSet where
  num_eligible_votes : Nat
  votes : List Vote
deriving DecidableEq, Repr

/-- Supermajority threshold `⌈2N/3⌉` (spec section 3). -/
def quorumSize (n : Nat) : Nat := (2 * n + 2) / 3

namespace LockSet

/-- Height of the lock-set, derived from its first vote (0 when empty;
`base.py` derives it from the stored votes). -/
def lsHeight (ls : LockSet) : Nat :=
  match ls.votes with
  | [] => 0
  | v :: _ => v.height

/-- Round of the lock-set, derived from its first vote (0 when empty). -/
def lsRound (ls : LockSet) : Nat :=
  match ls.votes with
  | [] => 0
  | v :: _ => v.round

/-- Number of block-votes for a given blockhash. -/
def count (ls : LockSet) (b : Hash) : Nat :=
  ls.votes.countP (fun v => v.kind = VoteKind.VoteBlock b)

/-- Modelled from the spec: `is_valid` iff at least `⌈2N/3⌉` votes are
present (spec section 3). -/
def is_valid (ls : LockSet) : Bool :=
  quorumSize ls.num_eligible_votes ≤ ls.votes.length

/-- Modelled from the spec: `has_quorum` — the blockhash endorsed by at
least `⌈2N/3⌉` block-votes, if any (spec sections 3 and 4.3: the
height manager's `has_quorum` is compared against a candidate
blockhash, so the lock-set level value carries the hash). -/
def has_quorum (ls : LockSet) : Option Hash :=
  ls.votes.findSome? (fun v =>
    match v.kind with
    | .VoteBlock b =>
        if quorumSize ls.num_eligible_votes ≤ ls.count b then some b else none
    | .VoteNil => none)

/-- Whether blockhash `b` can still reach quorum given the observed
votes: its current block-votes plus all not-yet-cast votes. -/
def canReach (ls : LockSet) (b : Hash) : Bool :=
  quorumSize ls.num_eligible_votes ≤
    ls.count b + (ls.num_eligible_votes - ls.votes.length)

/-- Modelled from the spec: `has_noquorum` — valid, and no blockhash can
ever reach quorum given the observed votes (spec section 3). -/
def has_noquorum (ls : LockSet) : Bool :=
  ls.is_valid &&
    !(ls.votes.any (fun v =>
      match v.kind with
      | .VoteBlock b => ls.canReach b
      | .VoteNil => false))

/-- Modelled from the spec: `has_quorum_possible` — valid, no quorum yet,
but some blockhash could still reach quorum; carries that blockhash
(a `VotingInstruction` directs validators to it, spec section 3). -/
def has_quorum_possible (ls : LockSet) : Option Hash :=
  if ls.is_valid && ls.has_quorum.isNone then
    ls.votes.findSome? (fun v =>
      match v.kind with
      | .VoteBlock b => if ls.canReach b then some b else none
      | .VoteNil => none)
  else none

/-- The vote already recorded for a sender, if any. -/
def find_sender (ls : LockSet) (a : Address) : Option Vote :=
  ls.votes.find? (fun w => w.sender = a)

/-- Replace the recorded vote of `v.sender` by `v`, in place. -/
def replaceVote (ls : LockSet) (v : Vote) : LockSet :=
  { ls with votes := ls.votes.map (fun w => if w.sender = v.sender then v else w) }

/-- The two failure kinds of `LockSet.add` (`base.py`'s
`DoubleVotingError` and `InvalidVoteError`). -/
inductive AddErr where
  | DoubleVotingError
  | InvalidVoteError
deriving DecidableEq, Repr

/-- Modelled from the spec: `LockSet.add(vote, force_replace)` (spec
section 4.1) — fails with `InvalidVoteError` when the vote's
`(height, round)` does not match the lock-set's; fails with
`DoubleVotingError` when the sender already voted differently and
`force_replace` is off; otherwise records the vote.  The returned
`Bool` reports whether the lock-set changed.  Sender eligibility is
enforced upstream by `ConsensusManager.add_vote`'s assertion
(`manager.py` line 206). -/
def add (ls : LockSet) (v : Vote) (force : Bool) : Except AddErr (LockSet × Bool) :=
  if ls.votes ≠ [] && (v.height ≠ ls.lsHeight || v.round ≠ ls.lsRound) then
    .error .InvalidVoteError
  else
    match ls.find_sender v.sender with
    | none => .ok ({ ls with votes := ls.votes ++ [v] }, true)
    | some w =>
        if w = v then .ok (ls, false)
        else if force then .ok (ls.replaceVote v, true)
        else .error .DoubleVotingError

/-- Whether the votes of a lock-set carry pairwise distinct senders
(spec section 3: at most one vote per sender). -/
def sendersNodup (ls : LockSet) : Bool :=
  (ls.votes.map Vote.sender).Nodup

end LockSet

/-- Modelled from the spec: the two proposal variants of `base.py`
(spec section 3) — `BlockProposal {sender, height, round, block,
signing_lockset, round_lockset?}` and `VotingInstruction {sender,
height, round, lockset}`.  Signing is out of scope, so the recovered
`sender` is stored directly. -/
inductive Proposal where
  | bp (sender : Address) (height round : Nat) (block : Block)
      (signing_lockset : LockSet) (round_lockset : Option LockSet)
  | vi (sender : Address) (height round : Nat) (lockset : LockSet)
deriving DecidableEq, Repr

namespace Proposal

def sender : Proposal → Address
  | .bp s _ _ _ _ _ => s
  | .vi s _ _ _ => s

def height : Proposal → Nat
  | .bp _ h _ _ _ _ => h
  | .vi _ h _ _ => h

def round : Proposal → Nat
  | .bp _ _ r _ _ _ => r
  | .vi _ _ r _ => r

/-- Modelled from the spec: the `lockset` of a proposal — for a
`BlockProposal` the `round_lockset` when `round > 0` (absent means the
Python attribute is `None`) and the `signing_lockset` at round 0
(spec section 4.5, rules 3 and 4); for a `VotingInstruction` its
carried lock-set. -/
def lockset? : Proposal → Option LockSet
  | .bp _ _ r _ sl rls => if r = 0 then some sl else rls
  | .vi _ _ _ ls => some ls

/-- Modelled from the spec: `blockhash` of a proposal — the proposed
block's hash for a `BlockProposal`; for a `VotingInstruction` the
blockhash its lock-set could still bring to quorum (spec section 3:
it "instructs validators to re-lock on the block that could still
reach quorum"; defaults to 0 when that hash is absent, a situation the
engine excludes by assertion before use). -/
def blockhash : Proposal → Hash
  | .bp _ _ _ b _ _ => b.hash
  | .vi _ _ _ ls => (ls.has_quorum_possible).getD 0

/-- Replace the block of a `BlockProposal` (the `p.block = blk`
assignment of `manager.py` line 253). -/
def withBlock : Proposal → Block → Proposal
  | .bp s h r _ sl rls, b => .bp s h r b sl rls
  | p, _ => p

/-- The carried block of a `BlockProposal`. -/
def block? : Proposal → Option Block
  | .bp _ _ _ b _ _ => some b
  | .vi _ _ _ _ => none

end Proposal

/-- Protocol-failure evidence records (`manager.py` lines 85-113). -/
inductive Evidence where
  | InvalidProposalEvidence (p : Proposal)
  | DoubleVotingEvidence (v : Vote) (ls : LockSet)
  | InvalidVoteEvidence (v : Vote)
  | FailedToProposeEvidence (ls : LockSet)
deriving DecidableEq, Repr

/-- Python-level failure outcomes of the embedded methods:
`InvalidProposalError` raised by `add_proposal`'s `check`;
`AssertionError` from `assert` statements; `AttributeError` from
reading an attribute of `None` or assigning to a read-only property;
`UnboundLocalError` from reading a local never assigned;
`ExceptionRaised` from the bare `raise Exception(...)` in `propose`;
`DoubleVotingRaised` / `InvalidVoteRaised` from `LockSet.add` errors
escaping uncaught. -/
inductive PyErr where
  | InvalidProposalError
  | AssertionError
  | AttributeError
  | UnboundLocalError
  | ExceptionRaised
  | DoubleVotingRaised
  | InvalidVoteRaised
deriving DecidableEq, Repr

/-- The validator-set contract (`ConsensusContract`, `manager.py` lines
62-82).  The Python `proposer` hashes `repr((height, round))`; the spec
(section 4.4) admits any deterministic pure selection, so the selection
function is a field. -/
structure Contract where
  validators : List Address
  proposerFn : Nat → Nat → Address

namespace Contract

def isvalidator (c : Contract) (a : Address) : Bool := a ∈ c.validators

def proposer (c : Contract) (h r : Nat) : Address := c.proposerFn h r

def isproposer (c : Contract) (p : Proposal) : Bool :=
  p.sender = c.proposer p.height p.round

def num_eligible_votes (c : Contract) (h : Nat) : Nat :=
  if h = 0 then 0 else c.validators.length

end Contract

/-- Immutable environment of the engine: the contract, this validator's
address (`chain.coinbase`), the chain service's block-linking function
and its clock `now` (spec section 6, consumed interfaces). -/
structure Ctx where
  contract : Contract
  coinbase : Address
  linkBlock : Block → Option Block
  now : Nat

/-- One `RoundManager`'s mutable state (`manager.py` lines 437-448):
its lock-set, the admitted proposal, this validator's own lock, and
the armed timeout, if any. -/
structure RoundManager where
  height : Nat
  round : Nat
  lockset : LockSet
  proposal : Option Proposal
  lock : Option Vote
  timeout_time : Option Nat
deriving DecidableEq, Repr

/-- A fresh `RoundManager` as built by `RoundManager.__init__`: an empty
lock-set sized by `num_eligible_votes(height)` via `mk_lockset`. -/
def freshRound (ctx : Ctx) (h r : Nat) : RoundManager :=
  { height := h, round := r,
    lockset := ⟨ctx.contract.num_eligible_votes h, []⟩,
    proposal := none, lock := none, timeout_time := none }

/-- `RoundManager.add_vote` (`manager.py` lines 461-473): delegate to
`lockset.add`; an `InvalidVoteError` is caught, recorded as evidence
and swallowed (the method returns `None`); a `DoubleVotingError`
escapes (`Except.error ()`); after a successful insertion a
`FailedToPropose` evidence record is emitted when the lock-set is
valid with no proposal and no quorum reachable. -/
def RoundManager.add_vote (rm : RoundManager) (v : Vote) (force : Bool) :
    RoundManager × List Evidence × Except Unit (Option Bool) :=
  match rm.lockset.add v force with
  | .error .InvalidVoteError => (rm, [.InvalidVoteEvidence v], .ok none)
  | .error .DoubleVotingError => (rm, [], .error ())
  | .ok (ls, succ) =>
      let rm' := { rm with lockset := ls }
      let evs :=
        if ls.is_valid && rm'.proposal.isNone && ls.has_noquorum then
          [Evidence.FailedToProposeEvidence ls]
        else []
      (rm', evs, .ok (some succ))

/-- One `HeightManager`'s mutable state (`manager.py` lines 360-367):
the lazily created rounds, keyed by round number (`ManagerDict`). -/
structure HeightManager where
  height : Nat
  rounds : List (Nat × RoundManager)
deriving DecidableEq, Repr

/-- Insert a number into an ascending list. -/
def insertAsc (n : Nat) : List Nat → List Nat
  | [] => [n]
  | m :: ms => if n ≤ m then n :: m :: ms else m :: insertAsc n ms

/-- Ascending sort (Python's `sorted` over the dict keys). -/
def sortAsc (l : List Nat) : List Nat := l.foldr insertAsc []

namespace HeightManager

/-- The round numbers with an existing `RoundManager`. -/
def keys (hm : HeightManager) : List Nat := hm.rounds.map Prod.fst

/-- Read an existing round's manager (iteration in `manager.py` only
touches keys that exist; the default is never reached there). -/
def rget (hm : HeightManager) (r : Nat) : RoundManager :=
  (hm.rounds.lookup r).getD
    { height := hm.height, round := r, lockset := ⟨0, []⟩,
      proposal := none, lock := none, timeout_time := none }

/-- `ManagerDict.__getitem__` for rounds: accessing a missing round
creates it (`manager.py` lines 18-21). -/
def ensureRound (ctx : Ctx) (hm : HeightManager) (r : Nat) : HeightManager :=
  if (hm.rounds.lookup r).isSome then hm
  else { hm with rounds := hm.rounds ++ [(r, freshRound ctx hm.height r)] }

/-- Write back a round's manager. -/
def updRound (hm : HeightManager) (r : Nat) (rm : RoundManager) : HeightManager :=
  { hm with rounds := hm.rounds.map (fun e => if e.1 = r then (r, rm) else e) }

/-- `HeightManager.last_lock` (`manager.py` lines 376-381): scanning
rounds in descending order, the first existing own lock. -/
def last_lock (hm : HeightManager) : Option Vote :=
  ((sortAsc hm.keys).reverse).findSome? (fun r => (hm.rget r).lock)

/-- `HeightManager.last_valid_lockset` (`manager.py` lines 392-399):
the highest-round valid lock-set. -/
def last_valid_lockset (hm : HeightManager) : Option LockSet :=
  ((sortAsc hm.keys).reverse).findSome? (fun r =>
    let ls := (hm.rget r).lockset
    if ls.is_valid then some ls else none)

/-- The derived `HeightManager.round` property (`manager.py` lines
369-374): one past the round of the last valid lock-set, else 0. -/
def roundP (hm : HeightManager) : Nat :=
  match hm.last_valid_lockset with
  | some l => l.lsRound + 1
  | none => 0

/-- Loop body of `last_quorum_lockset` (`manager.py` lines 401-409):
scan rounds in ascending order; a second valid quorum lock-set trips
the `assert found is None` consistency check. -/
def lqlGo (hm : HeightManager) : List Nat → Option LockSet → Except PyErr (Option LockSet)
  | [], found => .ok found
  | k :: ks, found =>
      let ls := (hm.rget k).lockset
      if ls.is_valid && ls.has_quorum.isSome then
        match found with
        | some _ => .error .AssertionError
        | none => hm.lqlGo ks (some ls)
      else hm.lqlGo ks found

/-- `HeightManager.last_quorum_lockset` (`manager.py` lines 401-409). -/
def last_quorum_lockset (hm : HeightManager) : Except PyErr (Option LockSet) :=
  hm.lqlGo (sortAsc hm.keys) none

/-- `HeightManager.has_quorum` (`manager.py` lines 411-415): the
blockhash of the last quorum lock-set, if any. -/
def has_quorum (hm : HeightManager) : Except PyErr (Option Hash) :=
  match hm.last_quorum_lockset with
  | .error e => .error e
  | .ok none => .ok none
  | .ok (some ls) => .ok ls.has_quorum

/-- `HeightManager.add_vote` (`manager.py` lines 417-418): route to the
vote's round (creating it on access). -/
def add_vote (ctx : Ctx) (hm : HeightManager) (v : Vote) (force : Bool) :
    HeightManager × List Evidence × Except Unit (Option Bool) :=
  let hm1 := hm.ensureRound ctx v.round
  let rm := hm1.rget v.round
  match rm.add_vote v force with
  | (rm', evs, res) => (hm1.updRound v.round rm', evs, res)

/-- `HeightManager.add_proposal` (`manager.py` lines 420-425).  The two
`assert`s guard height and lock-set validity; `self.round = p.round`
assigns to the read-only derived property `round` (it has no setter),
which raises `AttributeError` in Python; otherwise the proposal is
routed to `rounds[p.round].add_proposal` (`manager.py` lines 475-481),
whose `assert` lets only a first or an identical proposal through. -/
def add_proposal (ctx : Ctx) (hm : HeightManager) (p : Proposal) :
    HeightManager × Except PyErr Bool :=
  match p.lockset? with
  | none => (hm, .error .AttributeError)
  | some ls =>
      if p.height ≠ hm.height then (hm, .error .AssertionError)
      else if !ls.is_valid then (hm, .error .AssertionError)
      else if hm.roundP < p.round then (hm, .error .AttributeError)
      else
        let hm1 := hm.ensureRound ctx p.round
        let rm := hm1.rget p.round
        match rm.proposal with
        | some q =>
            if q ≠ p then (hm1, .error .AssertionError)
            else (hm1.updRound p.round { rm with proposal := some p }, .ok true)
        | none => (hm1.updRound p.round { rm with proposal := some p }, .ok true)

end HeightManager

/-- The `ConsensusManager`'s mutable state (`manager.py` lines 116-128):
the chain head (owned by the chain service but observed through
`self.head`), the lazily created height managers, the block candidates
keyed by blockhash, the evidence list, and the set of blockhashes whose
proposals were persisted to the database (`store_proposal`). -/
structure ConsensusManager where
  head : Block
  heights : List (Nat × HeightManager)
  block_candidates : List (Hash × Proposal)
  tracked_protocol_failures : List Evidence
  stored : List Hash
deriving DecidableEq, Repr

namespace ConsensusManager

/-- The `height` property (`manager.py` lines 190-192). -/
def cmHeight (s : ConsensusManager) : Nat := s.head.number + 1

/-- Read an existing height's manager. -/
def hGet (s : ConsensusManager) (h : Nat) : HeightManager :=
  (s.heights.lookup h).getD { height := h, rounds := [] }

/-- `ManagerDict.__getitem__` for heights: accessing a missing height
creates an empty `HeightManager` (`manager.py` lines 18-21, 362-366). -/
def ensureHeight (s : ConsensusManager) (h : Nat) : ConsensusManager :=
  if (s.heights.lookup h).isSome then s
  else { s with heights := s.heights ++ [(h, { height := h, rounds := [] })] }

/-- Write back a height's manager. -/
def updHeight (s : ConsensusManager) (h : Nat) (hm : HeightManager) : ConsensusManager :=
  { s with heights := s.heights.map (fun e => if e.1 = h then (h, hm) else e) }

/-- Append evidence records (`tracked_protocol_failures.append`). -/
def track (s : ConsensusManager) (evs : List Evidence) : ConsensusManager :=
  { s with tracked_protocol_failures := s.tracked_protocol_failures ++ evs }

/-- `ConsensusManager.add_vote` (`manager.py` lines 204-215).  The
`assert isvalidator` failure is an `AssertionError`.  Own votes are
force-replaced (`is_own_vote`).  A `DoubleVotingError` raised by the
lock-set is caught and recorded as `DoubleVotingEvidence`, but the
handler never assigns the local `success`, so the closing
`return success` raises `UnboundLocalError`; the state mutations made
before the raise (round creation, evidence) survive it. -/
def add_vote (ctx : Ctx) (s : ConsensusManager) (v : Vote) :
    ConsensusManager × Except PyErr (Option Bool) :=
  if !ctx.contract.isvalidator v.sender then (s, .error .AssertionError)
  else
    let force := v.sender = ctx.coinbase
    let s1 := s.ensureHeight v.height
    let hm := s1.hGet v.height
    match hm.add_vote ctx v force with
    | (hm', evs, .ok x) => ((s1.updHeight v.height hm').track evs, .ok x)
    | (hm', evs, .error ()) =>
        let ls := (hm'.rget v.round).lockset
        (((s1.updHeight v.height hm').track evs).track
            [Evidence.DoubleVotingEvidence v ls],
          .error .UnboundLocalError)

/-- The `for v in lockset: self.add_vote(v)` loops of `add_proposal`
(`manager.py` lines 239-240) and `add_block_proposal` (lines 269-270);
an exception raised by `add_vote` aborts the loop and escapes. -/
def add_votes (ctx : Ctx) (s : ConsensusManager) :
    List Vote → ConsensusManager × Except PyErr Unit
  | [] => (s, .ok ())
  | v :: vs =>
      match add_vote ctx s v with
      | (s', .ok _) => add_votes ctx s' vs
      | (s', .error e) => (s', .error e)

/-- `ConsensusManager.add_block_proposal` (`manager.py` lines 262-271):
skip proposals already persisted; assert the signing lock-set is a
quorum on the previous height; ingest its votes; record the block
candidate. -/
def add_block_proposal (ctx : Ctx) (s : ConsensusManager) (p : Proposal) :
    ConsensusManager × Except PyErr Unit :=
  match p with
  | .vi _ _ _ _ => (s, .error .AssertionError)
  | .bp _ h _ _ sl _ =>
      if p.blockhash ∈ s.stored then (s, .ok ())
      else if sl.has_quorum.isNone then (s, .error .AssertionError)
      else if sl.lsHeight ≠ h - 1 then (s, .error .AssertionError)
      else
        match add_votes ctx s sl.votes with
        | (s', .error e) => (s', .error e)
        | (s', .ok ()) =>
            ({ s' with block_candidates :=
                if (s'.block_candidates.lookup p.blockhash).isSome then
                  (s'.block_candidates.map (fun e =>
                    if e.1 = p.blockhash then (p.blockhash, p) else e))
                else s'.block_candidates ++ [(p.blockhash, p)] },
              .ok ())

/-- `ConsensusManager.add_proposal` (`manager.py` lines 217-260).
Proposals below the current height return silently.  Each failing
`check` appends `InvalidProposalEvidence` and raises
`InvalidProposalError`.  For a `round > 0` `BlockProposal` without a
`round_lockset`, reading `p.lockset` attributes dereferences `None`
(`AttributeError`).  The lock-set's votes are ingested between the
round checks and the variant-specific checks; a `BlockProposal` above
the current height is dropped after those checks, before linking.  The
possibly replaced proposal (`p.block = blk`) is returned alongside. -/
def add_proposal (ctx : Ctx) (s : ConsensusManager) (p : Proposal) :
    ConsensusManager × Except PyErr (Option Bool) × Proposal :=
  if p.height < s.cmHeight then (s, .ok none, p)
  else if !(ctx.contract.isvalidator p.sender && ctx.contract.isproposer p) then
    (s.track [.InvalidProposalEvidence p], .error .InvalidProposalError, p)
  else
    match p.lockset? with
    | none => (s, .error .AttributeError, p)
    | some ls =>
        if !ls.is_valid then
          (s.track [.InvalidProposalEvidence p], .error .InvalidProposalError, p)
        else if !(ls.lsHeight = p.height || p.round = 0) then
          (s.track [.InvalidProposalEvidence p], .error .InvalidProposalError, p)
        else if !(p.round = ls.lsRound + 1 || p.round = 0) then
          (s.track [.InvalidProposalEvidence p], .error .InvalidProposalError, p)
        else
          match add_votes ctx s ls.votes with
          | (s1, .error e) => (s1, .error e, p)
          | (s1, .ok ()) =>
              match p with
              | .bp sender h r blk sl rls =>
                  if blk.number ≠ h then
                    (s1.track [.InvalidProposalEvidence p], .error .InvalidProposalError, p)
                  else if !(ls.has_noquorum || r = 0) then
                    (s1.track [.InvalidProposalEvidence p], .error .InvalidProposalError, p)
                  else if s1.cmHeight < h then (s1, .ok none, p)
                  else
                    match ctx.linkBlock blk with
                    | none =>
                        (s1.track [.InvalidProposalEvidence p],
                          .error .InvalidProposalError, p)
                    | some blk' =>
                        let p' := Proposal.bp sender h r blk' sl rls
                        match add_block_proposal ctx s1 p' with
                        | (s2, .error e) => (s2, .error e, p')
                        | (s2, .ok ()) =>
                            let s3 := s2.ensureHeight h
                            match (s3.hGet h).add_proposal ctx p' with
                            | (hm', .error e) => (s3.updHeight h hm', .error e, p')
                            | (hm', .ok b) => (s3.updHeight h hm', .ok (some b), p')
              | .vi _ h _ _ =>
                  if ls.has_quorum_possible.isNone then
                    (s1.track [.InvalidProposalEvidence p], .error .InvalidProposalError, p)
                  else
                    let s3 := s1.ensureHeight h
                    match (s3.hGet h).add_proposal ctx p with
                    | (hm', .error e) => (s3.updHeight h hm', .error e, p)
                    | (hm', .ok b) => (s3.updHeight h hm', .ok (some b), p)

/-- `ConsensusManager.store_proposal` (`manager.py` lines 145-147):
persist the proposal under its blockhash. -/
def store_proposal (s : ConsensusManager) (p : Proposal) : ConsensusManager :=
  { s with stored := s.stored ++ [p.blockhash] }

/-- The head after a successful `commit_block(p.block)`: the chain
service contract leaves `chain.head == p.block` (spec section 6); a
non-block proposal never reaches this point. -/
def commitHead (p : Proposal) (d : Block) : Block :=
  match p with
  | .bp _ _ _ b _ _ => b
  | .vi _ _ _ _ => d

/-- Loop of `ConsensusManager.commit` (`manager.py` lines 329-341) over
the snapshot of candidates whose `prevhash` matched the head: reading
`heights[p.height]` creates it when missing; on a quorum match the
proposal is stored, `commit_block` is invoked (the chain service
contract leaves `head == p.block` on success, spec section 6), the
method recurses (`commitRec`) and returns.  Each `commit_block`
invocation is recorded in the trace together with the state at the
moment of the call. -/
def commitLoop
    (commitRec : ConsensusManager →
      ConsensusManager × List (Proposal × ConsensusManager) × Except PyErr Unit) :
    ConsensusManager → List (Hash × Proposal) →
      ConsensusManager × List (Proposal × ConsensusManager) × Except PyErr Unit
  | s, [] => (s, [], .ok ())
  | s, (_, p) :: rest =>
      match ((s.ensureHeight p.height).hGet p.height).has_quorum with
      | .error e => (s.ensureHeight p.height, [], .error e)
      | .ok q =>
          if q = some p.blockhash then
            ((commitRec
                { (s.ensureHeight p.height).store_proposal p with
                  head := commitHead p ((s.ensureHeight p.height).store_proposal p).head }).1,
              (p, (s.ensureHeight p.height).store_proposal p) ::
                (commitRec
                  { (s.ensureHeight p.height).store_proposal p with
                    head := commitHead p
                      ((s.ensureHeight p.height).store_proposal p).head }).2.1,
              (commitRec
                { (s.ensureHeight p.height).store_proposal p with
                  head := commitHead p
                    ((s.ensureHeight p.height).store_proposal p).head }).2.2)
          else commitLoop commitRec (s.ensureHeight p.height) rest

/-- `ConsensusManager.commit` (`manager.py` lines 329-341), with an
explicit recursion budget standing in for Python's call stack; the
trace lists every `commit_block` invocation with the state at the
call. -/
def commitAux : Nat → ConsensusManager →
    ConsensusManager × List (Proposal × ConsensusManager) × Except PyErr Unit
  | 0, s => (s, [], .ok ())
  | fuel + 1, s =>
      commitLoop (commitAux fuel) s
        (s.block_candidates.filter (fun e =>
          match e.2 with
          | .bp _ _ _ b _ _ => b.prevhash = s.head.hash
          | .vi _ _ _ _ => false))

/-- `ConsensusManager.cleanup` (`manager.py` lines 343-350): drop block
candidates whose height the head has reached, and height managers
strictly below the head's number. -/
def cleanup (s : ConsensusManager) : ConsensusManager :=
  { s with
    block_candidates :=
      s.block_candidates.filter (fun e => !(e.2.height ≤ s.head.number)),
    heights := s.heights.filter (fun e => !(e.2.height < s.head.number)) }

end ConsensusManager

/-- `RoundManager.vote` (`manager.py` lines 539-577), acting on round `r`
of a height manager; `head` is `cm.head` and the clock is `ctx.now`.
A `VotingInstruction` proposal is followed to its referenced blockhash;
a `BlockProposal` is voted for only when this validator holds no
previous `VoteBlock` lock at this height, otherwise the previous lock
is repeated; on a fired timeout the lock is repeated or `VoteNil` is
cast.  The produced vote (signed, hence carrying `coinbase`) is stored
as the round's `lock` — the subsequent `assert hm.last_lock == lock`
and the direct `lockset.add` can still raise. -/
def RoundManager.vote (ctx : Ctx) (head : Block) (hm0 : HeightManager) (r : Nat) :
    HeightManager × Except PyErr (Option Vote) :=
  let hm := hm0.ensureRound ctx r
  let rm := hm.rget r
  if rm.lock.isSome then (hm, .ok none)
  else
    let last_lock := hm.last_lock
    let vres : Except PyErr (Option Vote) :=
      match rm.proposal with
      | some (.vi _ _ _ ls) =>
          match ls.has_quorum_possible with
          | none => .error .AssertionError
          | some bh => .ok (some ⟨ctx.coinbase, rm.height, r, .VoteBlock bh⟩)
      | some (.bp sender h pr blk sl rls) =>
          match last_lock with
          | some ⟨_, _, _, .VoteBlock lb⟩ =>
              .ok (some ⟨ctx.coinbase, rm.height, r, .VoteBlock lb⟩)
          | _ =>
              match (Proposal.bp sender h pr blk sl rls).lockset? with
              | none => .error .AttributeError
              | some pls =>
                  if !(pls.has_noquorum || r = 0) then .error .AssertionError
                  else if blk.prevhash ≠ head.hash then .error .AssertionError
                  else .ok (some ⟨ctx.coinbase, rm.height, r, .VoteBlock blk.hash⟩)
      | none =>
          match rm.timeout_time with
          | some t =>
              if ctx.now ≥ t then
                match last_lock with
                | some ⟨_, _, _, .VoteBlock lb⟩ =>
                    .ok (some ⟨ctx.coinbase, rm.height, r, .VoteBlock lb⟩)
                | _ => .ok (some ⟨ctx.coinbase, rm.height, r, .VoteNil⟩)
              else .ok none
          | none => .ok none
    match vres with
    | .error e => (hm, .error e)
    | .ok none => (hm, .ok none)
    | .ok (some v) =>
        let rm1 := { rm with lock := some v }
        let hm1 := hm.updRound r rm1
        if hm1.last_lock ≠ some v then (hm1, .error .AssertionError)
        else
          match rm1.lockset.add v false with
          | .error .DoubleVotingError => (hm1, .error .DoubleVotingRaised)
          | .error .InvalidVoteError => (hm1, .error .InvalidVoteRaised)
          | .ok (ls, _) =>
              (hm.updRound r { rm1 with lockset := ls }, .ok (some v))

/-- `RoundManager.propose` (`manager.py` lines 498-537, together with
`mk_proposal`), acting on one round manager.  `lastCommitting` and
`cmLastValid` are the values of the consensus manager's
`last_committing_lockset` and `last_valid_lockset` properties
(`manager.py` lines 273-279), `head_candidate` the chain service's
`chain.head_candidate`.  A missing lock-set where the Python code
dereferences `None` is an `AttributeError`; the final `else` branch
raises a bare `Exception`. -/
def RoundManager.propose (ctx : Ctx) (lastCommitting cmLastValid : Option LockSet)
    (head_candidate : Block) (rm : RoundManager) :
    RoundManager × Except PyErr (Option Proposal) :=
  if ctx.contract.proposer rm.height rm.round ≠ ctx.coinbase then (rm, .ok none)
  else
    match rm.proposal with
    | some p =>
        if p.sender ≠ ctx.coinbase then (rm, .error .AssertionError)
        else if rm.lock.isNone then (rm, .error .AssertionError)
        else (rm, .ok none)
    | none =>
        let mk : Except PyErr Proposal :=
          match lastCommitting with
          | none => .error .AttributeError
          | some sl =>
              let rlsE : Except PyErr (Option LockSet) :=
                if rm.round = 0 then .ok none
                else
                  match cmLastValid with
                  | none => .error .AttributeError
                  | some lv =>
                      if !lv.has_noquorum then .error .AssertionError
                      else .ok (some lv)
              match rlsE with
              | .error e => .error e
              | .ok rls =>
                  if sl.has_quorum.isNone then .error .AssertionError
                  else .ok (.bp ctx.coinbase rm.height rm.round head_candidate sl rls)
        let branch : Except PyErr Proposal :=
          if rm.round = 0 then mk
          else
            match cmLastValid with
            | none => .error .AttributeError
            | some lv =>
                if lv.has_noquorum then mk
                else if lv.has_quorum_possible.isSome then
                  .ok (.vi ctx.coinbase rm.height rm.round lv)
                else .error .ExceptionRaised
        match branch with
        | .error e => (rm, .error e)
        | .ok prop => ({ rm with proposal := some prop }, .ok (some prop))

/-- The disjunction of the `check(...)` validations of
`ConsensusManager.add_proposal` for a proposal at or above the current
height with lock-set `ls`, exactly as the code evaluates them
(`manager.py` lines 231-257): sender is the entitled proposer; the
lock-set is valid; its height matches (or round 0); its round precedes
the proposal's (or round 0); for a `BlockProposal` the block number
matches, the no-quorum justification holds (or round 0) and — only
when the proposal is not above the current height, since the code
returns before linking for those — the chain service links the block;
for a `VotingInstruction` a quorum must still be possible.  The vote
ingestion between these checks preserves the head, so the height
comparison may be read off the pre-state `s`. -/
def checksFail (ctx : Ctx) (s : ConsensusManager) (p : Proposal) (ls : LockSet) : Prop :=
  ¬(ctx.contract.isvalidator p.sender = true ∧ ctx.contract.isproposer p = true) ∨
  ¬ ls.is_valid = true ∨
  ¬(ls.lsHeight = p.height ∨ p.round = 0) ∨
  ¬(p.round = ls.lsRound + 1 ∨ p.round = 0) ∨
  (match p with
   | .bp _ h r blk _ _ =>
       ¬ blk.number = h ∨ ¬(ls.has_noquorum = true ∨ r = 0) ∨
       (¬ s.cmHeight < h ∧ ctx.linkBlock blk = none)
   | .vi _ _ _ _ => ls.has_quorum_possible = none)

/-- Whether all votes of a lock-set sit at the lock-set's own
`(height, round)` — the invariant `base.py` maintains (spec section 3:
a lock-set is the set of votes observed at one height and round). -/
def LockSet.homogeneous (ls : LockSet) : Bool :=
  ls.votes.all (fun v => v.height = ls.lsHeight && v.round = ls.lsRound)

/-- Well-formedness of a proposal's carried lock-sets: one vote per
sender, votes at the lock-set's height and round (spec section 3). -/
def Proposal.wfVotes : Proposal → Bool
  | .bp _ _ _ _ sl rls =>
      sl.sendersNodup && sl.homogeneous &&
      (match rls with
       | none => true
       | some rl => rl.sendersNodup && rl.homogeneous)
  | .vi _ _ _ lsv => lsv.sendersNodup && lsv.homogeneous

/-- The round manager stored at `(height, round)`, if that cell exists. -/
def cellOf (s : ConsensusManager) (h r : Nat) : Option RoundManager :=
  match s.heights.lookup h with
  | none => none
  | some hm => hm.rounds.lookup r

/-- Well-formedness of one stored round manager: its lock-set keeps one
vote per sender, all at the lock-set's own height and round. -/
def RoundManager.wfR (rm : RoundManager) : Bool :=
  rm.lockset.sendersNodup && rm.lockset.homogeneous

/-- Well-formedness of a height manager stored under key `h`: its
height field matches the key, its round dictionary has unique keys,
and every stored round manager is well-formed. -/
def HeightManager.wfH (h : Nat) (hm : HeightManager) : Bool :=
  hm.height = h &&
  ((hm.rounds.map Prod.fst).Nodup && hm.rounds.all (fun rp => rp.2.wfR))

/-- Structural well-formedness of the engine's container state: the
height and round dictionaries have unique keys matching their
managers' heights, the candidate map has unique keys, and every
stored lock-set keeps one vote per sender at its own height and
round — all invariants of the Python dictionaries and of `base.py`'s
`LockSet`. -/
def ConsensusManager.wfState (s : ConsensusManager) : Bool :=
  (s.heights.map Prod.fst).Nodup &&
  ((s.block_candidates.map Prod.fst).Nodup &&
   s.heights.all (fun e => e.2.wfH e.1))

/-- A vote already cleanly recorded in state `u`: its sender is a
validator, its cell exists, the vote sits in that cell's lock-set, and
the cell cannot emit `FailedToPropose` evidence (its lock-set is not a
valid proposal-less no-quorum one). -/
def recordedDead (ctx : Ctx) (u : ConsensusManager) (v : Vote) : Prop :=
  ctx.contract.isvalidator v.sender = true ∧
  ∃ rm, cellOf u v.height v.round = some rm ∧ v ∈ rm.lockset.votes ∧
    ¬(rm.lockset.is_valid = true ∧ rm.proposal = none ∧
      rm.lockset.has_noquorum = true)

section ConcreteInstances

/-! Concrete validator sets, states and messages used to instantiate the
claims.  Validators are `[1, 2, 3, 4]` with `N = 4` and quorum 3, as in
the spec's scenario section. -/

/-- Context with proposer selection constantly validator 2 and identity
block linking; this validator is 1. -/
def ctxP2 : Ctx :=
  { contract := { validators := [1, 2, 3, 4], proposerFn := fun _ _ => 2 },
    coinbase := 1, linkBlock := fun b => some b, now := 0 }

/-- A head block at number 2 with hash 100. -/
def head2 : Block := ⟨2, 8, 100⟩

/-- A committing lock-set: validators 1-3 vote for block 100 at
height 2, round 0. -/
def slH2 : LockSet :=
  ⟨4, [⟨1, 2, 0, .VoteBlock 100⟩, ⟨2, 2, 0, .VoteBlock 100⟩, ⟨3, 2, 0, .VoteBlock 100⟩]⟩

/-- Claim C1: a block proposal for height 3 on top of `head2`. -/
def c1p : Proposal := .bp 2 3 0 ⟨3, 100, 200⟩ slH2 none

/-- Claim C1: round 0 of height 3 holds a quorum for block 200. -/
def c1rm : RoundManager :=
  { height := 3, round := 0,
    lockset := ⟨4, [⟨1, 3, 0, .VoteBlock 200⟩, ⟨2, 3, 0, .VoteBlock 200⟩,
      ⟨3, 3, 0, .VoteBlock 200⟩]⟩,
    proposal := none, lock := none, timeout_time := none }

/-- Claim C1: engine state holding the candidate and the quorum. -/
def c1s : ConsensusManager :=
  ⟨head2, [(3, ⟨3, [(0, c1rm)]⟩)], [(200, c1p)], [], []⟩

/-- Claim C1: the state at the moment `commit_block` is invoked — the
proposal has just been persisted. -/
def c1sAtCall : ConsensusManager := { c1s with stored := [200] }

/-- Claim C2: a round-0 lock-set where block 60 could still reach
quorum (validators 2 and 3 voted 60, validator 1 voted 50). -/
def c2lsQP : LockSet :=
  ⟨4, [⟨1, 3, 0, .VoteBlock 50⟩, ⟨2, 3, 0, .VoteBlock 60⟩, ⟨3, 3, 0, .VoteBlock 60⟩]⟩

/-- Claim C2: height 3, where this validator locked block 50 at round 0
and round 1 carries a voting instruction for block 60. -/
def c2hm : HeightManager :=
  { height := 3,
    rounds := [
      (0, { height := 3, round := 0, lockset := ⟨4, []⟩,
            proposal := none, lock := some ⟨1, 3, 0, .VoteBlock 50⟩,
            timeout_time := none }),
      (1, { height := 3, round := 1, lockset := ⟨4, []⟩,
            proposal := some (.vi 2 3 1 c2lsQP), lock := none,
            timeout_time := none })] }

/-- Claim C2 witness scenario: height 3 with a round-0 lock on block 50
and a round-1 block proposal for a different block 60 (spec scenario 5):
the code repeats the lock. -/
def c2hmRepeat : HeightManager :=
  { height := 3,
    rounds := [
      (0, { height := 3, round := 0, lockset := ⟨4, []⟩,
            proposal := none, lock := some ⟨1, 3, 0, .VoteBlock 50⟩,
            timeout_time := none }),
      (1, { height := 3, round := 1, lockset := ⟨4, []⟩,
            proposal := some (.bp 2 3 1 ⟨3, 100, 60⟩ slH2 (some c2lsQP)),
            lock := none, timeout_time := none })] }

/-- Claim C3: a fresh engine over head 2 — the state of a restarted
node before any message at height 3 arrived. -/
def c3s0 : ConsensusManager := ⟨head2, [], [], [], []⟩

/-- Claim C3: honest votes — validators 1-3 lock block 50 at rounds 0
and 1 of height 3 (a round-0 lock repeated after a timeout). -/
def c3votes : List Vote :=
  [⟨1, 3, 0, .VoteBlock 50⟩, ⟨2, 3, 0, .VoteBlock 50⟩, ⟨3, 3, 0, .VoteBlock 50⟩,
   ⟨1, 3, 1, .VoteBlock 50⟩, ⟨2, 3, 1, .VoteBlock 50⟩, ⟨3, 3, 1, .VoteBlock 50⟩]

/-- Claim C3 witness: the single quorum round of `c3hmOne`. -/
def c3rmOne : RoundManager :=
  { height := 3, round := 0,
    lockset := ⟨4, [⟨1, 3, 0, .VoteBlock 50⟩, ⟨2, 3, 0, .VoteBlock 50⟩,
      ⟨3, 3, 0, .VoteBlock 50⟩]⟩,
    proposal := none, lock := none, timeout_time := none }

/-- Claim C3 witness: a height-3 manager with a single quorum round. -/
def c3hmOne : HeightManager := ⟨3, [(0, c3rmOne)]⟩

/-- Claim C4: pre-state where validator 3 already voted for block 77 at
height 2, round 0. -/
def c4s : ConsensusManager :=
  ⟨head2,
    [(2, ⟨2, [(0, ⟨2, 0, ⟨4, [⟨3, 2, 0, .VoteBlock 77⟩]⟩, none, none, none⟩)]⟩)],
    [], [], []⟩

/-- Claim C4: a round-0 block proposal whose signing lock-set carries
validator 3's conflicting vote for block 100; its block number 4 also
violates the block-number rule. -/
def c4p : Proposal := .bp 2 3 0 ⟨4, 100, 200⟩ slH2 none

/-- Claim C4 witness: a valid-shaped proposal from a non-proposer
(sender 3 while the contract designates 2). -/
def c4pBad : Proposal := .bp 3 3 0 ⟨3, 100, 200⟩ slH2 none

/-- Claim C4 witness: a fresh engine over head 2, with no recorded
votes to conflict with `slH2`. -/
def c4sClean : ConsensusManager := ⟨head2, [], [], [], []⟩

/-- Claim C5: pre-state where validator 2 voted for block 50 at height
3, round 0. -/
def c5rm : RoundManager :=
  { height := 3, round := 0, lockset := ⟨4, [⟨2, 3, 0, .VoteBlock 50⟩]⟩,
    proposal := none, lock := none, timeout_time := none }

/-- Claim C5: engine state holding `c5rm`. -/
def c5s : ConsensusManager := ⟨head2, [(3, ⟨3, [(0, c5rm)]⟩)], [], [], []⟩

/-- Claim C5: validator 2's conflicting second vote, for block 60. -/
def c5v : Vote := ⟨2, 3, 0, .VoteBlock 60⟩

/-- Claim C6: a valid no-quorum lock-set at height 3, round 0 (votes
scattered over blocks 50, 60 and nil, none reachable to quorum). -/
def c6lsNQ : LockSet :=
  ⟨4, [⟨1, 3, 0, .VoteBlock 50⟩, ⟨2, 3, 0, .VoteBlock 60⟩, ⟨3, 3, 0, .VoteNil⟩,
    ⟨4, 3, 0, .VoteNil⟩]⟩

/-- Claim C6: a fresh round-1 manager at height 3. -/
def c6rm : RoundManager :=
  { height := 3, round := 1, lockset := ⟨4, []⟩,
    proposal := none, lock := none, timeout_time := none }

/-- Claim C6 witness: a fresh round-0 manager at height 3. -/
def c6rm0 : RoundManager :=
  { height := 3, round := 0, lockset := ⟨4, []⟩,
    proposal := none, lock := none, timeout_time := none }

/-- Claim C6: context where this validator 1 is the designated
proposer. -/
def ctxP1 : Ctx :=
  { contract := { validators := [1, 2, 3, 4], proposerFn := fun _ _ => 1 },
    coinbase := 1, linkBlock := fun b => some b, now := 0 }

/-- Claim C7: a block proposal two heights above the current height 3,
sent by 9, which is not a validator. -/
def c7p : Proposal := .bp 9 5 0 ⟨5, 0, 300⟩ slH2 none

/-- Claim C7: a fresh engine over head 2. -/
def c7s : ConsensusManager := ⟨head2, [], [], [], []⟩

/-- Claim C7 witness: the signing lock-set of a height-4 proposal, a
quorum on a height-3 block 150. -/
def c7slFuture : LockSet :=
  ⟨4, [⟨1, 3, 0, .VoteBlock 150⟩, ⟨2, 3, 0, .VoteBlock 150⟩, ⟨3, 3, 0, .VoteBlock 150⟩]⟩

/-- Claim C7 witness: a well-formed block proposal at height 4, one
above the current height 3 of `c7s`. -/
def c7pFuture : Proposal := .bp 2 4 0 ⟨4, 150, 250⟩ c7slFuture none

/-- Claim C8: a valid lock-set at height 3, round 0 (used by a round-1
voting instruction). -/
def c8ls : LockSet :=
  ⟨4, [⟨1, 3, 0, .VoteBlock 50⟩, ⟨2, 3, 0, .VoteBlock 60⟩, ⟨3, 3, 0, .VoteBlock 60⟩]⟩

/-- Claim C8: a fresh height-3 manager, whose derived round is 0. -/
def c8hm : HeightManager := ⟨3, []⟩

/-- Claim C8: a round-1 voting instruction at height 3. -/
def c8p : Proposal := .vi 2 3 1 c8ls

/-- Claim C9: an invalid proposal (sender 9 is no validator) above the
current height of `c7s`-like state. -/
def c9p : Proposal := .bp 9 3 0 ⟨3, 100, 200⟩ slH2 none

/-- Claim C9: a fresh engine over head 2. -/
def c9s : ConsensusManager := ⟨head2, [], [], [], []⟩

/-- Claim C9 witness: head at genesis, height 1 current. -/
def c9headG : Block := ⟨0, 0, 100⟩

/-- Claim C9 witness: genesis signing lock-set (`num_eligible_votes` is
0 at height 0), a single quorum vote by this validator. -/
def c9slG : LockSet := ⟨0, [⟨1, 0, 0, .VoteBlock 100⟩]⟩

/-- Claim C9 witness: a clean round-0 block proposal at height 1. -/
def c9pG : Proposal := .bp 2 1 0 ⟨1, 100, 200⟩ c9slG none

/-- Claim C9 witness: the fresh engine over the genesis head. -/
def c9sG : ConsensusManager := ⟨c9headG, [], [], [], []⟩

/-- Claim C10: engine with height managers 1, 2 and 3 and a height-2
block candidate, over a head at number 2. -/
def c10s : ConsensusManager :=
  ⟨head2, [(1, ⟨1, []⟩), (2, ⟨2, []⟩), (3, ⟨3, []⟩)],
    [(90, .bp 2 2 0 ⟨2, 7, 90⟩ ⟨4, []⟩ none)], [], []⟩

end ConcreteInstances

/-! ## Theorems -/

/-- Claim C5 (code bug): on a double vote — validator 2, having voted
block 50 at height 3 round 0, votes block 60 there — `add_vote`
appends the `DoubleVotingEvidence` record referencing the vote and the
existing lock-set, as the claim says, but then `return success` reads
the never-assigned local and the call raises `UnboundLocalError`
instead of returning to the caller; nothing is force-replaced since
sender 2 is not this validator 1. -/
theorem add_vote_double_voting_unbound :
    (ConsensusManager.add_vote ctxP2 c5s c5v).2 = .error .UnboundLocalError ∧
    (ConsensusManager.add_vote ctxP2 c5s c5v).1.tracked_protocol_failures =
      [.DoubleVotingEvidence c5v c5rm.lockset] ∧
    c5v.sender ≠ ctxP2.coinbase ∧
    ((ConsensusManager.add_vote ctxP2 c5s c5v).1.hGet 3).rget 0 = c5rm :=
  ⟨rfl, rfl, by decide, rfl⟩

/-- Claim C8 (code bug): routing a valid round-1 voting instruction to a
height-3 manager whose derived round is still 0 executes
`self.round = p.round`, an assignment to the read-only `round`
property, so the call raises `AttributeError` instead of advancing the
round and routing the proposal. -/
theorem hm_add_proposal_round_advance_attribute_error :
    HeightManager.add_proposal ctxP2 c8hm c8p = (c8hm, .error .AttributeError) ∧
    c8hm.roundP < c8p.round ∧ (c8p.lockset?.map LockSet.is_valid) = some true ∧
    c8p.height = c8hm.height :=
  ⟨rfl, by decide, rfl, rfl⟩

/-- Claim C2, counterexample: with `last_lock = VoteBlock(3, 0, 50)` at
height 3 and a round-1 `VotingInstruction` whose lock-set could still
bring block 60 to quorum, `vote()` produces `VoteBlock(3, 1, 60)` —
a `VoteBlock` for a blockhash different from the locked one. -/
theorem vote_relocks_on_instruction_cex :
    c2hm.last_lock = some ⟨1, 3, 0, .VoteBlock 50⟩ ∧
    (RoundManager.vote ctxP2 head2 c2hm 1).2 = .ok (some ⟨1, 3, 1, .VoteBlock 60⟩) ∧
    (50 : Hash) ≠ 60 :=
  ⟨rfl, rfl, by decide⟩

/-- Claim C3, counterexample: from a fresh engine, six successful
`add_vote` calls — validators 1-3 locking block 50 at round 0 and
repeating that lock at round 1 of height 3 — produce, without any
protocol-failure evidence, a reachable state whose height-3 manager
holds quorum lock-sets in two rounds; `last_quorum_lockset` then fails
its `assert found is None` consistency check. -/
theorem last_quorum_lockset_assert_cex :
    (ConsensusManager.add_votes ctxP2 c3s0 c3votes).2 = .ok () ∧
    (ConsensusManager.add_votes ctxP2 c3s0 c3votes).1.tracked_protocol_failures = [] ∧
    ((ConsensusManager.add_votes ctxP2 c3s0 c3votes).1.hGet 3).last_quorum_lockset =
      .error .AssertionError :=
  ⟨rfl, rfl, rfl⟩

/-- Claim C4, counterexample: proposal `c4p` sits at the current height
and fails two of the seven rules — its signing lock-set's vote by
validator 3 conflicts with a recorded vote (rule 5, vote admission)
and its block number is wrong (rule 6) — yet no
`InvalidProposalEvidence` is appended and the call fails with
`UnboundLocalError` (from the vote ingestion) rather than
`InvalidProposal`. -/
theorem add_proposal_rule_failure_no_evidence_cex :
    (ConsensusManager.add_proposal ctxP2 c4s c4p).2.1 = .error .UnboundLocalError ∧
    Evidence.InvalidProposalEvidence c4p ∉
      (ConsensusManager.add_proposal ctxP2 c4s c4p).1.tracked_protocol_failures ∧
    c4s.cmHeight ≤ c4p.height ∧
    (c4p.block?.map Block.number ≠ some c4p.height) :=
  ⟨rfl, by decide, by decide, by decide⟩

/-- Claim C7, counterexample: a `BlockProposal` two heights above the
current height whose sender 9 is not a validator is not dropped
silently — `add_proposal` appends `InvalidProposalEvidence` and raises
`InvalidProposal`, changing the engine state. -/
theorem future_proposal_not_silent_cex :
    c7s.cmHeight < c7p.height ∧
    (ConsensusManager.add_proposal ctxP2 c7s c7p).2.1 = .error .InvalidProposalError ∧
    (ConsensusManager.add_proposal ctxP2 c7s c7p).1.tracked_protocol_failures =
      [.InvalidProposalEvidence c7p] :=
  ⟨by decide, rfl, rfl⟩

/-- Claim C9, counterexample: adding the same invalid proposal twice
(sender 9 is not a validator) appends a second
`InvalidProposalEvidence` record, so the state after two calls differs
from the state after one. -/
theorem add_proposal_twice_not_idempotent_cex :
    (ConsensusManager.add_proposal ctxP2
        (ConsensusManager.add_proposal ctxP2 c9s c9p).1
        (ConsensusManager.add_proposal ctxP2 c9s c9p).2.2).1.tracked_protocol_failures =
      [.InvalidProposalEvidence c9p, .InvalidProposalEvidence c9p] ∧
    (ConsensusManager.add_proposal ctxP2 c9s c9p).1.tracked_protocol_failures =
      [.InvalidProposalEvidence c9p] ∧
    (ConsensusManager.add_proposal ctxP2
        (ConsensusManager.add_proposal ctxP2 c9s c9p).1
        (ConsensusManager.add_proposal ctxP2 c9s c9p).2.2).1 ≠
      (ConsensusManager.add_proposal ctxP2 c9s c9p).1 :=
  ⟨rfl, rfl, by decide⟩

/-! ### State-preservation lemmas -/

theorem ensureHeight_head (s : ConsensusManager) (h : Nat) :
    (s.ensureHeight h).head = s.head := by
  unfold ConsensusManager.ensureHeight; split <;> rfl

theorem hGet_congr {s t : ConsensusManager} (hh : s.heights = t.heights) (h : Nat) :
    s.hGet h = t.hGet h := by
  unfold ConsensusManager.hGet; rw [hh]

/-- Claim C1 loop lemma: every `commit_block` invocation recorded by the
candidate loop is on a candidate matching the head at the moment of
the call and holding the height's quorum, provided the processed
candidates matched the head on entry and the recursive continuation
satisfies the same trace property. -/
theorem commitLoop_trace
    (rec : ConsensusManager →
      ConsensusManager × List (Proposal × ConsensusManager) × Except PyErr Unit)
    (hrec : ∀ s' e, e ∈ (rec s').2.1 →
      (∃ b, e.1.block? = some b ∧ b.prevhash = e.2.head.hash) ∧
      (e.2.hGet e.1.height).has_quorum = .ok (some e.1.blockhash)) :
    ∀ cands s,
      (∀ c ∈ cands, ∃ b, (c.2 : Proposal).block? = some b ∧ b.prevhash = s.head.hash) →
      ∀ e ∈ (ConsensusManager.commitLoop rec s cands).2.1,
        (∃ b, e.1.block? = some b ∧ b.prevhash = e.2.head.hash) ∧
        (e.2.hGet e.1.height).has_quorum = .ok (some e.1.blockhash)
  | [], s, _, e, he => by simp [ConsensusManager.commitLoop] at he
  | (bh, p) :: rest, s, hc, e, he => by
      rw [ConsensusManager.commitLoop] at he
      split at he
      case _ err heq => simp at he
      case _ q heq =>
        split at he
        case isTrue hqq =>
          rcases List.mem_cons.mp he with he | he
          · subst he
            obtain ⟨b, hb, hbp⟩ := hc (bh, p) (List.mem_cons_self _ _)
            constructor
            · exact ⟨b, hb, by
                show b.prevhash = ((s.ensureHeight p.height).store_proposal p).head.hash
                rw [show ((s.ensureHeight p.height).store_proposal p).head
                      = (s.ensureHeight p.height).head from rfl, ensureHeight_head]
                exact hbp⟩
            · show (((s.ensureHeight p.height).store_proposal p).hGet p.height).has_quorum
                = .ok (some p.blockhash)
              rw [hGet_congr (show ((s.ensureHeight p.height).store_proposal p).heights
                    = (s.ensureHeight p.height).heights from rfl)]
              rw [heq, hqq]
          · exact hrec _ e he
        case isFalse hqq =>
          refine commitLoop_trace rec hrec rest (s.ensureHeight p.height) ?_ e he
          intro c hcm
          obtain ⟨b, hb, hbp⟩ := hc c (List.mem_cons_of_mem _ hcm)
          exact ⟨b, hb, by rw [ensureHeight_head]; exact hbp⟩

/-- Claim C1: along every execution of `ConsensusManager.commit`,
`chainservice.commit_block(p.block)` is invoked only on a block
candidate `p` whose block's `prevhash` equals the head's hash at the
moment of the call and for which `heights[p.height].has_quorum` is
that candidate's blockhash. -/
theorem commit_only_linked_quorum_candidates (fuel : Nat) (s : ConsensusManager) :
    ∀ e ∈ (ConsensusManager.commitAux fuel s).2.1,
      (∃ b, e.1.block? = some b ∧ b.prevhash = e.2.head.hash) ∧
      (e.2.hGet e.1.height).has_quorum = .ok (some e.1.blockhash) := by
  induction fuel generalizing s with
  | zero => intro e he; simp [ConsensusManager.commitAux] at he
  | succ n ih =>
    intro e he
    rw [ConsensusManager.commitAux] at he
    refine commitLoop_trace _ (fun s' e' h' => ih s' e' h') _ s ?_ e he
    intro c hcm
    have hpred := List.of_mem_filter hcm
    revert hpred
    rcases c with ⟨cbh, cp⟩
    rcases cp with ⟨sd, h, r, b, sl, rls⟩ | ⟨sd, h, r, ls⟩
    · intro hpred
      exact ⟨b, rfl, by simpa using hpred⟩
    · intro hpred; simp at hpred

/-- Claim C1 witness: on the concrete state `c1s` — candidate `c1p` on
top of the head with a round-0 quorum for its hash — the trace of
`commit` contains the `commit_block(c1p.block)` invocation at state
`c1sAtCall`, and the theorem yields the matching head and quorum. -/
theorem commit_only_linked_quorum_candidates_witness :
    (∃ b, c1p.block? = some b ∧ b.prevhash = c1sAtCall.head.hash) ∧
    (c1sAtCall.hGet c1p.height).has_quorum = .ok (some c1p.blockhash) :=
  commit_only_linked_quorum_candidates 2 c1s (c1p, c1sAtCall) (by decide)

/-- Claim C10, counterexample: after `cleanup` over a head at number 2,
the height-2 manager — whose height equals the head's number, hence is
at most it — is still present: only managers strictly below the head's
number are dropped. -/
theorem cleanup_keeps_head_height_cex :
    (ConsensusManager.cleanup c10s).heights.lookup 2 = some ⟨2, []⟩ ∧
    (2 : Nat) ≤ c10s.head.number :=
  ⟨rfl, by decide⟩

/-- Claim C10, amended: after `cleanup()`, every remaining block
candidate sits strictly above the head's number (so candidates at or
below it are dropped), while a height manager is retired only when its
height is strictly below the head's number — one at exactly the head's
number survives; nothing else is dropped. -/
theorem cleanup_drops_below_head (s : ConsensusManager) :
    (∀ e ∈ (ConsensusManager.cleanup s).block_candidates,
      s.head.number < (e.2 : Proposal).height) ∧
    (∀ e ∈ (ConsensusManager.cleanup s).heights,
      ¬ (e.2 : HeightManager).height < s.head.number) ∧
    (∀ e ∈ s.block_candidates, s.head.number < (e.2 : Proposal).height →
      e ∈ (ConsensusManager.cleanup s).block_candidates) ∧
    (∀ e ∈ s.heights, ¬ (e.2 : HeightManager).height < s.head.number →
      e ∈ (ConsensusManager.cleanup s).heights) := by
  refine ⟨?_, ?_, ?_, ?_⟩
  · intro e he
    have h2 := (List.mem_filter.mp he).2
    simp only [Bool.not_eq_true', decide_eq_false_iff_not, not_le] at h2
    exact h2
  · intro e he
    have h2 := (List.mem_filter.mp he).2
    simp only [Bool.not_eq_true', decide_eq_false_iff_not, not_lt] at h2
    omega
  · intro e he hlt
    refine List.mem_filter.mpr ⟨he, ?_⟩
    simp only [Bool.not_eq_true', decide_eq_false_iff_not, not_le]
    exact hlt
  · intro e he hlt
    refine List.mem_filter.mpr ⟨he, ?_⟩
    simp only [Bool.not_eq_true', decide_eq_false_iff_not, not_lt]
    omega

/-- Claim C10 witness: in the concrete state `c10s` (head number 2), the
height-3 manager is not below the head and indeed survives
`cleanup`. -/
theorem cleanup_drops_below_head_witness :
    (3, (⟨3, []⟩ : HeightManager)) ∈ (ConsensusManager.cleanup c10s).heights :=
  (cleanup_drops_below_head c10s).2.2.2 (3, ⟨3, []⟩) (by decide) (by decide)

/-- Claim C2, amended: once this validator's `last_lock` at a height is
a `VoteBlock` for blockhash `b`, any `VoteBlock` later produced by
`RoundManager.vote` at that height is either for the same `b` (the
lock is repeated, both against differing `BlockProposal`s and on
timeouts) or follows a round's `VotingInstruction`, which re-locks it
on the blockhash that instruction's lock-set could still bring to
quorum. -/
theorem vote_repeats_lock_unless_instruction
    (ctx : Ctx) (head : Block) (hm : HeightManager) (r : Nat)
    (hr : (hm.rounds.lookup r).isSome = true)
    (l : Vote) (b : Hash) (hl : hm.last_lock = some l) (hk : l.kind = .VoteBlock b)
    (v : Vote) (hv : (RoundManager.vote ctx head hm r).2 = .ok (some v))
    (b' : Hash) (hk' : v.kind = .VoteBlock b') :
    b' = b ∨ ∃ sd h0 r0 ls, (hm.rget r).proposal = some (.vi sd h0 r0 ls) ∧
      ls.has_quorum_possible = some b' := by
  have hens : hm.ensureRound ctx r = hm := by
    unfold HeightManager.ensureRound; rw [if_pos hr]
  unfold RoundManager.vote at hv
  rw [hens] at hv
  simp only [] at hv
  rw [hl] at hv
  split at hv
  · exact absurd hv (by simp)
  · split at hv
    · exact absurd hv (by simp)
    · exact absurd hv (by simp)
    · rename_i v0 hres
      -- peel the post-vote assertion and lock-set insertion
      split at hv
      · exact absurd hv (by simp)
      · split at hv
        · exact absurd hv (by simp)
        · exact absurd hv (by simp)
        · have hvv : v0 = v := by simpa using hv
          subst hvv
          clear hv
          split at hres
          · -- VotingInstruction proposal
            rename_i sd h0 r0 ls hprop
            split at hres
            · exact absurd hres (by simp)
            · rename_i bh hqp
              have h9 : (⟨ctx.coinbase, (hm.rget r).height, r,
                  .VoteBlock bh⟩ : Vote) = v0 := by simpa using hres
              refine Or.inr ⟨sd, h0, r0, ls, hprop, ?_⟩
              rw [hqp]
              rw [← h9] at hk'
              simp only [Vote.kind] at hk'
              cases hk'
              rfl
          · -- BlockProposal proposal
            rename_i sender h0 pr blk sl rls hprop
            split at hres
            · -- last_lock is a VoteBlock: repeat
              rename_i s0 h1 r1 lb heq
              have hlb : l = ⟨s0, h1, r1, .VoteBlock lb⟩ := Option.some.inj heq
              have h9 : (⟨ctx.coinbase, (hm.rget r).height, r,
                  .VoteBlock lb⟩ : Vote) = v0 := by simpa using hres
              rw [← h9] at hk'
              simp only [Vote.kind] at hk'
              have h1 : lb = b' := by
                cases hk'; rfl
              have h2 : lb = b := by
                rw [hlb] at hk; simpa using hk
              exact Or.inl (h1 ▸ h2)
            · -- the catch-all branch cannot apply: the lock is a VoteBlock
              rename_i hne
              exfalso
              exact hne l.sender l.height l.round b (by
                cases l with
                | mk sd hh rr kk => cases hk; rfl)
          · -- no proposal: the timeout branch
            split at hres
            · -- a timeout is armed
              split at hres
              · -- the timer fired: repeat a VoteBlock lock or vote nil
                split at hres
                · rename_i s0 h1 r1 lb heq
                  have hlb : l = ⟨s0, h1, r1, .VoteBlock lb⟩ := Option.some.inj heq
                  have h9 : (⟨ctx.coinbase, (hm.rget r).height, r,
                      .VoteBlock lb⟩ : Vote) = v0 := by simpa using hres
                  rw [← h9] at hk'
                  simp only [Vote.kind] at hk'
                  have h1 : lb = b' := by cases hk'; rfl
                  have h2 : lb = b := by
                    rw [hlb] at hk; simpa using hk
                  exact Or.inl (h1 ▸ h2)
                · -- VoteNil case: contradicts that a VoteBlock was produced
                  have h9 : (⟨ctx.coinbase, (hm.rget r).height, r,
                      VoteKind.VoteNil⟩ : Vote) = v0 := by simpa using hres
                  rw [← h9] at hk'
                  simp only [Vote.kind] at hk'
                  cases hk'
              · exact absurd hres (by simp)
            · exact absurd hres (by simp)

/-- Claim C2 witness: spec scenario 5 — locked on block 50 at round 0,
facing a round-1 `BlockProposal` for a different block 60, the
validator votes `VoteBlock(3, 1, 50)`, repeating its lock. -/
theorem vote_repeats_lock_unless_instruction_witness :
    (50 : Hash) = 50 ∨ ∃ sd h0 r0 ls,
      (c2hmRepeat.rget 1).proposal = some (.vi sd h0 r0 ls) ∧
      ls.has_quorum_possible = some 50 :=
  vote_repeats_lock_unless_instruction ctxP2 head2 c2hmRepeat 1 (by decide)
    ⟨1, 3, 0, .VoteBlock 50⟩ 50 rfl rfl ⟨1, 3, 1, .VoteBlock 50⟩ rfl 50 rfl

/-! ### Sorting and counting lemmas for the quorum-uniqueness claim -/

theorem insertAsc_perm (n : Nat) (l : List Nat) : (insertAsc n l).Perm (n :: l) := by
  induction l with
  | nil => exact List.Perm.refl _
  | cons m ms ih =>
    unfold insertAsc
    split
    · exact List.Perm.refl _
    · exact ((ih.cons m).trans (List.Perm.swap n m ms))

theorem sortAsc_perm (l : List Nat) : (sortAsc l).Perm l := by
  induction l with
  | nil => exact List.Perm.refl _
  | cons m ms ih =>
    exact (insertAsc_perm m (sortAsc ms)).trans (ih.cons m)

theorem countP_congr_mem {α : Type} (l : List α) (p q : α → Bool)
    (h : ∀ a ∈ l, p a = q a) : l.countP p = l.countP q := by
  induction l with
  | nil => rfl
  | cons a as ih =>
    rw [List.countP_cons, List.countP_cons,
      ih (fun b hb => h b (List.mem_cons_of_mem _ hb)), h a (List.mem_cons_self _ _)]

theorem lookup_of_nodup {α : Type} (l : List (Nat × α)) (e : Nat × α)
    (he : e ∈ l) (hnd : (l.map Prod.fst).Nodup) : l.lookup e.1 = some e.2 := by
  induction l with
  | nil => simp at he
  | cons a as ih =>
    rcases List.mem_cons.mp he with he | he
    · subst he
      simp [List.lookup]
    · have hne : e.1 ≠ a.1 := by
        intro hcon
        have : a.1 ∈ as.map Prod.fst := by
          rw [← hcon]
          exact List.mem_map_of_mem _ he
        exact (List.nodup_cons.mp hnd).1 this
      have hbe : (e.1 == a.1) = false := beq_eq_false_iff_ne.mpr hne
      rw [List.lookup, hbe]
      exact ih he (List.nodup_cons.mp hnd).2

/-- Claim C3 loop lemma: the scan of `last_quorum_lockset` over a list
of round keys survives its consistency assertion exactly when the
number of valid quorum lock-sets among them, plus the one already
found, is at most one. -/
theorem lqlGo_ok (hm : HeightManager) (ks : List Nat) (found : Option LockSet) :
    (∃ v, hm.lqlGo ks found = Except.ok v) ↔
      ks.countP (fun k => (hm.rget k).lockset.is_valid &&
        (hm.rget k).lockset.has_quorum.isSome) + (if found.isSome then 1 else 0) ≤ 1 := by
  induction ks generalizing found with
  | nil =>
    simp only [HeightManager.lqlGo, List.countP_nil, Nat.zero_add]
    constructor
    · intro _; split <;> omega
    · intro _; exact ⟨found, rfl⟩
  | cons k ks ih =>
    by_cases hP : ((hm.rget k).lockset.is_valid &&
        (hm.rget k).lockset.has_quorum.isSome) = true
    · cases found with
      | some ls0 =>
        constructor
        · rintro ⟨v, hv⟩
          exfalso
          simp only [HeightManager.lqlGo] at hv
          rw [if_pos hP] at hv
          cases hv
        · intro hle
          exfalso
          rw [List.countP_cons, if_pos hP] at hle
          simp only [Option.isSome_some, if_pos] at hle
          omega
      | none =>
        have hstep : hm.lqlGo (k :: ks) none =
            hm.lqlGo ks (some ((hm.rget k).lockset)) := by
          simp only [HeightManager.lqlGo]
          rw [if_pos hP]
        rw [hstep, ih (some ((hm.rget k).lockset)), List.countP_cons, if_pos hP]
        simp only [Option.isSome_some, Option.isSome_none, Bool.false_eq_true,
          if_true, if_false]
    · have hstep : hm.lqlGo (k :: ks) found = hm.lqlGo ks found := by
        simp only [HeightManager.lqlGo]
        rw [if_neg hP]
      rw [hstep, ih found, List.countP_cons, if_neg hP]
      omega

/-- Claim C3, amended: `last_quorum_lockset` survives its
`assert found is None` consistency check exactly when at most one of
the height's rounds holds a valid lock-set with `has_quorum`; states
violating that bound — where the assertion fires — are reachable
through `add_vote` alone (see the counterexample). -/
theorem last_quorum_lockset_unique (hm : HeightManager)
    (hnd : hm.keys.Nodup) :
    (∃ v, hm.last_quorum_lockset = Except.ok v) ↔
      hm.rounds.countP (fun e => e.2.lockset.is_valid &&
        e.2.lockset.has_quorum.isSome) ≤ 1 := by
  rw [HeightManager.last_quorum_lockset, lqlGo_ok]
  have hz : (if (none : Option LockSet).isSome = true then 1 else 0) = 0 := by
    simp
  rw [hz, Nat.add_zero]
  rw [(sortAsc_perm hm.keys).countP_eq]
  unfold HeightManager.keys
  rw [List.countP_map]
  rw [countP_congr_mem hm.rounds _ _ (fun e he => by
    show ((hm.rget e.1).lockset.is_valid && (hm.rget e.1).lockset.has_quorum.isSome)
      = (e.2.lockset.is_valid && e.2.lockset.has_quorum.isSome)
    rw [show hm.rget e.1 = e.2 from by
      unfold HeightManager.rget
      rw [lookup_of_nodup hm.rounds e he hnd]
      rfl])]

/-- Claim C3 witness: a height manager with a single quorum round
satisfies the bound, and its `last_quorum_lockset` succeeds. -/
theorem last_quorum_lockset_unique_witness :
    ∃ v, c3hmOne.last_quorum_lockset = Except.ok v :=
  (last_quorum_lockset_unique c3hmOne
      (by show ([0] : List Nat).Nodup; exact List.nodup_singleton 0)).mpr
    (by show (1 : Nat) ≤ 1; exact Nat.le_refl 1)

/-- Claim C6: `RoundManager.propose` produces a proposal only when this
validator is the designated proposer and no proposal is set for the
round; in that case, given the last committing lock-set (a quorum), it
produces the `BlockProposal` built from the head candidate with
`signing_lockset` that committing lock-set — with no `round_lockset`
at round 0 and the last valid lock-set attached for a later round with
`has_noquorum` — and, when the last valid lock-set instead satisfies
`has_quorum_possible`, a `VotingInstruction` carrying it. -/
theorem propose_entitled_and_shape
    (ctx : Ctx) (lastCommitting cmLastValid : Option LockSet)
    (hc : Block) (rm : RoundManager) :
    (∀ p, (RoundManager.propose ctx lastCommitting cmLastValid hc rm).2 = .ok (some p) →
      ctx.contract.proposer rm.height rm.round = ctx.coinbase ∧ rm.proposal = none) ∧
    (∀ lc, lastCommitting = some lc → lc.has_quorum.isSome = true →
      ctx.contract.proposer rm.height rm.round = ctx.coinbase → rm.proposal = none →
      rm.round = 0 →
      RoundManager.propose ctx lastCommitting cmLastValid hc rm =
        ({ rm with proposal := some (.bp ctx.coinbase rm.height rm.round hc lc none) },
          .ok (some (.bp ctx.coinbase rm.height rm.round hc lc none)))) ∧
    (∀ lc lv, lastCommitting = some lc → lc.has_quorum.isSome = true →
      cmLastValid = some lv →
      ctx.contract.proposer rm.height rm.round = ctx.coinbase → rm.proposal = none →
      rm.round ≠ 0 → lv.has_noquorum = true →
      RoundManager.propose ctx lastCommitting cmLastValid hc rm =
        ({ rm with
            proposal := some (.bp ctx.coinbase rm.height rm.round hc lc (some lv)) },
          .ok (some (.bp ctx.coinbase rm.height rm.round hc lc (some lv))))) ∧
    (∀ lv, cmLastValid = some lv →
      ctx.contract.proposer rm.height rm.round = ctx.coinbase → rm.proposal = none →
      rm.round ≠ 0 → lv.has_noquorum = false → lv.has_quorum_possible.isSome = true →
      RoundManager.propose ctx lastCommitting cmLastValid hc rm =
        ({ rm with proposal := some (.vi ctx.coinbase rm.height rm.round lv) },
          .ok (some (.vi ctx.coinbase rm.height rm.round lv)))) := by
  refine ⟨?_, ?_, ?_, ?_⟩
  · intro p hp
    unfold RoundManager.propose at hp
    split at hp
    · exact absurd hp (by simp)
    · rename_i hprop
      refine ⟨not_ne_iff.mp hprop, ?_⟩
      split at hp
      · rename_i p0 hp0
        split at hp
        · exact absurd hp (by simp)
        · split at hp
          · exact absurd hp (by simp)
          · exact absurd hp (by simp)
      · rename_i hnone
        exact hnone
  · intro lc hlc hq hprop hnone h0
    obtain ⟨bh, hbh⟩ := Option.isSome_iff_exists.mp hq
    simp [RoundManager.propose, hprop, hnone, hlc, h0, hbh]
    exact h0 ▸ hprop
  · intro lc lv hlc hq hlv hprop hnone hr0 hnq
    obtain ⟨bh, hbh⟩ := Option.isSome_iff_exists.mp hq
    simp [RoundManager.propose, hprop, hnone, hlc, hlv, hr0, hnq, hbh]
  · intro lv hlv hprop hnone hr0 hnq hqp
    simp [RoundManager.propose, hprop, hnone, hlv, hr0, hnq, hqp]

/-- Claim C6 witness: at round 0 with the committing quorum `slH2`, the
designated proposer 1 produces the block proposal built from the head
candidate, signing lock-set `slH2` and no round lock-set. -/
theorem propose_entitled_and_shape_witness :
    RoundManager.propose ctxP1 (some slH2) (some c6lsNQ) ⟨3, 100, 222⟩ c6rm0 =
      ({ c6rm0 with proposal := some (.bp 1 3 0 ⟨3, 100, 222⟩ slH2 none) },
        .ok (some (.bp 1 3 0 ⟨3, 100, 222⟩ slH2 none))) :=
  (propose_entitled_and_shape ctxP1 (some slH2) (some c6lsNQ)
      ⟨3, 100, 222⟩ c6rm0).2.1 slH2 rfl rfl rfl rfl rfl

/-! ### Vote-ingestion preservation and error-classification lemmas -/

theorem add_vote_fields (ctx : Ctx) (s : ConsensusManager) (v : Vote) :
    (ConsensusManager.add_vote ctx s v).1.head = s.head ∧
    (ConsensusManager.add_vote ctx s v).1.block_candidates = s.block_candidates ∧
    (ConsensusManager.add_vote ctx s v).1.stored = s.stored := by
  unfold ConsensusManager.add_vote
  split
  · exact ⟨rfl, rfl, rfl⟩
  · simp only []
    split
    · exact ⟨ensureHeight_head s v.height, by
        show (s.ensureHeight v.height).block_candidates = s.block_candidates
        unfold ConsensusManager.ensureHeight; split <;> rfl, by
        show (s.ensureHeight v.height).stored = s.stored
        unfold ConsensusManager.ensureHeight; split <;> rfl⟩
    · exact ⟨ensureHeight_head s v.height, by
        show (s.ensureHeight v.height).block_candidates = s.block_candidates
        unfold ConsensusManager.ensureHeight; split <;> rfl, by
        show (s.ensureHeight v.height).stored = s.stored
        unfold ConsensusManager.ensureHeight; split <;> rfl⟩

theorem add_votes_fields (ctx : Ctx) :
    ∀ (vs : List Vote) (s : ConsensusManager),
    (ConsensusManager.add_votes ctx s vs).1.head = s.head ∧
    (ConsensusManager.add_votes ctx s vs).1.block_candidates = s.block_candidates ∧
    (ConsensusManager.add_votes ctx s vs).1.stored = s.stored
  | [], s => ⟨rfl, rfl, rfl⟩
  | v :: vs, s => by
      rw [ConsensusManager.add_votes]
      rcases hres : ConsensusManager.add_vote ctx s v with ⟨s', res⟩
      have hf := add_vote_fields ctx s v
      rw [hres] at hf
      rcases res with e | x
      · exact hf
      · have hrest := add_votes_fields ctx vs s'
        exact ⟨hrest.1.trans hf.1, hrest.2.1.trans hf.2.1, hrest.2.2.trans hf.2.2⟩

theorem add_vote_err (ctx : Ctx) (s : ConsensusManager) (v : Vote) (e : PyErr)
    (h : (ConsensusManager.add_vote ctx s v).2 = .error e) :
    e = .AssertionError ∨ e = .UnboundLocalError := by
  unfold ConsensusManager.add_vote at h
  split at h
  · exact Or.inl (by simpa using (Except.error.inj h).symm)
  · simp only [] at h
    split at h
    · simp at h
    · exact Or.inr (by simpa using (Except.error.inj h).symm)

theorem add_votes_err (ctx : Ctx) :
    ∀ (vs : List Vote) (s : ConsensusManager) (e : PyErr),
    (ConsensusManager.add_votes ctx s vs).2 = .error e →
    e = .AssertionError ∨ e = .UnboundLocalError
  | [], s, e, h => by simp [ConsensusManager.add_votes] at h
  | v :: vs, s, e, h => by
      rw [ConsensusManager.add_votes] at h
      rcases hres : ConsensusManager.add_vote ctx s v with ⟨s', res⟩
      rw [hres] at h
      rcases res with e0 | x
      · have := add_vote_err ctx s v e0 (by rw [hres])
        have he0 : e0 = e := by simpa using h
        exact he0 ▸ this
      · exact add_votes_err ctx vs s' e h

theorem add_block_proposal_err (ctx : Ctx) (s : ConsensusManager) (p : Proposal)
    (e : PyErr) (h : (ConsensusManager.add_block_proposal ctx s p).2 = .error e) :
    e = .AssertionError ∨ e = .UnboundLocalError := by
  unfold ConsensusManager.add_block_proposal at h
  split at h
  · exact Or.inl (by simpa using (Except.error.inj h).symm)
  · split at h
    · simp at h
    · split at h
      · exact Or.inl (by simpa using (Except.error.inj h).symm)
      · split at h
        · exact Or.inl (by simpa using (Except.error.inj h).symm)
        · split at h
          · rename_i s' e0 hres
            have := add_votes_err ctx _ _ e0 (by rw [hres])
            have he0 : e0 = e := by simpa using h
            exact he0 ▸ this
          · simp at h

theorem hm_add_proposal_err (ctx : Ctx) (hm : HeightManager) (p : Proposal)
    (e : PyErr) (h : (HeightManager.add_proposal ctx hm p).2 = .error e) :
    e = .AssertionError ∨ e = .AttributeError := by
  unfold HeightManager.add_proposal at h
  simp only [] at h
  split at h
  · exact Or.inr (by simpa using (Except.error.inj h).symm)
  · split at h
    · exact Or.inl (by simpa using (Except.error.inj h).symm)
    · split at h
      · exact Or.inl (by simpa using (Except.error.inj h).symm)
      · split at h
        · exact Or.inr (by simpa using (Except.error.inj h).symm)
        · split at h
          · split at h
            · exact Or.inl (by simpa using (Except.error.inj h).symm)
            · simp at h
          · simp at h

/-- Claim C7, amended: a `BlockProposal` strictly above the current
height that passes the validation checks (with the link check not
applicable) and whose lock-set votes admit cleanly is dropped without
error and without touching the block candidates, head, or persisted
proposals — but only after its lock-set votes have been ingested, so
the heights state may change. -/
theorem future_proposal_drop_after_checks
    (ctx : Ctx) (s : ConsensusManager) (sd : Address) (h r : Nat) (blk : Block)
    (sl : LockSet) (rls : Option LockSet) (ls : LockSet)
    (hfut : s.cmHeight < h)
    (hls : (Proposal.bp sd h r blk sl rls).lockset? = some ls)
    (hchk : ¬ checksFail ctx s (Proposal.bp sd h r blk sl rls) ls)
    (hclean : (ConsensusManager.add_votes ctx s ls.votes).2 = .ok ()) :
    ConsensusManager.add_proposal ctx s (Proposal.bp sd h r blk sl rls) =
      ((ConsensusManager.add_votes ctx s ls.votes).1, .ok none,
        Proposal.bp sd h r blk sl rls) ∧
    (ConsensusManager.add_votes ctx s ls.votes).1.block_candidates =
      s.block_candidates ∧
    (ConsensusManager.add_votes ctx s ls.votes).1.head = s.head ∧
    (ConsensusManager.add_votes ctx s ls.votes).1.stored = s.stored := by
  have hnl : ¬ ((Proposal.bp sd h r blk sl rls).height < s.cmHeight) := by
    simp only [Proposal.height]; omega
  have hfold : ConsensusManager.add_votes ctx s ls.votes =
      ((ConsensusManager.add_votes ctx s ls.votes).1, .ok ()) := by
    rw [← hclean]
  rw [checksFail] at hchk
  push_neg at hchk
  obtain ⟨⟨hval, hprop⟩, hvalid, hh3, hh4, hbp⟩ := hchk
  obtain ⟨hnum, hnq, hlink⟩ := hbp
  simp only [Proposal.height, Proposal.round] at hh3 hh4
  refine ⟨?_, (add_votes_fields ctx ls.votes s).2.1,
    (add_votes_fields ctx ls.votes s).1, (add_votes_fields ctx ls.votes s).2.2⟩
  have hfut1 : (ConsensusManager.add_votes ctx s ls.votes).1.cmHeight < h := by
    show (ConsensusManager.add_votes ctx s ls.votes).1.head.number + 1 < h
    rw [(add_votes_fields ctx ls.votes s).1]
    exact hfut
  unfold ConsensusManager.add_proposal
  rw [if_neg hnl]
  split
  · rename_i hbad
    exfalso
    simp only [hval, hprop, Bool.and_self, Bool.not_true] at hbad
    cases hbad
  · split
    · rename_i hbad
      rw [hls] at hbad
      cases hbad
    · rename_i ls0 heq0
      rw [hls] at heq0
      cases Option.some.inj heq0
      split
      · rename_i hbad
        exfalso
        rw [hvalid] at hbad
        simp at hbad
      · split
        · rename_i hbad
          exfalso
          rcases hh3 with h3 | h3 <;> simp [h3, Proposal.height,
            Proposal.round] at hbad
        · split
          · rename_i hbad
            exfalso
            rcases hh4 with h4 | h4 <;> simp [h4, Proposal.round] at hbad
          · rw [hfold]
            split
            · rename_i hbad
              exfalso
              simp at hbad
            · rename_i s' heqf
              obtain rfl : (ConsensusManager.add_votes ctx s ls.votes).1 = s' :=
                congrArg Prod.fst heqf
              split
              · -- the BlockProposal arm of the variant match
                rename_i hpeq
                obtain ⟨rfl, rfl, rfl, rfl, rfl, rfl⟩ := hpeq
                split
                · rename_i hbad
                  exfalso
                  simp [hnum] at hbad
                · split
                  · rename_i hbad
                    exfalso
                    rcases hnq with h6 | h6 <;> simp [h6] at hbad
                  · rfl
              · rename_i hpeq
                exfalso
                simp at hpeq

/-- Claim C7 witness: the valid height-4 proposal `c7pFuture`, one above
the current height, is dropped with an ok-none result after ingesting
its signing votes; candidates, head and persisted proposals are
untouched. -/
theorem future_proposal_drop_after_checks_witness :
    ConsensusManager.add_proposal ctxP2 c7s (Proposal.bp 2 4 0 ⟨4, 150, 250⟩
        c7slFuture none) =
      ((ConsensusManager.add_votes ctxP2 c7s c7slFuture.votes).1, .ok none,
        Proposal.bp 2 4 0 ⟨4, 150, 250⟩ c7slFuture none) ∧
    (ConsensusManager.add_votes ctxP2 c7s c7slFuture.votes).1.block_candidates =
      c7s.block_candidates ∧
    (ConsensusManager.add_votes ctxP2 c7s c7slFuture.votes).1.head = c7s.head ∧
    (ConsensusManager.add_votes ctxP2 c7s c7slFuture.votes).1.stored = c7s.stored :=
  future_proposal_drop_after_checks ctxP2 c7s 2 4 0 ⟨4, 150, 250⟩ c7slFuture none
    c7slFuture (by decide) rfl (by unfold checksFail; decide) rfl

theorem not_bang_eq_true {b : Bool} (h : ¬ (!b) = true) : b = true := by
  cases b
  · simp at h
  · rfl

theorem track_getLast (σ : ConsensusManager) (p : Proposal) :
    ((σ.track [.InvalidProposalEvidence p]).tracked_protocol_failures).getLast?
      = some (.InvalidProposalEvidence p) :=
  List.getLast?_concat _

/-- Claim C4, amended: a proposal below the current height returns
silently with the state unchanged; at or above the current height,
when the lock-set's votes all admit cleanly, the call fails with
`InvalidProposal` exactly when one of the `check` validations fails
(the link check being skipped above the current height), and on such a
failure the `InvalidProposalEvidence(p)` record is the last appended
evidence.  (Vote-admission failures instead escape with the
ingestion's own error and no such evidence — see the
counterexample.) -/
theorem add_proposal_checks_characterization
    (ctx : Ctx) (s : ConsensusManager) (p : Proposal) :
    (p.height < s.cmHeight → ConsensusManager.add_proposal ctx s p = (s, .ok none, p)) ∧
    (∀ ls, p.lockset? = some ls → s.cmHeight ≤ p.height →
      (ConsensusManager.add_votes ctx s ls.votes).2 = .ok () →
      (((ConsensusManager.add_proposal ctx s p).2.1 = .error .InvalidProposalError) ↔
        checksFail ctx s p ls) ∧
      ((ConsensusManager.add_proposal ctx s p).2.1 = .error .InvalidProposalError →
        (ConsensusManager.add_proposal ctx s p).1.tracked_protocol_failures.getLast?
          = some (.InvalidProposalEvidence p))) := by
  constructor
  · intro hlt
    unfold ConsensusManager.add_proposal
    rw [if_pos hlt]
  · intro ls hls hge hclean
    have hnl : ¬ (p.height < s.cmHeight) := by omega
    have hfold : ConsensusManager.add_votes ctx s ls.votes =
        ((ConsensusManager.add_votes ctx s ls.votes).1, .ok ()) := by
      rw [← hclean]
    rcases hAP : ConsensusManager.add_proposal ctx s p with ⟨s', res, p'⟩
    unfold ConsensusManager.add_proposal at hAP
    rw [if_neg hnl] at hAP
    split at hAP
    · -- validator/proposer check fails
      rename_i hbad
      rw [Prod.mk.injEq] at hAP
      obtain ⟨rfl, hAP2⟩ := hAP
      rw [Prod.mk.injEq] at hAP2
      obtain ⟨rfl, rfl⟩ := hAP2
      refine ⟨⟨fun _ => Or.inl ?_, fun _ => rfl⟩, fun _ => track_getLast s p⟩
      intro ⟨ha, hb⟩
      rw [ha, hb] at hbad
      simp at hbad
    · rename_i hgood1
      have hc1 : ctx.contract.isvalidator p.sender = true ∧
          ctx.contract.isproposer p = true :=
        Bool.and_eq_true_iff.mp (not_bang_eq_true hgood1)
      split at hAP
      · rename_i hnone
        rw [hls] at hnone
        cases hnone
      · rename_i ls0 heq0
        rw [hls] at heq0
        cases Option.some.inj heq0
        split at hAP
        · -- lock-set validity fails
          rename_i hbad
          rw [Prod.mk.injEq] at hAP
          obtain ⟨rfl, hAP2⟩ := hAP
          rw [Prod.mk.injEq] at hAP2
          obtain ⟨rfl, rfl⟩ := hAP2
          refine ⟨⟨fun _ => Or.inr (Or.inl ?_), fun _ => rfl⟩,
            fun _ => track_getLast s p⟩
          intro ha
          rw [ha] at hbad
          simp at hbad
        · rename_i hgood2
          have hc2 : ls.is_valid = true := not_bang_eq_true hgood2
          split at hAP
          · -- lock-set height check fails
            rename_i hbad
            rw [Prod.mk.injEq] at hAP
            obtain ⟨rfl, hAP2⟩ := hAP
            rw [Prod.mk.injEq] at hAP2
            obtain ⟨rfl, rfl⟩ := hAP2
            refine ⟨⟨fun _ => Or.inr (Or.inr (Or.inl ?_)), fun _ => rfl⟩,
              fun _ => track_getLast s p⟩
            intro hor
            rcases hor with ha | ha <;> simp [ha] at hbad
          · rename_i hgood3
            have hc3 : ls.lsHeight = p.height ∨ p.round = 0 := by
              have hb := not_bang_eq_true hgood3
              simp only [Bool.or_eq_true, decide_eq_true_eq] at hb
              exact hb
            split at hAP
            · -- lock-set round check fails
              rename_i hbad
              rw [Prod.mk.injEq] at hAP
              obtain ⟨rfl, hAP2⟩ := hAP
              rw [Prod.mk.injEq] at hAP2
              obtain ⟨rfl, rfl⟩ := hAP2
              refine ⟨⟨fun _ => Or.inr (Or.inr (Or.inr (Or.inl ?_))), fun _ => rfl⟩,
                fun _ => track_getLast s p⟩
              intro hor
              rcases hor with ha | ha <;> simp [ha] at hbad
            · rename_i hgood4
              have hc4 : p.round = ls.lsRound + 1 ∨ p.round = 0 := by
                have hb := not_bang_eq_true hgood4
                simp only [Bool.or_eq_true, decide_eq_true_eq] at hb
                exact hb
              rw [hfold] at hAP
              split at hAP
              · -- impossible: the vote fold returned ok
                rename_i heqf
                exfalso
                simp at heqf
              · rename_i s1 heqf
                obtain rfl : (ConsensusManager.add_votes ctx s ls.votes).1 = s1 :=
                  congrArg Prod.fst heqf
                split at hAP
                · -- BlockProposal variant
                  rename_i sd h r blk sl rls
                  simp only [Proposal.height] at hnl hge
                  split at hAP
                  · -- block number check fails
                    rename_i hbad
                    rw [Prod.mk.injEq] at hAP
                    obtain ⟨rfl, hAP2⟩ := hAP
                    rw [Prod.mk.injEq] at hAP2
                    obtain ⟨rfl, rfl⟩ := hAP2
                    refine ⟨⟨fun _ => Or.inr (Or.inr (Or.inr (Or.inr (Or.inl hbad)))),
                      fun _ => rfl⟩, fun _ => track_getLast _ _⟩
                  · rename_i hgood5
                    have hc5 : blk.number = h := not_not.mp hgood5
                    split at hAP
                    · -- no-quorum justification fails
                      rename_i hbad
                      rw [Prod.mk.injEq] at hAP
                      obtain ⟨rfl, hAP2⟩ := hAP
                      rw [Prod.mk.injEq] at hAP2
                      obtain ⟨rfl, rfl⟩ := hAP2
                      refine ⟨⟨fun _ =>
                        Or.inr (Or.inr (Or.inr (Or.inr (Or.inr (Or.inl ?_))))),
                        fun _ => rfl⟩, fun _ => track_getLast _ _⟩
                      intro hor
                      rcases hor with ha | ha <;> simp [ha] at hbad
                    · rename_i hgood6
                      have hc6 : ls.has_noquorum = true ∨ r = 0 := by
                        have hb := not_bang_eq_true hgood6
                        simp only [Bool.or_eq_true, decide_eq_true_eq] at hb
                        exact hb
                      split at hAP
                      · -- dropped above the current height
                        rename_i hfut
                        have hfut' : s.cmHeight < h := by
                          have hh := (add_votes_fields ctx ls.votes s).1
                          show s.head.number + 1 < h
                          rw [← hh]
                          exact hfut
                        rw [Prod.mk.injEq] at hAP
                        obtain ⟨rfl, hAP2⟩ := hAP
                        rw [Prod.mk.injEq] at hAP2
                        obtain ⟨rfl, rfl⟩ := hAP2
                        have hncf0 : ¬ checksFail ctx s
                            (Proposal.bp sd h r blk sl rls) ls := by
                          intro hcf
                          rcases hcf with hx | hx | hx | hx | hx | hx | ⟨hx, _⟩
                          · exact hx hc1
                          · exact hx hc2
                          · exact hx hc3
                          · exact hx hc4
                          · exact hx hc5
                          · exact hx hc6
                          · exact hx hfut'
                        exact ⟨⟨fun hcon => by simp at hcon,
                          fun hcf => absurd hcf hncf0⟩, fun hcon => by simp at hcon⟩
                      · rename_i hnfut
                        have hnfut' : ¬ s.cmHeight < h := by
                          have hh := (add_votes_fields ctx ls.votes s).1
                          intro hcon
                          exact hnfut (by
                            show (ConsensusManager.add_votes ctx s ls.votes).1.head.number
                              + 1 < h
                            rw [hh]; exact hcon)
                        split at hAP
                        · -- linking fails
                          rename_i hlinkn
                          rw [Prod.mk.injEq] at hAP
                          obtain ⟨rfl, hAP2⟩ := hAP
                          rw [Prod.mk.injEq] at hAP2
                          obtain ⟨rfl, rfl⟩ := hAP2
                          refine ⟨⟨fun _ =>
                            Or.inr (Or.inr (Or.inr (Or.inr (Or.inr (Or.inr
                              ⟨hnfut', hlinkn⟩))))),
                            fun _ => rfl⟩, fun _ => track_getLast _ _⟩
                        · rename_i blk' hlinky
                          have hncf : ¬ checksFail ctx s
                              (Proposal.bp sd h r blk sl rls) ls := by
                            intro hcf
                            rcases hcf with hx | hx | hx | hx | hx | hx | ⟨_, hx⟩
                            · exact hx hc1
                            · exact hx hc2
                            · exact hx hc3
                            · exact hx hc4
                            · exact hx hc5
                            · exact hx hc6
                            · rw [hx] at hlinky; cases hlinky
                          simp only [] at hAP
                          split at hAP
                          · -- add_block_proposal escaped with an error
                            rename_i s2 e habp
                            rw [Prod.mk.injEq] at hAP
                            obtain ⟨rfl, hAP2⟩ := hAP
                            rw [Prod.mk.injEq] at hAP2
                            obtain ⟨rfl, rfl⟩ := hAP2
                            have he := add_block_proposal_err ctx
                              (ConsensusManager.add_votes ctx s ls.votes).1
                              (Proposal.bp sd h r blk' sl rls) e (by rw [habp])
                            refine ⟨⟨fun hcon => ?_, fun hcf => absurd hcf hncf⟩,
                              fun hcon => ?_⟩
                            · rcases he with he | he <;>
                                rw [he] at hcon <;> cases Except.error.inj hcon
                            · rcases he with he | he <;>
                                rw [he] at hcon <;> cases Except.error.inj hcon
                          · rename_i s2 habp
                            split at hAP
                            · -- the height manager escaped with an error
                              rename_i hm' e hhm
                              rw [Prod.mk.injEq] at hAP
                              obtain ⟨rfl, hAP2⟩ := hAP
                              rw [Prod.mk.injEq] at hAP2
                              obtain ⟨rfl, rfl⟩ := hAP2
                              have he := hm_add_proposal_err ctx _ _ e (by rw [hhm])
                              refine ⟨⟨fun hcon => ?_, fun hcf => absurd hcf hncf⟩,
                                fun hcon => ?_⟩
                              · rcases he with he | he <;>
                                  rw [he] at hcon <;> cases Except.error.inj hcon
                              · rcases he with he | he <;>
                                  rw [he] at hcon <;> cases Except.error.inj hcon
                            · rename_i hm' b hhm
                              rw [Prod.mk.injEq] at hAP
                              obtain ⟨rfl, hAP2⟩ := hAP
                              rw [Prod.mk.injEq] at hAP2
                              obtain ⟨rfl, rfl⟩ := hAP2
                              exact ⟨⟨fun hcon => by simp at hcon,
                                fun hcf => absurd hcf hncf⟩,
                                fun hcon => by simp at hcon⟩
                · -- VotingInstruction variant
                  rename_i sd h r lsv
                  split at hAP
                  · -- quorum-possible check fails
                    rename_i hbad
                    rw [Prod.mk.injEq] at hAP
                    obtain ⟨rfl, hAP2⟩ := hAP
                    rw [Prod.mk.injEq] at hAP2
                    obtain ⟨rfl, rfl⟩ := hAP2
                    refine ⟨⟨fun _ => Or.inr (Or.inr (Or.inr (Or.inr ?_))),
                      fun _ => rfl⟩, fun _ => track_getLast _ _⟩
                    exact Option.isNone_iff_eq_none.mp (by simpa using hbad)
                  · rename_i hgood7
                    have hc7 : ¬ ls.has_quorum_possible = none := by
                      intro hcon
                      exact hgood7 (by simp [hcon])
                    have hncf : ¬ checksFail ctx s (Proposal.vi sd h r lsv) ls := by
                      intro hcf
                      rcases hcf with hx | hx | hx | hx | hx
                      · exact hx hc1
                      · exact hx hc2
                      · exact hx hc3
                      · exact hx hc4
                      · exact hc7 hx
                    simp only [] at hAP
                    split at hAP
                    · rename_i hm' e hhm
                      rw [Prod.mk.injEq] at hAP
                      obtain ⟨rfl, hAP2⟩ := hAP
                      rw [Prod.mk.injEq] at hAP2
                      obtain ⟨rfl, rfl⟩ := hAP2
                      have he := hm_add_proposal_err ctx _ _ e (by rw [hhm])
                      refine ⟨⟨fun hcon => ?_, fun hcf => absurd hcf hncf⟩,
                        fun hcon => ?_⟩
                      · rcases he with he | he <;>
                          rw [he] at hcon <;> cases Except.error.inj hcon
                      · rcases he with he | he <;>
                          rw [he] at hcon <;> cases Except.error.inj hcon
                    · rename_i hm' b hhm
                      rw [Prod.mk.injEq] at hAP
                      obtain ⟨rfl, hAP2⟩ := hAP
                      rw [Prod.mk.injEq] at hAP2
                      obtain ⟨rfl, rfl⟩ := hAP2
                      exact ⟨⟨fun hcon => by simp at hcon,
                        fun hcf => absurd hcf hncf⟩,
                        fun hcon => by simp at hcon⟩

/-- Claim C4 witness: proposal `c4pBad` from a non-proposer at the
current height, over a clean state: the characterization applies —
the call fails with `InvalidProposal` iff a check fails (here the
proposer check), and then `InvalidProposalEvidence` is the last
appended record. -/
theorem add_proposal_checks_characterization_witness :
    (((ConsensusManager.add_proposal ctxP2 c4sClean c4pBad).2.1 =
        .error .InvalidProposalError) ↔ checksFail ctxP2 c4sClean c4pBad slH2) ∧
    ((ConsensusManager.add_proposal ctxP2 c4sClean c4pBad).2.1 =
        .error .InvalidProposalError →
      (ConsensusManager.add_proposal ctxP2 c4sClean
          c4pBad).1.tracked_protocol_failures.getLast?
        = some (.InvalidProposalEvidence c4pBad)) :=
  (add_proposal_checks_characterization ctxP2 c4sClean c4pBad).2 slH2 rfl
    (by decide) rfl
/-! ### Association-list toolkit (Python `dict` behaviour of the
`ManagerDict`s and the candidate map) -/

theorem lookup_cons_self {α : Type} (a : Nat) (b : α) (es : List (Nat × α)) :
    ((a, b) :: es).lookup a = some b := by
  rw [List.lookup, beq_self_eq_true]

theorem lookup_cons_ne {α : Type} (a : Nat) (b : α) (es : List (Nat × α))
    (k : Nat) (h : ¬ k = a) : ((a, b) :: es).lookup k = es.lookup k := by
  rw [List.lookup, beq_eq_false_iff_ne.mpr h]

theorem lookup_mem {α : Type} : ∀ (l : List (Nat × α)) (k : Nat) (x : α),
    l.lookup k = some x → (k, x) ∈ l
  | (a, b) :: es, k, x, h => by
      by_cases hk : k = a
      · subst hk
        rw [lookup_cons_self] at h
        rw [← Option.some.inj h]
        exact List.mem_cons_self _ _
      · rw [lookup_cons_ne a b es k hk] at h
        exact List.mem_cons_of_mem _ (lookup_mem es k x h)

theorem mem_keys_lookup {α : Type} : ∀ (l : List (Nat × α)) (k : Nat),
    k ∈ l.map Prod.fst ↔ (l.lookup k).isSome
  | [], k => by simp [List.lookup]
  | (a, b) :: es, k => by
      by_cases hk : k = a
      · subst hk
        rw [lookup_cons_self]
        simp
      · rw [lookup_cons_ne a b es k hk]
        simp only [List.map_cons, List.mem_cons]
        rw [mem_keys_lookup es k]
        constructor
        · rintro (h | h)
          · exact absurd h hk
          · exact h
        · exact fun h => Or.inr h

theorem lookup_map_upd {α : Type} : ∀ (l : List (Nat × α)) (k r : Nat) (x : α),
    (l.map (fun e => if e.1 = r then (r, x) else e)).lookup k =
      if k = r then (l.lookup r).map (fun _ => x) else l.lookup k
  | [], k, r, x => by by_cases hk : k = r <;> simp [hk, List.lookup]
  | (a, b) :: es, k, r, x => by
      simp only [List.map_cons]
      by_cases har : a = r
      · rw [if_pos har]
        subst har
        by_cases hk : k = a
        · subst hk
          rw [lookup_cons_self, if_pos rfl, lookup_cons_self]
          rfl
        · rw [lookup_cons_ne a x _ k hk, lookup_map_upd es k a x,
            lookup_cons_ne a b es k hk, if_neg hk, if_neg hk]
      · rw [if_neg har]
        by_cases hk : k = a
        · subst hk
          rw [lookup_cons_self, lookup_cons_self,
            if_neg (fun hc : k = r => har hc)]
        · rw [lookup_cons_ne a b _ k hk, lookup_map_upd es k r x,
            lookup_cons_ne a b es k hk]
          by_cases hkr : k = r
          · rw [if_pos hkr, if_pos hkr,
              lookup_cons_ne a b es r (fun hc : r = a => har hc.symm)]
          · rw [if_neg hkr, if_neg hkr]

theorem map_eq_self {α : Type} : ∀ (l : List α) (f : α → α),
    (∀ e ∈ l, f e = e) → l.map f = l
  | [], _, _ => rfl
  | e :: es, f, h => by
      rw [List.map_cons, h e (List.mem_cons_self _ _),
        map_eq_self es f (fun x hx => h x (List.mem_cons_of_mem _ hx))]

theorem map_upd_self {α : Type} : ∀ (l : List (Nat × α)) (k : Nat) (x : α),
    (l.map Prod.fst).Nodup → l.lookup k = some x →
    l.map (fun e => if e.1 = k then (k, x) else e) = l
  | (a, b) :: es, k, x, hnd, hlk => by
      rw [List.map_cons] at hnd
      simp only [List.map_cons]
      by_cases hk : k = a
      · subst hk
        rw [lookup_cons_self] at hlk
        rw [if_pos rfl, ← Option.some.inj hlk, map_eq_self]
        intro w hw
        rw [if_neg]
        intro hc
        have hm : w.1 ∈ es.map Prod.fst := List.mem_map_of_mem Prod.fst hw
        rw [hc] at hm
        exact (List.nodup_cons.mp hnd).1 hm
      · rw [lookup_cons_ne a b es k hk] at hlk
        rw [if_neg (fun hc : a = k => hk hc.symm),
          map_upd_self es k x (List.nodup_cons.mp hnd).2 hlk]

theorem lookup_append {α : Type} : ∀ (l : List (Nat × α)) (k r : Nat) (x : α),
    (l ++ [(r, x)]).lookup k =
      match l.lookup k with
      | some y => some y
      | none => if k = r then some x else none
  | [], k, r, x => by
      by_cases hk : k = r
      · subst hk
        rw [List.nil_append, List.lookup, lookup_cons_self, if_pos rfl]
      · rw [List.nil_append, List.lookup, lookup_cons_ne r x [] k hk,
          List.lookup, if_neg hk]
  | (a, b) :: es, k, r, x => by
      rw [List.cons_append]
      by_cases hk : k = a
      · subst hk
        rw [lookup_cons_self, lookup_cons_self]
      · rw [lookup_cons_ne a b _ k hk, lookup_cons_ne a b es k hk,
          lookup_append es k r x]

theorem keys_map_upd {α : Type} (l : List (Nat × α)) (r : Nat) (x : α) :
    (l.map (fun e => if e.1 = r then (r, x) else e)).map Prod.fst =
      l.map Prod.fst := by
  rw [List.map_map]
  apply List.map_congr_left
  intro e _
  show (if e.1 = r then ((r, x) : Nat × α) else e).1 = e.1
  by_cases he : e.1 = r
  · rw [if_pos he, he]
  · rw [if_neg he]

theorem findSome?_congr {α β : Type} (f g : α → Option β) :
    ∀ (l : List α), (∀ a ∈ l, f a = g a) → l.findSome? f = l.findSome? g
  | [], _ => rfl
  | a :: as, h => by
      have ih := findSome?_congr f g as
        (fun x hx => h x (List.mem_cons_of_mem _ hx))
      rw [List.findSome?_cons, List.findSome?_cons,
        h a (List.mem_cons_self _ _), ih]

theorem findSome?_append {α β : Type} (f : α → Option β) :
    ∀ (l₁ l₂ : List α), (l₁ ++ l₂).findSome? f =
      match l₁.findSome? f with
      | some b => some b
      | none => l₂.findSome? f
  | [], l₂ => rfl
  | a :: as, l₂ => by
      rw [List.cons_append, List.findSome?_cons, List.findSome?_cons]
      cases f a with
      | some b => rfl
      | none => exact findSome?_append f as l₂

theorem insertAsc_sorted (n : Nat) :
    ∀ (l : List Nat), l.Sorted (· ≤ ·) → (insertAsc n l).Sorted (· ≤ ·)
  | [], _ => by simp [insertAsc]
  | m :: ms, h => by
      rw [insertAsc]
      rcases List.sorted_cons.mp h with ⟨hm, hms⟩
      by_cases hnm : n ≤ m
      · rw [if_pos hnm]
        refine List.sorted_cons.mpr ⟨?_, h⟩
        intro b hb
        rcases List.mem_cons.mp hb with rfl | hb
        · exact hnm
        · exact hnm.trans (hm b hb)
      · rw [if_neg hnm]
        refine List.sorted_cons.mpr ⟨?_, insertAsc_sorted n ms hms⟩
        intro b hb
        have hbm := (insertAsc_perm n ms).mem_iff.mp hb
        rcases List.mem_cons.mp hbm with rfl | hb'
        · omega
        · exact hm b hb'

theorem sortAsc_sorted : ∀ (l : List Nat), (sortAsc l).Sorted (· ≤ ·)
  | [] => by simp [sortAsc]
  | a :: as => by
      rw [sortAsc, List.foldr_cons]
      exact insertAsc_sorted a _ (sortAsc_sorted as)

theorem sortAsc_append_singleton (l : List Nat) (r : Nat) :
    sortAsc (l ++ [r]) = insertAsc r (sortAsc l) := by
  refine List.eq_of_perm_of_sorted ?_ (sortAsc_sorted _)
    (insertAsc_sorted r _ (sortAsc_sorted l))
  exact ((sortAsc_perm (l ++ [r])).trans
    ((List.perm_append_singleton r l).trans
      ((sortAsc_perm l).symm.cons r))).trans (insertAsc_perm r (sortAsc l)).symm

theorem findSome?_reverse_insert {β : Type} (f g : Nat → Option β) (r : Nat)
    (hr : g r = none) :
    ∀ (L : List Nat), (∀ k ∈ L, g k = f k) →
      (insertAsc r L).reverse.findSome? g = L.reverse.findSome? f
  | [], _ => by simp [insertAsc, List.findSome?_cons, hr]
  | m :: ms, hall => by
      rw [insertAsc]
      by_cases hrm : r ≤ m
      · rw [if_pos hrm]
        rw [List.reverse_cons, findSome?_append]
        have hcongr : (m :: ms).reverse.findSome? g
            = (m :: ms).reverse.findSome? f :=
          findSome?_congr g f _ (fun k hk => hall k (by
            rcases by simpa using hk with h | h
            · exact List.mem_cons_of_mem _ h
            · exact h ▸ List.mem_cons_self _ _))
        rw [hcongr]
        cases hres : (m :: ms).reverse.findSome? f with
        | some b => rfl
        | none => simp [List.findSome?_cons, hr]
      · rw [if_neg hrm]
        rw [List.reverse_cons, findSome?_append, List.reverse_cons,
          findSome?_append]
        have ih := findSome?_reverse_insert f g r hr ms
          (fun k hk => hall k (List.mem_cons_of_mem _ hk))
        rw [ih]
        cases ms.reverse.findSome? f with
        | some b => rfl
        | none => simp [List.findSome?_cons, hall m (List.mem_cons_self _ _)]

/-! ### Lock-set admission lemmas (`base.py` `LockSet.add` as modelled
from spec section 4.1) -/

theorem find_sender_go : ∀ (l : List Vote) (v : Vote),
    (l.map Vote.sender).Nodup → v ∈ l →
    l.find? (fun w => w.sender = v.sender) = some v
  | w :: ws, v, hnd, hmem => by
      have hnd' : (w.sender :: ws.map Vote.sender).Nodup := hnd
      rw [List.find?]
      by_cases hs : w.sender = v.sender
      · rw [decide_eq_true hs]
        rcases List.mem_cons.mp hmem with rfl | hv
        · rfl
        · exact absurd (hs ▸ List.mem_map_of_mem Vote.sender hv)
            (List.nodup_cons.mp hnd').1
      · rw [decide_eq_false hs]
        rcases List.mem_cons.mp hmem with rfl | hv
        · exact absurd rfl hs
        · exact find_sender_go ws v (List.nodup_cons.mp hnd').2 hv

theorem find_sender_of_mem_nodup (ls : LockSet) (v : Vote)
    (hnd : ls.sendersNodup = true) (hmem : v ∈ ls.votes) :
    ls.find_sender v.sender = some v :=
  find_sender_go ls.votes v (by simpa [LockSet.sendersNodup] using hnd) hmem

theorem homogeneous_fields (ls : LockSet) (v : Vote)
    (hhom : ls.homogeneous = true) (hmem : v ∈ ls.votes) :
    v.height = ls.lsHeight ∧ v.round = ls.lsRound := by
  have := List.all_eq_true.mp hhom v hmem
  simpa using this

theorem add_self_of_mem (ls : LockSet) (v : Vote) (force : Bool)
    (hnd : ls.sendersNodup = true) (hhom : ls.homogeneous = true)
    (hmem : v ∈ ls.votes) : ls.add v force = .ok (ls, false) := by
  obtain ⟨hh, hr⟩ := homogeneous_fields ls v hhom hmem
  unfold LockSet.add
  split
  · rename_i hg
    simp [hh, hr] at hg
  · simp only [find_sender_of_mem_nodup ls v hnd hmem]
    simp

theorem add_ok_mem (ls : LockSet) (v : Vote) (force : Bool) (ls' : LockSet)
    (c : Bool) (h : ls.add v force = .ok (ls', c)) : v ∈ ls'.votes := by
  unfold LockSet.add at h
  split at h
  · simp at h
  · split at h
    · obtain ⟨h1, h2⟩ := Prod.mk.injEq .. ▸ Except.ok.inj h
      rw [← h1]
      simp
    · rename_i w hfind
      split at h
      · rename_i hwv
        obtain ⟨h1, h2⟩ := Prod.mk.injEq .. ▸ Except.ok.inj h
        rw [← h1, ← hwv]
        exact List.mem_of_find?_eq_some hfind
      · split at h
        · obtain ⟨h1, h2⟩ := Prod.mk.injEq .. ▸ Except.ok.inj h
          rw [← h1]
          have hws : w.sender = v.sender := by
            simpa using List.find?_some hfind
          have hwmem := List.mem_of_find?_eq_some hfind
          have : (if w.sender = v.sender then v else w) ∈
              ls.votes.map (fun u => if u.sender = v.sender then v else u) :=
            List.mem_map_of_mem _ hwmem
          rw [if_pos hws] at this
          exact this
        · simp at h

theorem add_ok_mem_other (ls : LockSet) (v : Vote) (force : Bool)
    (ls' : LockSet) (c : Bool) (h : ls.add v force = .ok (ls', c))
    (w : Vote) (hw : w ∈ ls.votes) (hws : ¬ w.sender = v.sender) :
    w ∈ ls'.votes := by
  unfold LockSet.add at h
  split at h
  · simp at h
  · split at h
    · obtain ⟨h1, h2⟩ := Prod.mk.injEq .. ▸ Except.ok.inj h
      rw [← h1]
      exact List.mem_append_left _ hw
    · rename_i u hfind
      split at h
      · obtain ⟨h1, h2⟩ := Prod.mk.injEq .. ▸ Except.ok.inj h
        rw [← h1]
        exact hw
      · split at h
        · obtain ⟨h1, h2⟩ := Prod.mk.injEq .. ▸ Except.ok.inj h
          rw [← h1]
          have : (if w.sender = v.sender then v else w) ∈
              ls.votes.map (fun u => if u.sender = v.sender then v else u) :=
            List.mem_map_of_mem _ hw
          rw [if_neg hws] at this
          exact this
        · simp at h

theorem add_sendersNodup (ls : LockSet) (v : Vote) (force : Bool)
    (ls' : LockSet) (c : Bool) (hnd : ls.sendersNodup = true)
    (h : ls.add v force = .ok (ls', c)) : ls'.sendersNodup = true := by
  have hnd0 : (ls.votes.map Vote.sender).Nodup := of_decide_eq_true hnd
  unfold LockSet.add at h
  split at h
  · simp at h
  · split at h
    · rename_i hfind
      obtain ⟨h1, h2⟩ := Prod.mk.injEq .. ▸ Except.ok.inj h
      rw [← h1]
      refine decide_eq_true ?_
      simp only [List.map_append, List.map_cons, List.map_nil]
      refine ((List.perm_append_singleton _ _).nodup_iff).mpr ?_
      refine List.nodup_cons.mpr ⟨?_, hnd0⟩
      intro hc
      obtain ⟨u, hu, hus⟩ := List.mem_map.mp hc
      have := List.find?_eq_none.mp hfind u hu
      simp [hus] at this
    · rename_i u hfind
      split at h
      · obtain ⟨h1, h2⟩ := Prod.mk.injEq .. ▸ Except.ok.inj h
        rw [← h1]
        exact hnd
      · split at h
        · obtain ⟨h1, h2⟩ := Prod.mk.injEq .. ▸ Except.ok.inj h
          rw [← h1]
          refine decide_eq_true ?_
          have hmc : ls.votes.map
              (Vote.sender ∘ fun u => if u.sender = v.sender then v else u)
              = ls.votes.map Vote.sender := by
            apply List.map_congr_left
            intro x _
            show (if x.sender = v.sender then v else x).sender = x.sender
            by_cases hx : x.sender = v.sender
            · rw [if_pos hx, hx]
            · rw [if_neg hx]
          show ((ls.votes.map (fun u => if u.sender = v.sender then v else u)).map
            Vote.sender).Nodup
          rw [List.map_map, hmc]
          exact hnd0
        · simp at h
theorem add_homogeneous (ls : LockSet) (v : Vote) (force : Bool)
    (ls' : LockSet) (c : Bool) (hhom : ls.homogeneous = true)
    (h : ls.add v force = .ok (ls', c)) : ls'.homogeneous = true := by
  have hhom0 : ∀ w ∈ ls.votes, w.height = ls.lsHeight ∧ w.round = ls.lsRound :=
    fun w hw => homogeneous_fields ls w hhom hw
  unfold LockSet.add at h
  split at h
  · simp at h
  · rename_i hg
    have hg' : ls.votes = [] ∨
        (v.height = ls.lsHeight ∧ v.round = ls.lsRound) := by
      by_cases he : ls.votes = []
      · exact Or.inl he
      · right
        simp [he] at hg
        exact hg
    split at h
    · obtain ⟨h1, h2⟩ := Prod.mk.injEq .. ▸ Except.ok.inj h
      rw [← h1]
      rcases hv : ls.votes with _ | ⟨w0, rest⟩
      · simp [LockSet.homogeneous, LockSet.lsHeight, LockSet.lsRound]
      · have hls : ls.lsHeight = w0.height := by
          unfold LockSet.lsHeight
          rw [hv]
        have hlr : ls.lsRound = w0.round := by
          unfold LockSet.lsRound
          rw [hv]
        rcases hg' with he | ⟨hh, hr⟩
        · rw [hv] at he
          exact absurd he (by simp)
        · refine List.all_eq_true.mpr ?_
          intro u hu
          have hu' : u ∈ w0 :: (rest ++ [v]) := by simpa using hu
          have huh : u.height = w0.height ∧ u.round = w0.round := by
            rcases List.mem_cons.mp hu' with rfl | hu2
            · exact ⟨rfl, rfl⟩
            · rcases List.mem_append.mp hu2 with hu3 | hu3
              · have humem : u ∈ ls.votes := by
                  rw [hv]
                  exact List.mem_cons_of_mem _ hu3
                have := hhom0 u humem
                rw [hls, hlr] at this
                exact this
              · have hu4 : u = v := by simpa using hu3
                subst hu4
                rw [hh, hr, hls, hlr]
                exact ⟨rfl, rfl⟩
          rw [Bool.and_eq_true]
          exact ⟨decide_eq_true huh.1, decide_eq_true huh.2⟩
    · rename_i w hfind
      split at h
      · obtain ⟨h1, h2⟩ := Prod.mk.injEq .. ▸ Except.ok.inj h
        rw [← h1]
        exact hhom
      · split at h
        · obtain ⟨h1, h2⟩ := Prod.mk.injEq .. ▸ Except.ok.inj h
          rw [← h1]
          have hwmem := List.mem_of_find?_eq_some hfind
          have hne : ls.votes ≠ [] := by
            intro hc
            rw [hc] at hwmem
            simp at hwmem
          have hvf : v.height = ls.lsHeight ∧ v.round = ls.lsRound :=
            hg'.resolve_left hne
          rcases hv : ls.votes with _ | ⟨w0, rest⟩
          · exact absurd hv hne
          · have hls : ls.lsHeight = w0.height := by
              unfold LockSet.lsHeight
              rw [hv]
            have hlr : ls.lsRound = w0.round := by
              unfold LockSet.lsRound
              rw [hv]
            have hw0h : (if w0.sender = v.sender then v else w0).height
                = w0.height := by
              by_cases hu0 : w0.sender = v.sender
              · rw [if_pos hu0, hvf.1, hls]
              · rw [if_neg hu0]
            have hw0r : (if w0.sender = v.sender then v else w0).round
                = w0.round := by
              by_cases hu0 : w0.sender = v.sender
              · rw [if_pos hu0, hvf.2, hlr]
              · rw [if_neg hu0]
            have hHW : (ls.replaceVote v).lsHeight = w0.height := by
              unfold LockSet.replaceVote LockSet.lsHeight
              rw [hv, List.map_cons]
              exact hw0h
            have hRW : (ls.replaceVote v).lsRound = w0.round := by
              unfold LockSet.replaceVote LockSet.lsRound
              rw [hv, List.map_cons]
              exact hw0r
            refine List.all_eq_true.mpr ?_
            intro u hu
            have hu2 : u ∈ ls.votes.map
                (fun x => if x.sender = v.sender then v else x) := hu
            rw [hv] at hu2
            have hufields : u.height = w0.height ∧ u.round = w0.round := by
              obtain ⟨u0, hu0, rfl⟩ := List.mem_map.mp hu2
              by_cases hus : u0.sender = v.sender
              · rw [if_pos hus]
                exact ⟨hvf.1.trans hls, hvf.2.trans hlr⟩
              · rw [if_neg hus]
                have humem : u0 ∈ ls.votes := by
                  rw [hv]
                  exact hu0
                have := hhom0 u0 humem
                rw [hls, hlr] at this
                exact this
            rw [hHW, hRW, Bool.and_eq_true]
            exact ⟨decide_eq_true hufields.1, decide_eq_true hufields.2⟩
        · simp at h

/-! ### Cell access and well-formedness plumbing -/

theorem track_nil (s : ConsensusManager) : s.track [] = s := by
  show { s with tracked_protocol_failures := s.tracked_protocol_failures ++ [] }
    = s
  rw [List.append_nil]

theorem cellOf_some_elim (s : ConsensusManager) (h r : Nat)
    (rm : RoundManager) (hc : cellOf s h r = some rm) :
    ∃ hm, s.heights.lookup h = some hm ∧ hm.rounds.lookup r = some rm := by
  unfold cellOf at hc
  split at hc
  · exact absurd hc (by simp)
  · rename_i hm hlk
    exact ⟨hm, hlk, hc⟩

theorem cellOf_heights_congr {s t : ConsensusManager}
    (hh : s.heights = t.heights) (h r : Nat) : cellOf s h r = cellOf t h r := by
  unfold cellOf
  rw [hh]

theorem cellOf_ensureHeight (s : ConsensusManager) (h h' r' : Nat) :
    cellOf (s.ensureHeight h) h' r' = cellOf s h' r' := by
  unfold ConsensusManager.ensureHeight
  split
  · rfl
  · rename_i hnone
    unfold cellOf
    show (match (s.heights ++
        [(h, ({ height := h, rounds := [] } : HeightManager))]).lookup h' with
      | none => none
      | some hm => hm.rounds.lookup r') = _
    rw [lookup_append]
    cases hlk : s.heights.lookup h' with
    | some hm => rfl
    | none =>
        by_cases hh' : h' = h
        · rw [if_pos hh']
          rfl
        · rw [if_neg hh']

theorem wfState_parts (s : ConsensusManager)
    (hwf : s.wfState = true) :
    (s.heights.map Prod.fst).Nodup ∧
    (s.block_candidates.map Prod.fst).Nodup ∧
    ∀ e ∈ s.heights, e.2.wfH e.1 = true := by
  unfold ConsensusManager.wfState at hwf
  rw [Bool.and_eq_true, Bool.and_eq_true] at hwf
  exact ⟨of_decide_eq_true hwf.1, of_decide_eq_true hwf.2.1,
    List.all_eq_true.mp hwf.2.2⟩

theorem wfState_build (s : ConsensusManager)
    (h1 : (s.heights.map Prod.fst).Nodup)
    (h2 : (s.block_candidates.map Prod.fst).Nodup)
    (h3 : ∀ e ∈ s.heights, e.2.wfH e.1 = true) : s.wfState = true := by
  unfold ConsensusManager.wfState
  rw [Bool.and_eq_true, Bool.and_eq_true]
  exact ⟨decide_eq_true h1, decide_eq_true h2, List.all_eq_true.mpr h3⟩

theorem wfH_parts (h : Nat) (hm : HeightManager) (hwf : hm.wfH h = true) :
    hm.height = h ∧ (hm.rounds.map Prod.fst).Nodup ∧
    ∀ rp ∈ hm.rounds, rp.2.wfR = true := by
  unfold HeightManager.wfH at hwf
  rw [Bool.and_eq_true, Bool.and_eq_true] at hwf
  exact ⟨of_decide_eq_true hwf.1, of_decide_eq_true hwf.2.1,
    List.all_eq_true.mp hwf.2.2⟩

theorem wfH_build (h : Nat) (hm : HeightManager)
    (h1 : hm.height = h) (h2 : (hm.rounds.map Prod.fst).Nodup)
    (h3 : ∀ rp ∈ hm.rounds, rp.2.wfR = true) : hm.wfH h = true := by
  unfold HeightManager.wfH
  rw [Bool.and_eq_true, Bool.and_eq_true]
  exact ⟨decide_eq_true h1, decide_eq_true h2, List.all_eq_true.mpr h3⟩

theorem wfR_parts (rm : RoundManager) (hwf : rm.wfR = true) :
    rm.lockset.sendersNodup = true ∧ rm.lockset.homogeneous = true := by
  unfold RoundManager.wfR at hwf
  rw [Bool.and_eq_true] at hwf
  exact hwf

theorem wfR_build (rm : RoundManager)
    (h1 : rm.lockset.sendersNodup = true) (h2 : rm.lockset.homogeneous = true) :
    rm.wfR = true := by
  unfold RoundManager.wfR
  rw [Bool.and_eq_true]
  exact ⟨h1, h2⟩

theorem wf_hm_of_lookup (s : ConsensusManager) (h : Nat) (hm : HeightManager)
    (hwf : s.wfState = true) (hlk : s.heights.lookup h = some hm) :
    hm.wfH h = true :=
  (wfState_parts s hwf).2.2 (h, hm) (lookup_mem s.heights h hm hlk)

theorem wf_rm_of_lookup (h : Nat) (hm : HeightManager) (r : Nat)
    (rm : RoundManager) (hwf : hm.wfH h = true)
    (hlk : hm.rounds.lookup r = some rm) : rm.wfR = true :=
  (wfH_parts h hm hwf).2.2 (r, rm) (lookup_mem hm.rounds r rm hlk)

theorem wfR_fresh (ctx : Ctx) (h r : Nat) : (freshRound ctx h r).wfR = true := by
  unfold freshRound
  refine wfR_build _ ?_ ?_
  · show LockSet.sendersNodup ⟨ctx.contract.num_eligible_votes h, []⟩ = true
    unfold LockSet.sendersNodup
    simp
  · show LockSet.homogeneous ⟨ctx.contract.num_eligible_votes h, []⟩ = true
    unfold LockSet.homogeneous
    simp

theorem wfH_ensureRound (ctx : Ctx) (h : Nat) (hm : HeightManager) (r : Nat)
    (hwf : hm.wfH h = true) : (hm.ensureRound ctx r).wfH h = true := by
  obtain ⟨hh, hnd, hall⟩ := wfH_parts h hm hwf
  unfold HeightManager.ensureRound
  split
  · exact hwf
  · rename_i hnone
    refine wfH_build h _ hh ?_ ?_
    · show ((hm.rounds ++ [(r, freshRound ctx hm.height r)]).map Prod.fst).Nodup
      rw [List.map_append, List.map_cons, List.map_nil]
      refine ((List.perm_append_singleton _ _).nodup_iff).mpr ?_
      refine List.nodup_cons.mpr ⟨?_, hnd⟩
      intro hc
      rw [mem_keys_lookup] at hc
      exact hnone (by simpa using hc)
    · intro rp hrp
      rcases List.mem_append.mp hrp with hin | hin
      · exact hall rp hin
      · have : rp = (r, freshRound ctx hm.height r) := by simpa using hin
        rw [this]
        exact wfR_fresh ctx hm.height r

theorem wfH_updRound (h : Nat) (hm : HeightManager) (r : Nat)
    (rm : RoundManager) (hwf : hm.wfH h = true) (hrm : rm.wfR = true) :
    (hm.updRound r rm).wfH h = true := by
  obtain ⟨hh, hnd, hall⟩ := wfH_parts h hm hwf
  refine wfH_build h _ hh ?_ ?_
  · show ((hm.rounds.map fun e => if e.1 = r then (r, rm) else e).map
      Prod.fst).Nodup
    rw [keys_map_upd]
    exact hnd
  · intro rp hrp
    obtain ⟨e, he, hrpe⟩ := List.mem_map.mp hrp
    by_cases her : e.1 = r
    · rw [if_pos her] at hrpe
      rw [← hrpe]
      exact hrm
    · rw [if_neg her] at hrpe
      rw [← hrpe]
      exact hall e he

theorem wfState_updHeight (s : ConsensusManager) (h : Nat)
    (hm : HeightManager) (hwf : s.wfState = true) (hhm : hm.wfH h = true) :
    (s.updHeight h hm).wfState = true := by
  obtain ⟨hnd, hcnd, hall⟩ := wfState_parts s hwf
  refine wfState_build _ ?_ hcnd ?_
  · show ((s.heights.map fun e => if e.1 = h then (h, hm) else e).map
      Prod.fst).Nodup
    rw [keys_map_upd]
    exact hnd
  · intro e he
    obtain ⟨e0, he0, hee⟩ := List.mem_map.mp he
    by_cases heh : e0.1 = h
    · rw [if_pos heh] at hee
      rw [← hee]
      exact hhm
    · rw [if_neg heh] at hee
      rw [← hee]
      exact hall e0 he0

theorem wfState_ensureHeight (s : ConsensusManager) (h : Nat)
    (hwf : s.wfState = true) : (s.ensureHeight h).wfState = true := by
  obtain ⟨hnd, hcnd, hall⟩ := wfState_parts s hwf
  unfold ConsensusManager.ensureHeight
  split
  · exact hwf
  · rename_i hnone
    refine wfState_build _ ?_ hcnd ?_
    · show ((s.heights ++
          [(h, ({ height := h, rounds := [] } : HeightManager))]).map
        Prod.fst).Nodup
      rw [List.map_append, List.map_cons, List.map_nil]
      refine ((List.perm_append_singleton _ _).nodup_iff).mpr ?_
      refine List.nodup_cons.mpr ⟨?_, hnd⟩
      intro hc
      rw [mem_keys_lookup] at hc
      exact hnone (by simpa using hc)
    · intro e he
      rcases List.mem_append.mp he with hin | hin
      · exact hall e hin
      · have : e = (h, { height := h, rounds := ([] : List (Nat × RoundManager)) }) := by
          simpa using hin
        rw [this]
        refine wfH_build h _ rfl (by simp) (by simp)

theorem ensureHeight_tracked (s : ConsensusManager) (h : Nat) :
    (s.ensureHeight h).tracked_protocol_failures
      = s.tracked_protocol_failures := by
  unfold ConsensusManager.ensureHeight
  split <;> rfl

theorem ensureHeight_fields (s : ConsensusManager) (h : Nat) :
    (s.ensureHeight h).block_candidates = s.block_candidates ∧
    (s.ensureHeight h).stored = s.stored := by
  unfold ConsensusManager.ensureHeight
  constructor <;> (split <;> rfl)

theorem ensureHeight_lookup_self (s : ConsensusManager) (h : Nat) :
    (s.ensureHeight h).heights.lookup h = some ((s.ensureHeight h).hGet h) := by
  unfold ConsensusManager.ensureHeight
  split
  · rename_i hsome
    cases hlk : s.heights.lookup h with
    | none => rw [hlk] at hsome; simp at hsome
    | some hm =>
        unfold ConsensusManager.hGet
        rw [hlk]
        rfl
  · show (s.heights ++ [(h, ({ height := h, rounds := [] } : HeightManager))]).lookup h
      = _
    rename_i hnone
    have hn : s.heights.lookup h = none := by
      cases hlk : s.heights.lookup h with
      | none => rfl
      | some hm => rw [hlk] at hnone; simp at hnone
    rw [lookup_append, hn]
    unfold ConsensusManager.hGet
    show _ = some (((s.heights ++
      [(h, ({ height := h, rounds := [] } : HeightManager))]).lookup h).getD _)
    rw [lookup_append, hn]
    simp

theorem ensureHeight_hGet_none (s : ConsensusManager) (h : Nat)
    (hn : s.heights.lookup h = none) :
    (s.ensureHeight h).hGet h = { height := h, rounds := [] } := by
  unfold ConsensusManager.ensureHeight
  rw [hn]
  simp only [Option.isSome_none, Bool.false_eq_true, if_false]
  unfold ConsensusManager.hGet
  show (((s.heights ++
    [(h, ({ height := h, rounds := [] } : HeightManager))]).lookup h).getD _) = _
  rw [lookup_append, hn]
  simp

theorem ensureHeight_hGet_some (s : ConsensusManager) (h : Nat)
    (hm : HeightManager) (hs : s.heights.lookup h = some hm) :
    (s.ensureHeight h).hGet h = hm := by
  unfold ConsensusManager.ensureHeight
  rw [hs]
  simp only [Option.isSome_some, if_true]
  unfold ConsensusManager.hGet
  rw [hs]
  rfl

theorem ensureHeight_lookup_other (s : ConsensusManager) (h h' : Nat)
    (hne : ¬ h' = h) :
    (s.ensureHeight h).heights.lookup h' = s.heights.lookup h' := by
  unfold ConsensusManager.ensureHeight
  split
  · rfl
  · show (s.heights ++ [(h, ({ height := h, rounds := [] } : HeightManager))]).lookup h'
      = _
    rw [lookup_append]
    cases s.heights.lookup h' with
    | some hm => rfl
    | none => rw [if_neg hne]

theorem ensureRound_height (ctx : Ctx) (hm : HeightManager) (r : Nat) :
    (hm.ensureRound ctx r).height = hm.height := by
  unfold HeightManager.ensureRound
  split <;> rfl

theorem ensureRound_lookup_self (ctx : Ctx) (hm : HeightManager) (r : Nat) :
    (hm.ensureRound ctx r).rounds.lookup r
      = some ((hm.ensureRound ctx r).rget r) := by
  unfold HeightManager.ensureRound
  split
  · rename_i hsome
    cases hlk : hm.rounds.lookup r with
    | none => rw [hlk] at hsome; simp at hsome
    | some rm =>
        unfold HeightManager.rget
        rw [hlk]
        rfl
  · rename_i hnone
    have hn : hm.rounds.lookup r = none := by
      cases hlk : hm.rounds.lookup r with
      | none => rfl
      | some rm => rw [hlk] at hnone; simp at hnone
    show (hm.rounds ++ [(r, freshRound ctx hm.height r)]).lookup r = _
    rw [lookup_append, hn]
    unfold HeightManager.rget
    show _ = some (((hm.rounds ++
      [(r, freshRound ctx hm.height r)]).lookup r).getD _)
    rw [lookup_append, hn]
    simp

theorem ensureRound_rget_none (ctx : Ctx) (hm : HeightManager) (r : Nat)
    (hn : hm.rounds.lookup r = none) :
    (hm.ensureRound ctx r).rget r = freshRound ctx hm.height r := by
  unfold HeightManager.ensureRound
  rw [hn]
  simp only [Option.isSome_none, Bool.false_eq_true, if_false]
  unfold HeightManager.rget
  show (((hm.rounds ++ [(r, freshRound ctx hm.height r)]).lookup r).getD _) = _
  rw [lookup_append, hn]
  simp

theorem ensureRound_rget_some (ctx : Ctx) (hm : HeightManager) (r : Nat)
    (rm : RoundManager) (hs : hm.rounds.lookup r = some rm) :
    (hm.ensureRound ctx r).rget r = rm := by
  unfold HeightManager.ensureRound
  rw [hs]
  simp only [Option.isSome_some, if_true]
  unfold HeightManager.rget
  rw [hs]
  rfl

theorem ensureRound_lookup_other (ctx : Ctx) (hm : HeightManager) (r r' : Nat)
    (hne : ¬ r' = r) :
    (hm.ensureRound ctx r).rounds.lookup r' = hm.rounds.lookup r' := by
  unfold HeightManager.ensureRound
  split
  · rfl
  · show (hm.rounds ++ [(r, freshRound ctx hm.height r)]).lookup r' = _
    rw [lookup_append]
    cases hm.rounds.lookup r' with
    | some rm => rfl
    | none => rw [if_neg hne]

theorem cellOf_updHeight_other (s : ConsensusManager) (h0 : Nat)
    (hm : HeightManager) (h r : Nat) (hne : ¬ h = h0) :
    cellOf (s.updHeight h0 hm) h r = cellOf s h r := by
  unfold cellOf
  have hh : (s.updHeight h0 hm).heights
      = s.heights.map (fun e => if e.1 = h0 then (h0, hm) else e) := rfl
  rw [hh, lookup_map_upd, if_neg hne]

theorem cellOf_updHeight_self (s : ConsensusManager) (h0 : Nat)
    (hm hm0 : HeightManager) (r : Nat)
    (hlk : s.heights.lookup h0 = some hm0) :
    cellOf (s.updHeight h0 hm) h0 r = hm.rounds.lookup r := by
  unfold cellOf
  have hh : (s.updHeight h0 hm).heights
      = s.heights.map (fun e => if e.1 = h0 then (h0, hm) else e) := rfl
  rw [hh, lookup_map_upd, if_pos rfl, hlk]
  rfl

/-- Anatomy of one evidence-free successful `ConsensusManager.add_vote`
call: the sender is a validator; head, candidates and persisted set are
untouched; every cell other than the vote's is untouched; the vote's
cell now holds the vote in a lock-set that cannot emit
`FailedToPropose` evidence, and keeps every previously recorded vote of
a different sender; and well-formedness is preserved. -/
theorem add_vote_ok_anatomy (ctx : Ctx) (v : Vote) (s s' : ConsensusManager)
    (x : Option Bool)
    (hstep : ConsensusManager.add_vote ctx s v = (s', .ok x))
    (hnoev : s'.tracked_protocol_failures = s.tracked_protocol_failures) :
    ctx.contract.isvalidator v.sender = true ∧
    s'.head = s.head ∧ s'.block_candidates = s.block_candidates ∧
    s'.stored = s.stored ∧
    (∀ h r, ¬(h = v.height ∧ r = v.round) → cellOf s' h r = cellOf s h r) ∧
    (∃ rm', cellOf s' v.height v.round = some rm' ∧
      v ∈ rm'.lockset.votes ∧
      ¬(rm'.lockset.is_valid = true ∧ rm'.proposal = none ∧
        rm'.lockset.has_noquorum = true) ∧
      (∀ rm w, cellOf s v.height v.round = some rm → w ∈ rm.lockset.votes →
        ¬ w.sender = v.sender → w ∈ rm'.lockset.votes)) ∧
    (s.wfState = true → s'.wfState = true) := by
  unfold ConsensusManager.add_vote at hstep
  split at hstep
  · exact absurd (congrArg Prod.snd hstep) (by simp)
  · rename_i hval
    have hval' : ctx.contract.isvalidator v.sender = true :=
      not_bang_eq_true hval
    simp only [] at hstep
    split at hstep
    · rename_i hm2 evs x2 heq
      obtain ⟨hs', hx⟩ := Prod.mk.injEq .. ▸ hstep
      have hevs : evs = [] := by
        have h1 : s'.tracked_protocol_failures
            = s.tracked_protocol_failures ++ evs := by
          rw [← hs']
          show (s.ensureHeight v.height).tracked_protocol_failures ++ evs = _
          rw [ensureHeight_tracked]
        have h2 : s.tracked_protocol_failures ++ evs
            = s.tracked_protocol_failures ++ [] := by
          rw [List.append_nil, ← h1, hnoev]
        exact List.append_cancel_left h2
      subst hevs
      have hs'' : (s.ensureHeight v.height).updHeight v.height hm2 = s' := by
        rw [← hs', track_nil]
      unfold HeightManager.add_vote at heq
      simp only [] at heq
      rcases hadd0 : ((HeightManager.ensureRound ctx ((s.ensureHeight
          v.height).hGet v.height) v.round).rget v.round).add_vote v
          (decide (v.sender = ctx.coinbase)) with ⟨rm2, evs2, res2⟩
      rw [hadd0] at heq
      simp only [] at heq
      rw [Prod.mk.injEq, Prod.mk.injEq] at heq
      obtain ⟨hhm2, hevs2, hres2⟩ := heq
      unfold RoundManager.add_vote at hadd0
      split at hadd0
      · rw [Prod.mk.injEq, Prod.mk.injEq] at hadd0
        rw [← hadd0.2.1] at hevs2
        exact absurd hevs2 (by simp)
      · rw [Prod.mk.injEq, Prod.mk.injEq] at hadd0
        rw [← hadd0.2.2] at hres2
        exact absurd hres2 (by simp)
      · rename_i ls' succ hadd
        simp only [] at hadd0
        rw [Prod.mk.injEq, Prod.mk.injEq] at hadd0
        obtain ⟨hrm2, hevs2', hres2'⟩ := hadd0
        rw [hevs2] at hevs2'
        split at hevs2'
        · exact absurd hevs2' (by simp)
        · rename_i hcond
          have hlkH := ensureHeight_lookup_self s v.height
          have hlkR := ensureRound_lookup_self ctx
            ((s.ensureHeight v.height).hGet v.height) v.round
          refine ⟨hval', ?_, ?_, ?_, ?_, ?_, ?_⟩
          · rw [← hs'']
            show (s.ensureHeight v.height).head = s.head
            exact ensureHeight_head s v.height
          · rw [← hs'']
            show (s.ensureHeight v.height).block_candidates = s.block_candidates
            exact (ensureHeight_fields s v.height).1
          · rw [← hs'']
            show (s.ensureHeight v.height).stored = s.stored
            exact (ensureHeight_fields s v.height).2
          · intro h r hne
            rw [← hs'']
            by_cases hh : h = v.height
            · subst hh
              have hrne : ¬ r = v.round := fun hc => hne ⟨rfl, hc⟩
              rw [cellOf_updHeight_self _ _ _ _ _ hlkH, ← hhm2]
              have hupd : ((((s.ensureHeight v.height).hGet
                  v.height).ensureRound ctx v.round).updRound v.round
                    rm2).rounds
                  = (((s.ensureHeight v.height).hGet v.height).ensureRound ctx
                      v.round).rounds.map
                    (fun e => if e.1 = v.round then (v.round, rm2) else e) := rfl
              rw [hupd, lookup_map_upd, if_neg hrne,
                ensureRound_lookup_other ctx _ v.round r hrne,
                ← cellOf_ensureHeight s v.height v.height r]
              unfold cellOf
              rw [hlkH]
            · rw [cellOf_updHeight_other _ _ _ _ _ hh, cellOf_ensureHeight]
          · refine ⟨rm2, ?_, ?_, ?_, ?_⟩
            · rw [← hs'', cellOf_updHeight_self _ _ _ _ _ hlkH, ← hhm2]
              have hupd : ((((s.ensureHeight v.height).hGet
                  v.height).ensureRound ctx v.round).updRound v.round
                    rm2).rounds
                  = (((s.ensureHeight v.height).hGet v.height).ensureRound ctx
                      v.round).rounds.map
                    (fun e => if e.1 = v.round then (v.round, rm2) else e) := rfl
              rw [hupd, lookup_map_upd, if_pos rfl, hlkR]
              rfl
            · rw [← hrm2]
              exact add_ok_mem _ v _ ls' succ hadd
            · rw [← hrm2]
              rintro ⟨ha, hb, hcq⟩
              apply hcond
              rw [Bool.and_eq_true, Bool.and_eq_true]
              refine ⟨⟨ha, ?_⟩, hcq⟩
              have hbp : (((s.ensureHeight v.height).hGet
                  v.height).ensureRound ctx v.round |>.rget v.round).proposal
                  = none := hb
              rw [show ({ ((s.ensureHeight v.height).hGet v.height).ensureRound
                  ctx v.round |>.rget v.round with lockset := ls'
                  } : RoundManager).proposal
                = (((s.ensureHeight v.height).hGet v.height).ensureRound ctx
                    v.round |>.rget v.round).proposal from rfl, hbp]
              rfl
            · intro rm0 w hcell hw hws
              have hcell1 : cellOf (s.ensureHeight v.height) v.height v.round
                  = some rm0 := by
                rw [cellOf_ensureHeight]
                exact hcell
              have hcell2 : (((s.ensureHeight v.height).hGet
                  v.height)).rounds.lookup v.round = some rm0 := by
                unfold cellOf at hcell1
                rw [hlkH] at hcell1
                exact hcell1
              have hrg : (((s.ensureHeight v.height).hGet
                  v.height).ensureRound ctx v.round).rget v.round = rm0 :=
                ensureRound_rget_some ctx _ v.round rm0 hcell2
              rw [← hrm2]
              refine add_ok_mem_other _ v _ ls' succ hadd w ?_ hws
              rw [hrg]
              exact hw
          · intro hwf
            have hwfS1 := wfState_ensureHeight s v.height hwf
            have hwfHm := wf_hm_of_lookup _ v.height _ hwfS1 hlkH
            have hwfHm1 := wfH_ensureRound ctx v.height _ v.round hwfHm
            have hwfRm := wf_rm_of_lookup v.height _ v.round _ hwfHm1 hlkR
            obtain ⟨hnd0, hhom0⟩ := wfR_parts _ hwfRm
            have hwfRm2 : rm2.wfR = true := by
              rw [← hrm2]
              exact wfR_build _ (add_sendersNodup _ v _ ls' succ hnd0 hadd)
                (add_homogeneous _ v _ ls' succ hhom0 hadd)
            have hwfHm2 : hm2.wfH v.height = true := by
              rw [← hhm2]
              exact wfH_updRound v.height _ v.round rm2 hwfHm1 hwfRm2
            rw [← hs'']
            exact wfState_updHeight _ v.height hm2 hwfS1 hwfHm2
    · rename_i hm2 evs heq
      exact absurd (congrArg Prod.snd hstep) (by simp)

/-- Re-adding a vote that is already cleanly recorded is a no-op: the
state is unchanged and the call reports `success = False` (the lock-set
saw an identical vote). -/
theorem add_vote_noop_of_recorded (ctx : Ctx) (v : Vote)
    (u : ConsensusManager) (hwf : u.wfState = true)
    (hP : recordedDead ctx u v) :
    ConsensusManager.add_vote ctx u v = (u, .ok (some false)) := by
  obtain ⟨hval, rm, hcell, hmem, hdead⟩ := hP
  obtain ⟨hmu, hlkH, hlkR⟩ := cellOf_some_elim u v.height v.round rm hcell
  obtain ⟨hndH, hndC, hallH⟩ := wfState_parts u hwf
  have hwfHm := wf_hm_of_lookup u v.height hmu hwf hlkH
  obtain ⟨hheight, hndR, hallR⟩ := wfH_parts v.height hmu hwfHm
  have hwfRm := wf_rm_of_lookup v.height hmu v.round rm hwfHm hlkR
  obtain ⟨hndS, hhom⟩ := wfR_parts rm hwfRm
  have hensH : u.ensureHeight v.height = u := by
    unfold ConsensusManager.ensureHeight
    rw [hlkH]
    simp
  have hensR : hmu.ensureRound ctx v.round = hmu := by
    unfold HeightManager.ensureRound
    rw [hlkR]
    simp
  have hadd : rm.lockset.add v (decide (v.sender = ctx.coinbase))
      = .ok (rm.lockset, false) :=
    add_self_of_mem rm.lockset v _ hndS hhom hmem
  have hrm : rm.add_vote v (decide (v.sender = ctx.coinbase))
      = (rm, [], .ok (some false)) := by
    unfold RoundManager.add_vote
    rw [hadd]
    simp only []
    split
    · rename_i hct
      exfalso
      rw [Bool.and_eq_true, Bool.and_eq_true] at hct
      exact hdead ⟨hct.1.1, Option.isNone_iff_eq_none.mp hct.1.2, hct.2⟩
    · rfl
  have hhm : HeightManager.add_vote ctx hmu v (decide (v.sender = ctx.coinbase))
      = (hmu, [], .ok (some false)) := by
    unfold HeightManager.add_vote
    simp only []
    rw [hensR]
    have hrget : hmu.rget v.round = rm := by
      unfold HeightManager.rget
      rw [hlkR]
      rfl
    rw [hrget, hrm]
    simp only []
    have hupd : hmu.updRound v.round rm = hmu := by
      have hmap := map_upd_self hmu.rounds v.round rm hndR hlkR
      show ({ hmu with rounds := hmu.rounds.map fun e => if e.1 = v.round then (v.round, rm) else e } : HeightManager) = hmu
      rw [hmap]
    rw [hupd]
  unfold ConsensusManager.add_vote
  split
  · rename_i hc
    rw [hval] at hc
    simp at hc
  · simp only []
    rw [hensH]
    have hget : u.hGet v.height = hmu := by
      unfold ConsensusManager.hGet
      rw [hlkH]
      rfl
    rw [hget, hhm]
    simp only []
    have hupdH : u.updHeight v.height hmu = u := by
      have hmap := map_upd_self u.heights v.height hmu hndH hlkH
      show ({ u with heights := u.heights.map fun e => if e.1 = v.height then (v.height, hmu) else e } : ConsensusManager) = u
      rw [hmap]
    rw [hupdH, track_nil]

theorem recordedDead_of_cell (ctx : Ctx) (v : Vote)
    (u u' : ConsensusManager) (hP : recordedDead ctx u v)
    (hc : ∀ rm, cellOf u v.height v.round = some rm →
      ∃ rm', cellOf u' v.height v.round = some rm' ∧
        rm'.lockset = rm.lockset ∧ (rm'.proposal = none → rm.proposal = none)) :
    recordedDead ctx u' v := by
  obtain ⟨hval, rm, hcell, hmem, hdead⟩ := hP
  obtain ⟨rm', hcell', hls, hprop⟩ := hc rm hcell
  refine ⟨hval, rm', hcell', ?_, ?_⟩
  · rw [hls]
    exact hmem
  · rintro ⟨ha, hb, hcq⟩
    rw [hls] at ha hcq
    exact hdead ⟨ha, hprop hb, hcq⟩

theorem recordedDead_add_vote (ctx : Ctx) (w : Vote)
    (t t' : ConsensusManager) (y : Option Bool)
    (hstep : ConsensusManager.add_vote ctx t w = (t', .ok y))
    (hnoev : t'.tracked_protocol_failures = t.tracked_protocol_failures)
    (v : Vote) (hP : recordedDead ctx t v)
    (hside : ¬ w.sender = v.sender ∨ w = v ∨
      ¬(w.height = v.height ∧ w.round = v.round)) :
    recordedDead ctx t' v := by
  obtain ⟨hval, rm, hcell, hmem, hdead⟩ := hP
  obtain ⟨_, _, _, _, hframe, ⟨rm', hcell', hvmem, hdead', hkeep⟩, _⟩ :=
    add_vote_ok_anatomy ctx w t t' y hstep hnoev
  by_cases hcellsame : v.height = w.height ∧ v.round = w.round
  · obtain ⟨hh, hr⟩ := hcellsame
    refine ⟨hval, rm', by rw [hh, hr]; exact hcell', ?_, hdead'⟩
    rcases hside with hs | hs | hs
    · refine hkeep rm v ?_ hmem (fun hc => hs hc.symm)
      rw [← hh, ← hr]
      exact hcell
    · exact hs ▸ hvmem
    · exact absurd ⟨hh.symm, hr.symm⟩ hs
  · have hcf : cellOf t' v.height v.round = cellOf t v.height v.round :=
      hframe v.height v.round hcellsame
    exact ⟨hval, rm, by rw [hcf]; exact hcell, hmem, hdead⟩

theorem add_vote_tracked (ctx : Ctx) (s : ConsensusManager) (v : Vote) :
    ∃ δ, (ConsensusManager.add_vote ctx s v).1.tracked_protocol_failures
      = s.tracked_protocol_failures ++ δ := by
  unfold ConsensusManager.add_vote
  split
  · exact ⟨[], by rw [List.append_nil]⟩
  · simp only []
    split
    · rename_i hm2 evs x2 heq
      refine ⟨evs, ?_⟩
      show (s.ensureHeight v.height).tracked_protocol_failures ++ evs = _
      rw [ensureHeight_tracked]
    · rename_i hm2 evs heq
      refine ⟨evs ++ [Evidence.DoubleVotingEvidence v
        ((hm2.rget v.round).lockset)], ?_⟩
      show ((s.ensureHeight v.height).tracked_protocol_failures ++ evs)
        ++ [Evidence.DoubleVotingEvidence v ((hm2.rget v.round).lockset)] = _
      rw [ensureHeight_tracked, List.append_assoc]

theorem add_votes_tracked (ctx : Ctx) :
    ∀ (vs : List Vote) (s : ConsensusManager),
    ∃ δ, (ConsensusManager.add_votes ctx s vs).1.tracked_protocol_failures
      = s.tracked_protocol_failures ++ δ
  | [], s => ⟨[], by rw [ConsensusManager.add_votes, List.append_nil]⟩
  | v :: vs, s => by
      rw [ConsensusManager.add_votes]
      rcases hv : ConsensusManager.add_vote ctx s v with ⟨sm, res⟩
      obtain ⟨δ1, hδ1⟩ := add_vote_tracked ctx s v
      rw [hv] at hδ1
      rcases res with e | x
      · exact ⟨δ1, hδ1⟩
      · obtain ⟨δ2, hδ2⟩ := add_votes_tracked ctx vs sm
        exact ⟨δ1 ++ δ2, by rw [hδ2, hδ1, List.append_assoc]⟩

theorem add_votes_facts (ctx : Ctx) :
    ∀ (vs : List Vote) (s s' : ConsensusManager),
    (vs.map Vote.sender).Nodup →
    s.wfState = true →
    ConsensusManager.add_votes ctx s vs = (s', .ok ()) →
    s'.tracked_protocol_failures = s.tracked_protocol_failures →
    s'.wfState = true ∧
    s'.head = s.head ∧ s'.block_candidates = s.block_candidates ∧
    s'.stored = s.stored ∧
    (∀ v ∈ vs, recordedDead ctx s' v) ∧
    (∀ w, recordedDead ctx s w →
      (∀ v ∈ vs, ¬ v.sender = w.sender ∨ v = w ∨
        ¬(v.height = w.height ∧ v.round = w.round)) →
      recordedDead ctx s' w)
  | [], s, s', _, hwf, hrun, _ => by
      rw [ConsensusManager.add_votes] at hrun
      obtain ⟨h1, _⟩ := Prod.mk.injEq .. ▸ hrun
      subst h1
      exact ⟨hwf, rfl, rfl, rfl, by simp, fun w hw _ => hw⟩
  | v :: vs, s, s', hnd, hwf, hrun, hnoev => by
      rw [ConsensusManager.add_votes] at hrun
      rcases hv : ConsensusManager.add_vote ctx s v with ⟨sm, res⟩
      rw [hv] at hrun
      rcases res with e | x
      · simp only [] at hrun
        exact absurd (congrArg Prod.snd hrun) (by simp)
      · simp only [] at hrun
        obtain ⟨δ1, hδ1⟩ := add_vote_tracked ctx s v
        rw [hv] at hδ1
        obtain ⟨δ2, hδ2⟩ := add_votes_tracked ctx vs sm
        rw [hrun] at hδ2
        have hnil : δ1 ++ δ2 = [] := by
          have hcomp : s.tracked_protocol_failures ++ (δ1 ++ δ2)
              = s.tracked_protocol_failures ++ [] := by
            rw [List.append_nil, ← List.append_assoc, ← hδ1, ← hδ2, hnoev]
          exact List.append_cancel_left hcomp
        obtain ⟨hδ1nil, hδ2nil⟩ := List.append_eq_nil.mp hnil
        have hnoev_step : sm.tracked_protocol_failures
            = s.tracked_protocol_failures := by
          rw [hδ1, hδ1nil, List.append_nil]
        have hnoev_rest : s'.tracked_protocol_failures
            = sm.tracked_protocol_failures := by
          rw [hδ2, hδ2nil, List.append_nil]
        have hanat := add_vote_ok_anatomy ctx v s sm x hv hnoev_step
        have hwfm := hanat.2.2.2.2.2.2 hwf
        have hndtail : (vs.map Vote.sender).Nodup := (List.nodup_cons.mp
          (show (v.sender :: vs.map Vote.sender).Nodup from hnd)).2
        have hnotmem : v.sender ∉ vs.map Vote.sender := (List.nodup_cons.mp
          (show (v.sender :: vs.map Vote.sender).Nodup from hnd)).1
        have IH := add_votes_facts ctx vs sm s' hndtail hwfm hrun hnoev_rest
        refine ⟨IH.1, IH.2.1.trans hanat.2.1, IH.2.2.1.trans hanat.2.2.1,
          IH.2.2.2.1.trans hanat.2.2.2.1, ?_, ?_⟩
        · intro u hu
          rcases List.mem_cons.mp hu with rfl | hu'
          · obtain ⟨rm', hcell', hvmem, hdead', _⟩ := hanat.2.2.2.2.2.1
            have hPv : recordedDead ctx sm u :=
              ⟨hanat.1, rm', hcell', hvmem, hdead'⟩
            refine IH.2.2.2.2.2 u hPv ?_
            intro v' hv'
            left
            intro hc
            exact hnotmem (hc ▸ List.mem_map_of_mem Vote.sender hv')
          · exact IH.2.2.2.2.1 u hu'
        · intro w hw hside
          have hstepP : recordedDead ctx sm w :=
            recordedDead_add_vote ctx v s sm x hv hnoev_step w hw
              (hside v (List.mem_cons_self _ _))
          exact IH.2.2.2.2.2 w hstepP
            (fun v' hv' => hside v' (List.mem_cons_of_mem _ hv'))

theorem add_votes_noop (ctx : Ctx) :
    ∀ (vs : List Vote) (u : ConsensusManager),
    u.wfState = true → (∀ v ∈ vs, recordedDead ctx u v) →
    ConsensusManager.add_votes ctx u vs = (u, .ok ())
  | [], u, _, _ => by rw [ConsensusManager.add_votes]
  | v :: vs, u, hwf, hall => by
      rw [ConsensusManager.add_votes,
        add_vote_noop_of_recorded ctx v u hwf (hall v (List.mem_cons_self _ _))]
      exact add_votes_noop ctx vs u hwf
        (fun w hw => hall w (List.mem_cons_of_mem _ hw))

theorem lvl_congr (hm hm' : HeightManager) (hk : hm'.keys = hm.keys)
    (hg : ∀ k ∈ hm.keys, (hm'.rget k).lockset = (hm.rget k).lockset) :
    hm'.last_valid_lockset = hm.last_valid_lockset := by
  unfold HeightManager.last_valid_lockset
  rw [hk]
  apply findSome?_congr
  intro k hkmem
  have hkin : k ∈ hm.keys :=
    (sortAsc_perm hm.keys).mem_iff.mp (by simpa using hkmem)
  simp only []
  rw [hg k hkin]

theorem lvl_ensureRound (ctx : Ctx) (hm : HeightManager) (r : Nat)
    (hinv : LockSet.is_valid
      ⟨ctx.contract.num_eligible_votes hm.height, []⟩ = false) :
    (hm.ensureRound ctx r).last_valid_lockset = hm.last_valid_lockset := by
  unfold HeightManager.ensureRound
  split
  · rfl
  · rename_i hnone
    have hn : hm.rounds.lookup r = none := by
      cases hlk : hm.rounds.lookup r with
      | none => rfl
      | some rm => rw [hlk] at hnone; simp at hnone
    unfold HeightManager.last_valid_lockset
    have hkeys : HeightManager.keys ({ hm with rounds :=
        hm.rounds ++ [(r, freshRound ctx hm.height r)] } : HeightManager)
        = hm.keys ++ [r] := by
      show (hm.rounds ++ [(r, freshRound ctx hm.height r)]).map Prod.fst = _
      rw [List.map_append]
      rfl
    rw [hkeys, sortAsc_append_singleton]
    apply findSome?_reverse_insert
    · have hrg : ({ hm with rounds := hm.rounds ++
          [(r, freshRound ctx hm.height r)] } : HeightManager).rget r
          = freshRound ctx hm.height r := by
        unfold HeightManager.rget
        show ((hm.rounds ++ [(r, freshRound ctx hm.height r)]).lookup r).getD _
          = _
        rw [lookup_append, hn, if_pos rfl]
        rfl
      simp only []
      rw [hrg]
      have hfl : (freshRound ctx hm.height r).lockset
          = ⟨ctx.contract.num_eligible_votes hm.height, []⟩ := rfl
      rw [hfl, hinv]
      rfl
    · intro k hk
      have hkin : k ∈ hm.keys := (sortAsc_perm hm.keys).mem_iff.mp hk
      have hkr : ¬ k = r := by
        intro hc
        have hk2 : (hm.rounds.lookup k).isSome = true :=
          (mem_keys_lookup hm.rounds k).mp hkin
        rw [hc, hn] at hk2
        simp at hk2
      have hrg : ({ hm with rounds := hm.rounds ++
          [(r, freshRound ctx hm.height r)] } : HeightManager).rget k
          = hm.rget k := by
        unfold HeightManager.rget
        show ((hm.rounds ++ [(r, freshRound ctx hm.height r)]).lookup k).getD _
          = (hm.rounds.lookup k).getD _
        rw [lookup_append]
        cases hm.rounds.lookup k with
        | some rm => rfl
        | none => rw [if_neg hkr]
      simp only []
      rw [hrg]

theorem lvl_updRound_lockset_eq (hm : HeightManager) (r : Nat)
    (rm' rm0 : RoundManager) (hlk : hm.rounds.lookup r = some rm0)
    (hls : rm'.lockset = rm0.lockset) :
    (hm.updRound r rm').last_valid_lockset = hm.last_valid_lockset := by
  apply lvl_congr
  · show ((hm.rounds.map fun e => if e.1 = r then (r, rm') else e).map
      Prod.fst) = _
    rw [keys_map_upd]
    rfl
  · intro k hkin
    unfold HeightManager.rget
    show (((hm.rounds.map fun e => if e.1 = r then (r, rm') else e).lookup
      k).getD _).lockset = ((hm.rounds.lookup k).getD _).lockset
    rw [lookup_map_upd]
    by_cases hkr : k = r
    · rw [if_pos hkr, hkr, hlk]
      exact hls
    · rw [if_neg hkr]
      rfl

theorem roundP_congr (hm hm' : HeightManager)
    (h : hm'.last_valid_lockset = hm.last_valid_lockset) :
    hm'.roundP = hm.roundP := by
  unfold HeightManager.roundP
  rw [h]

theorem fresh_lockset_invalid (ctx : Ctx) (h : Nat) (hh : 1 ≤ h)
    (hvn : ctx.contract.validators ≠ []) :
    LockSet.is_valid ⟨ctx.contract.num_eligible_votes h, []⟩ = false := by
  unfold LockSet.is_valid Contract.num_eligible_votes
  rw [if_neg (by omega : ¬ h = 0)]
  refine decide_eq_false ?_
  intro hle
  have hlen : 1 ≤ ctx.contract.validators.length := List.length_pos.mpr hvn
  have hq : 1 ≤ quorumSize ctx.contract.validators.length := by
    unfold quorumSize
    have h4 : 4 ≤ 2 * ctx.contract.validators.length + 2 := by omega
    calc 1 = 4 / 3 := rfl
    _ ≤ (2 * ctx.contract.validators.length + 2) / 3 := Nat.div_le_div_right h4
  simp at hle
  omega

theorem hm_add_proposal_ok_spec (ctx : Ctx) (hm : HeightManager)
    (p : Proposal) (hm' : HeightManager) (b : Bool)
    (hrun : HeightManager.add_proposal ctx hm p = (hm', .ok b)) :
    ∃ ls, p.lockset? = some ls ∧ p.height = hm.height ∧ ls.is_valid = true ∧
    ¬ hm.roundP < p.round ∧ b = true ∧
    hm' = (hm.ensureRound ctx p.round).updRound p.round
      { (hm.ensureRound ctx p.round).rget p.round with proposal := some p } := by
  unfold HeightManager.add_proposal at hrun
  split at hrun
  · exact absurd (congrArg Prod.snd hrun) (by simp)
  · rename_i ls hls
    split at hrun
    · exact absurd (congrArg Prod.snd hrun) (by simp)
    · rename_i hheq
      split at hrun
      · exact absurd (congrArg Prod.snd hrun) (by simp)
      · rename_i hvalid
        split at hrun
        · exact absurd (congrArg Prod.snd hrun) (by simp)
        · rename_i hround
          simp only [] at hrun
          split at hrun
          · rename_i q hq
            split at hrun
            · exact absurd (congrArg Prod.snd hrun) (by simp)
            · obtain ⟨h1, h2⟩ := Prod.mk.injEq .. ▸ hrun
              exact ⟨ls, hls, not_not.mp hheq, not_bang_eq_true hvalid,
                hround, (Except.ok.inj h2).symm, h1.symm⟩
          · rename_i hq
            obtain ⟨h1, h2⟩ := Prod.mk.injEq .. ▸ hrun
            exact ⟨ls, hls, not_not.mp hheq, not_bang_eq_true hvalid,
              hround, (Except.ok.inj h2).symm, h1.symm⟩

theorem hm_add_proposal_readd (ctx : Ctx) (hm' : HeightManager)
    (p : Proposal) (ls : LockSet) (rmN : RoundManager)
    (hls : p.lockset? = some ls)
    (hheight : hm'.height = p.height)
    (hvalid : ls.is_valid = true)
    (hround : ¬ hm'.roundP < p.round)
    (hnd : (hm'.rounds.map Prod.fst).Nodup)
    (hlk : hm'.rounds.lookup p.round = some rmN)
    (hprop : rmN.proposal = some p) :
    HeightManager.add_proposal ctx hm' p = (hm', .ok true) := by
  unfold HeightManager.add_proposal
  rw [hls]
  simp only []
  rw [if_neg (show ¬ p.height ≠ hm'.height from fun hc => hc hheight.symm)]
  rw [if_neg (show ¬ (!ls.is_valid) = true by rw [hvalid]; simp)]
  rw [if_neg hround]
  have hens : hm'.ensureRound ctx p.round = hm' := by
    unfold HeightManager.ensureRound
    rw [hlk]
    simp
  rw [hens]
  have hrget : hm'.rget p.round = rmN := by
    unfold HeightManager.rget
    rw [hlk]
    rfl
  rw [hrget, hprop]
  simp only []
  rw [if_neg (show ¬ p ≠ p from fun hc => hc rfl)]
  have heta : ({ rmN with proposal := some p } : RoundManager) = rmN := by
    rcases rmN with ⟨a, b, c, d, e, f⟩
    simp only [] at hprop
    rw [show d = some p from hprop]
  rw [heta]
  have hupd : hm'.updRound p.round rmN = hm' := by
    have hmap := map_upd_self hm'.rounds p.round rmN hnd hlk
    show ({ hm' with rounds := hm'.rounds.map fun e => if e.1 = p.round then (p.round, rmN) else e } : HeightManager) = hm'
    rw [hmap]
  rw [hupd]

theorem candidates_set_lookup (l : List (Hash × Proposal)) (bh : Hash)
    (p : Proposal) :
    (if (l.lookup bh).isSome then
        l.map (fun e => if e.1 = bh then (bh, p) else e)
      else l ++ [(bh, p)]).lookup bh = some p := by
  split
  · rename_i hs
    rw [lookup_map_upd, if_pos rfl]
    cases hlk : l.lookup bh with
    | none => rw [hlk] at hs; simp at hs
    | some q => rfl
  · rename_i hns
    have hn : l.lookup bh = none := by
      cases hlk : l.lookup bh with
      | none => rfl
      | some q => rw [hlk] at hns; simp at hns
    rw [lookup_append, hn, if_pos rfl]

theorem candidates_set_nodup (l : List (Hash × Proposal)) (bh : Hash)
    (p : Proposal) (hnd : (l.map Prod.fst).Nodup) :
    ((if (l.lookup bh).isSome then
        l.map (fun e => if e.1 = bh then (bh, p) else e)
      else l ++ [(bh, p)]).map Prod.fst).Nodup := by
  split
  · rw [keys_map_upd]
    exact hnd
  · rename_i hns
    have hn : l.lookup bh = none := by
      cases hlk : l.lookup bh with
      | none => rfl
      | some q => rw [hlk] at hns; simp at hns
    rw [List.map_append, List.map_cons, List.map_nil]
    refine ((List.perm_append_singleton _ _).nodup_iff).mpr ?_
    refine List.nodup_cons.mpr ⟨?_, hnd⟩
    intro hc
    have h2 := (mem_keys_lookup l bh).mp hc
    rw [hn] at h2
    simp at h2

theorem candidates_set_self (l : List (Hash × Proposal)) (bh : Hash)
    (p : Proposal) (hnd : (l.map Prod.fst).Nodup)
    (hlk : l.lookup bh = some p) :
    (if (l.lookup bh).isSome then
        l.map (fun e => if e.1 = bh then (bh, p) else e)
      else l ++ [(bh, p)]) = l := by
  rw [hlk]
  simp only [Option.isSome_some, if_true]
  exact map_upd_self l bh p hnd hlk

/-- Anatomy of one evidence-free successful `add_block_proposal`: state
invariants survive, and either the proposal was already persisted (so
the call was a no-op) or the candidate map now stores it under its
blockhash and all its signing votes are cleanly recorded. -/
theorem abp_clean_spec (ctx : Ctx) (s s' : ConsensusManager) (sd : Address)
    (h r : Nat) (blk : Block) (sl : LockSet) (rls : Option LockSet)
    (hrun : ConsensusManager.add_block_proposal ctx s
      (.bp sd h r blk sl rls) = (s', .ok ()))
    (hnoev : s'.tracked_protocol_failures = s.tracked_protocol_failures)
    (hwf : s.wfState = true)
    (hslnd : sl.sendersNodup = true) :
    s'.wfState = true ∧ s'.head = s.head ∧ s'.stored = s.stored ∧
    (((Proposal.bp sd h r blk sl rls).blockhash ∈ s.stored ∧ s' = s) ∨
     (¬ (Proposal.bp sd h r blk sl rls).blockhash ∈ s.stored ∧
      ¬ sl.has_quorum.isNone = true ∧ ¬ sl.lsHeight ≠ h - 1 ∧
      s'.block_candidates.lookup (Proposal.bp sd h r blk sl rls).blockhash
        = some (.bp sd h r blk sl rls) ∧
      (∀ v ∈ sl.votes, recordedDead ctx s' v))) ∧
    (∀ w, recordedDead ctx s w →
      (∀ v ∈ sl.votes, ¬ v.sender = w.sender ∨ v = w ∨
        ¬(v.height = w.height ∧ v.round = w.round)) →
      recordedDead ctx s' w) := by
  unfold ConsensusManager.add_block_proposal at hrun
  simp only [] at hrun
  split at hrun
  · rename_i hst
    obtain ⟨h1, _⟩ := Prod.mk.injEq .. ▸ hrun
    subst h1
    exact ⟨hwf, rfl, rfl, Or.inl ⟨hst, rfl⟩, fun w hw _ => hw⟩
  · rename_i hst
    split at hrun
    · exact absurd (congrArg Prod.snd hrun) (by simp)
    · rename_i hq
      split at hrun
      · exact absurd (congrArg Prod.snd hrun) (by simp)
      · rename_i hlsh
        rcases hfold : ConsensusManager.add_votes ctx s sl.votes with ⟨s1, res⟩
        rw [hfold] at hrun
        rcases res with e | u
        · simp only [] at hrun
          exact absurd (congrArg Prod.snd hrun) (by simp)
        · cases u
          simp only [] at hrun
          obtain ⟨h1, _⟩ := Prod.mk.injEq .. ▸ hrun
          have htr1 : s'.tracked_protocol_failures
              = s1.tracked_protocol_failures := by
            rw [← h1]
          rw [htr1] at hnoev
          have hfacts := add_votes_facts ctx sl.votes s s1
            (of_decide_eq_true hslnd) hwf hfold hnoev
          have hheights : s'.heights = s1.heights := by
            rw [← h1]
          have hwf1parts := wfState_parts s1 hfacts.1
          refine ⟨?_, ?_, ?_, ?_, ?_⟩
          · refine wfState_build s' ?_ ?_ ?_
            · rw [hheights]
              exact hwf1parts.1
            · have hbc : s'.block_candidates
                  = (if ((s1.block_candidates.lookup
                      (Proposal.bp sd h r blk sl rls).blockhash).isSome) then
                      s1.block_candidates.map (fun e =>
                        if e.1 = (Proposal.bp sd h r blk sl rls).blockhash then
                          ((Proposal.bp sd h r blk sl rls).blockhash,
                            Proposal.bp sd h r blk sl rls)
                        else e)
                    else s1.block_candidates ++
                      [((Proposal.bp sd h r blk sl rls).blockhash,
                        Proposal.bp sd h r blk sl rls)]) := by
                rw [← h1]
              rw [hbc]
              exact candidates_set_nodup _ _ _ hwf1parts.2.1
            · rw [hheights]
              exact hwf1parts.2.2
          · rw [← h1]
            show s1.head = s.head
            exact hfacts.2.1
          · rw [← h1]
            show s1.stored = s.stored
            exact hfacts.2.2.2.1
          · right
            refine ⟨hst, hq, hlsh, ?_, ?_⟩
            · have hbc : s'.block_candidates
                  = (if ((s1.block_candidates.lookup
                      (Proposal.bp sd h r blk sl rls).blockhash).isSome) then
                      s1.block_candidates.map (fun e =>
                        if e.1 = (Proposal.bp sd h r blk sl rls).blockhash then
                          ((Proposal.bp sd h r blk sl rls).blockhash,
                            Proposal.bp sd h r blk sl rls)
                        else e)
                    else s1.block_candidates ++
                      [((Proposal.bp sd h r blk sl rls).blockhash,
                        Proposal.bp sd h r blk sl rls)]) := by
                rw [← h1]
              rw [hbc]
              exact candidates_set_lookup _ _ _
            · intro v hv
              refine recordedDead_of_cell ctx v s1 s'
                (hfacts.2.2.2.2.1 v hv) ?_
              intro rm hcell
              refine ⟨rm, ?_, rfl, fun hp => hp⟩
              rw [cellOf_heights_congr hheights]
              exact hcell
          · intro w hw hside
            refine recordedDead_of_cell ctx w s1 s'
              (hfacts.2.2.2.2.2 w hw hside) ?_
            intro rm hcell
            refine ⟨rm, ?_, rfl, fun hp => hp⟩
            rw [cellOf_heights_congr hheights]
            exact hcell

theorem ensureHeight_of_lookup_some (s : ConsensusManager) (h : Nat)
    (hm : HeightManager) (hlk : s.heights.lookup h = some hm) :
    s.ensureHeight h = s := by
  unfold ConsensusManager.ensureHeight
  rw [hlk]
  simp

theorem hGet_of_lookup (s : ConsensusManager) (h : Nat) (hm : HeightManager)
    (hlk : s.heights.lookup h = some hm) : s.hGet h = hm := by
  unfold ConsensusManager.hGet
  rw [hlk]
  rfl

/-- Anatomy of the height manager proposal write of `add_proposal`
(`manager.py` lines 257-259 landing in lines 420-435), together with
everything needed to replay it: the write succeeds with `True`, only
the proposal slot of the target round changes, and replaying
`add_proposal` on the written manager is a no-op returning `True`. -/
theorem prop_write_spec (ctx : Ctx) (sB : ConsensusManager) (p : Proposal)
    (hm2 : HeightManager) (b : Bool)
    (hrun : HeightManager.add_proposal ctx
      ((sB.ensureHeight p.height).hGet p.height) p = (hm2, .ok b))
    (hwf : sB.wfState = true)
    (hh1 : 1 ≤ p.height) (hvn : ctx.contract.validators ≠ []) :
    b = true ∧
    ((sB.ensureHeight p.height).updHeight p.height hm2).wfState = true ∧
    ((sB.ensureHeight p.height).updHeight p.height hm2).head = sB.head ∧
    ((sB.ensureHeight p.height).updHeight p.height hm2).stored = sB.stored ∧
    ((sB.ensureHeight p.height).updHeight p.height hm2).block_candidates
      = sB.block_candidates ∧
    ((sB.ensureHeight p.height).updHeight p.height
      hm2).tracked_protocol_failures = sB.tracked_protocol_failures ∧
    (∀ w, recordedDead ctx sB w →
      recordedDead ctx ((sB.ensureHeight p.height).updHeight p.height hm2) w) ∧
    ((sB.ensureHeight p.height).updHeight p.height hm2).ensureHeight p.height
      = (sB.ensureHeight p.height).updHeight p.height hm2 ∧
    ((sB.ensureHeight p.height).updHeight p.height hm2).hGet p.height = hm2 ∧
    HeightManager.add_proposal ctx hm2 p = (hm2, .ok true) ∧
    ((sB.ensureHeight p.height).updHeight p.height hm2).updHeight p.height hm2
      = (sB.ensureHeight p.height).updHeight p.height hm2 := by
  obtain ⟨ls, hls, hph, hlsv, hrp, hb, hhm2⟩ :=
    hm_add_proposal_ok_spec ctx _ p hm2 b hrun
  have hlkH := ensureHeight_lookup_self sB p.height
  have hwfS1 := wfState_ensureHeight sB p.height hwf
  have hwfHmPre := wf_hm_of_lookup _ p.height _ hwfS1 hlkH
  have hwfHm1 := wfH_ensureRound ctx p.height _ p.round hwfHmPre
  have hlkR := ensureRound_lookup_self ctx
    ((sB.ensureHeight p.height).hGet p.height) p.round
  have hwfRget := wf_rm_of_lookup p.height _ p.round _ hwfHm1 hlkR
  have hwfRmN : RoundManager.wfR
      { ((((sB.ensureHeight p.height).hGet p.height).ensureRound ctx
          p.round)).rget p.round with proposal := some p } = true := by
    obtain ⟨h1, h2⟩ := wfR_parts _ hwfRget
    exact wfR_build _ h1 h2
  have hwfHm2 : hm2.wfH p.height = true := by
    rw [hhm2]
    exact wfH_updRound p.height _ p.round _ hwfHm1 hwfRmN
  have hh2 : hm2.height = p.height := (wfH_parts _ _ hwfHm2).1
  have hfreshinv : LockSet.is_valid ⟨ctx.contract.num_eligible_votes
      (((sB.ensureHeight p.height).hGet p.height).height), []⟩ = false := by
    rw [(wfH_parts _ _ hwfHmPre).1]
    exact fresh_lockset_invalid ctx p.height hh1 hvn
  have hlvl2 : hm2.last_valid_lockset
      = ((sB.ensureHeight p.height).hGet p.height).last_valid_lockset := by
    rw [hhm2]
    have he1 := lvl_ensureRound ctx
      ((sB.ensureHeight p.height).hGet p.height) p.round hfreshinv
    have he2 := lvl_updRound_lockset_eq
      (((sB.ensureHeight p.height).hGet p.height).ensureRound ctx p.round)
      p.round
      { ((((sB.ensureHeight p.height).hGet p.height).ensureRound ctx
          p.round)).rget p.round with proposal := some p }
      (((((sB.ensureHeight p.height).hGet p.height).ensureRound ctx
          p.round)).rget p.round) hlkR rfl
    exact he2.trans he1
  have hrp2 : ¬ hm2.roundP < p.round := by
    rw [roundP_congr _ hm2 hlvl2]
    exact hrp
  have hlk2 : hm2.rounds.lookup p.round
      = some { ((((sB.ensureHeight p.height).hGet p.height).ensureRound ctx
          p.round)).rget p.round with proposal := some p } := by
    rw [hhm2]
    show (((((sB.ensureHeight p.height).hGet p.height).ensureRound ctx
        p.round)).rounds.map fun e => if e.1 = p.round then (p.round,
          { ((((sB.ensureHeight p.height).hGet p.height).ensureRound ctx
              p.round)).rget p.round with proposal := some p }) else
            e).lookup p.round = _
    rw [lookup_map_upd, if_pos rfl, hlkR]
    rfl
  have hlkH2 : ((sB.ensureHeight p.height).updHeight p.height
      hm2).heights.lookup p.height = some hm2 := by
    show ((sB.ensureHeight p.height).heights.map fun e =>
      if e.1 = p.height then (p.height, hm2) else e).lookup p.height = _
    rw [lookup_map_upd, if_pos rfl, hlkH]
    rfl
  have hwfS2 : ((sB.ensureHeight p.height).updHeight p.height
      hm2).wfState = true := wfState_updHeight _ p.height hm2 hwfS1 hwfHm2
  refine ⟨hb, hwfS2, ?_, ?_, ?_, ?_, ?_, ?_, ?_, ?_, ?_⟩
  · show (sB.ensureHeight p.height).head = sB.head
    exact ensureHeight_head sB p.height
  · show (sB.ensureHeight p.height).stored = sB.stored
    exact (ensureHeight_fields sB p.height).2
  · show (sB.ensureHeight p.height).block_candidates = sB.block_candidates
    exact (ensureHeight_fields sB p.height).1
  · show (sB.ensureHeight p.height).tracked_protocol_failures
      = sB.tracked_protocol_failures
    exact ensureHeight_tracked sB p.height
  · intro w hw
    refine recordedDead_of_cell ctx w sB _ hw ?_
    intro rm hcell
    have hcell1 : cellOf (sB.ensureHeight p.height) w.height w.round
        = some rm := by
      rw [cellOf_ensureHeight]
      exact hcell
    by_cases hwh : w.height = p.height
    · have hcell2 : cellOf ((sB.ensureHeight p.height).updHeight p.height
          hm2) w.height w.round = hm2.rounds.lookup w.round := by
        rw [hwh]
        exact cellOf_updHeight_self _ _ _ _ _ hlkH
      by_cases hwr : w.round = p.round
      · have hlkPre : ((sB.ensureHeight p.height).hGet
            p.height).rounds.lookup p.round = some rm := by
          have hc := hcell1
          rw [hwh, hwr] at hc
          unfold cellOf at hc
          rw [hlkH] at hc
          exact hc
        have hrg : ((((sB.ensureHeight p.height).hGet p.height).ensureRound
            ctx p.round)).rget p.round = rm :=
          ensureRound_rget_some ctx _ p.round rm hlkPre
        refine ⟨{ rm with proposal := some p }, ?_, rfl, ?_⟩
        · rw [hcell2, hwr, hlk2, hrg]
        · intro hpn
          exact absurd hpn (by simp)
      · have hlkPre : ((sB.ensureHeight p.height).hGet
            p.height).rounds.lookup w.round = some rm := by
          have hc := hcell1
          rw [hwh] at hc
          unfold cellOf at hc
          rw [hlkH] at hc
          exact hc
        refine ⟨rm, ?_, rfl, fun hp => hp⟩
        rw [hcell2, hhm2]
        show (((((sB.ensureHeight p.height).hGet p.height).ensureRound ctx
            p.round)).rounds.map fun e => if e.1 = p.round then (p.round,
              { ((((sB.ensureHeight p.height).hGet p.height).ensureRound ctx
                  p.round)).rget p.round with proposal := some p }) else
                e).lookup w.round = _
        rw [lookup_map_upd, if_neg hwr,
          ensureRound_lookup_other ctx _ p.round w.round hwr, hlkPre]
    · refine ⟨rm, ?_, rfl, fun hp => hp⟩
      rw [cellOf_updHeight_other _ _ _ _ _ hwh]
      exact hcell1
  · exact ensureHeight_of_lookup_some _ p.height hm2 hlkH2
  · exact hGet_of_lookup _ p.height hm2 hlkH2
  · exact hm_add_proposal_readd ctx hm2 p ls _ hls hh2 hlsv hrp2
      (wfH_parts _ _ hwfHm2).2.1 hlk2 rfl
  · have hmap := map_upd_self ((sB.ensureHeight p.height).updHeight p.height
      hm2).heights p.height hm2 (wfState_parts _ hwfS2).1 hlkH2
    show ({ (sB.ensureHeight p.height).updHeight p.height hm2 with heights :=
      ((sB.ensureHeight p.height).updHeight p.height hm2).heights.map fun e =>
        if e.1 = p.height then (p.height, hm2) else e } : ConsensusManager)
      = _
    rw [hmap]

theorem abp_tracked (ctx : Ctx) (s : ConsensusManager) (p : Proposal) :
    ∃ δ, (ConsensusManager.add_block_proposal ctx s
      p).1.tracked_protocol_failures = s.tracked_protocol_failures ++ δ := by
  unfold ConsensusManager.add_block_proposal
  split
  · exact ⟨[], by rw [List.append_nil]⟩
  · rename_i sender hh rr blk sl rls
    split
    · exact ⟨[], by rw [List.append_nil]⟩
    · split
      · exact ⟨[], by rw [List.append_nil]⟩
      · split
        · exact ⟨[], by rw [List.append_nil]⟩
        · split
          · rename_i s2 e hfold
            obtain ⟨δ, hδ⟩ := add_votes_tracked ctx sl.votes s
            rw [hfold] at hδ
            exact ⟨δ, hδ⟩
          · rename_i s2 hfold
            obtain ⟨δ, hδ⟩ := add_votes_tracked ctx sl.votes s
            rw [hfold] at hδ
            exact ⟨δ, hδ⟩

theorem and_true_parts {a b : Bool} (h : (a && b) = true) :
    a = true ∧ b = true := by
  rw [Bool.and_eq_true] at h
  exact h

theorem or_true_parts {a b : Bool} (h : (a || b) = true) :
    a = true ∨ b = true := by
  rw [Bool.or_eq_true] at h
  exact h

theorem sender_inj_of_nodup (l : List Vote)
    (hnd : (l.map Vote.sender).Nodup) (v w : Vote) (hv : v ∈ l) (hw : w ∈ l)
    (hs : v.sender = w.sender) : v = w := by
  have h1 := find_sender_go l v hnd hv
  have h2 := find_sender_go l w hnd hw
  rw [hs] at h1
  rw [h1] at h2
  exact Option.some.inj h2

/-- Claim C9, amended: when the first `add_proposal(p)` call is admitted
(`.ok`) while appending no evidence, over a well-formed engine state, a
proposal with well-formed lock-sets, and a chain service whose
`link_block` is stable (a linked block keeps its number and re-links to
itself), then the second call — on the returned state and the returned
(possibly block-replaced) proposal object, since `p.block = blk`
mutates the caller's proposal in place — returns the same result and
leaves the state unchanged.  (The counterexample shows that without
clean admission, evidence is re-appended on every retry.) -/
theorem add_proposal_idempotent_on_clean_admission
    (ctx : Ctx) (s s1 : ConsensusManager) (p p1 : Proposal) (r : Option Bool)
    (hrun : ConsensusManager.add_proposal ctx s p = (s1, .ok r, p1))
    (hnoev : s1.tracked_protocol_failures = s.tracked_protocol_failures)
    (hwf : s.wfState = true)
    (hwfp : p.wfVotes = true)
    (hlink : ∀ b b', ctx.linkBlock b = some b' →
      b'.number = b.number ∧ ctx.linkBlock b' = some b') :
    ConsensusManager.add_proposal ctx s1 p1 = (s1, .ok r, p1) := by
  unfold ConsensusManager.add_proposal at hrun
  split at hrun
  · rename_i hbelow
    rw [Prod.mk.injEq, Prod.mk.injEq] at hrun
    obtain ⟨h1, h2, h3⟩ := hrun
    subst h1
    obtain rfl : r = none := (Except.ok.inj h2).symm
    subst h3
    unfold ConsensusManager.add_proposal
    rw [if_pos hbelow]
  · rename_i hbelow
    split at hrun
    · exact absurd (congrArg (fun t => t.2.1) hrun) (by simp)
    · rename_i hc2
      split at hrun
      · exact absurd (congrArg (fun t => t.2.1) hrun) (by simp)
      · rename_i ls hls
        split at hrun
        · exact absurd (congrArg (fun t => t.2.1) hrun) (by simp)
        · rename_i hc3
          split at hrun
          · exact absurd (congrArg (fun t => t.2.1) hrun) (by simp)
          · rename_i hc4
            split at hrun
            · exact absurd (congrArg (fun t => t.2.1) hrun) (by simp)
            · rename_i hc5
              rcases hfold : ConsensusManager.add_votes ctx s ls.votes
                with ⟨sA, res⟩
              rw [hfold] at hrun
              rcases res with e | u
              · simp only [] at hrun
                exact absurd (congrArg (fun t => t.2.1) hrun) (by simp)
              · cases u
                simp only [] at hrun
                have hh1 : 1 ≤ p.height := by
                  have hle : s.cmHeight ≤ p.height := Nat.le_of_not_lt hbelow
                  have hcm : 1 ≤ s.cmHeight := by
                    unfold ConsensusManager.cmHeight
                    omega
                  omega
                have hval2 : (ctx.contract.isvalidator p.sender &&
                    ctx.contract.isproposer p) = true := not_bang_eq_true hc2
                have hvn : ctx.contract.validators ≠ [] := by
                  have hv1 : ctx.contract.isvalidator p.sender = true :=
                    (and_true_parts hval2).1
                  exact List.ne_nil_of_mem (of_decide_eq_true hv1)
                split at hrun
                · -- BlockProposal
                  rename_i sender hgt rr blk sl rls
                  split at hrun
                  · exact absurd (congrArg (fun t => t.2.1) hrun) (by simp)
                  · rename_i hc6
                    split at hrun
                    · exact absurd (congrArg (fun t => t.2.1) hrun) (by simp)
                    · rename_i hc7
                      split at hrun
                      · -- future drop
                        rename_i hfut
                        rw [Prod.mk.injEq, Prod.mk.injEq] at hrun
                        obtain ⟨h1, h2, h3⟩ := hrun
                        subst h1
                        obtain rfl : r = none := (Except.ok.inj h2).symm
                        subst h3
                        have hnoevA : sA.tracked_protocol_failures
                            = s.tracked_protocol_failures := hnoev
                        have hndls : (ls.votes.map Vote.sender).Nodup := by
                          have hwfp' := hwfp
                          unfold Proposal.wfVotes at hwfp'
                          by_cases hr0 : rr = 0
                          · have hq : (if rr = 0 then some sl else rls)
                                = some ls := hls
                            rw [if_pos hr0] at hq
                            obtain rfl : sl = ls := Option.some.inj hq
                            exact of_decide_eq_true
                              (and_true_parts (and_true_parts hwfp').1).1
                          · have hq : (if rr = 0 then some sl else rls)
                                = some ls := hls
                            rw [if_neg hr0] at hq
                            rw [hq] at hwfp'
                            exact of_decide_eq_true
                              (and_true_parts ((and_true_parts hwfp').2)).1
                        have hfacts := add_votes_facts ctx ls.votes s sA
                          hndls hwf hfold hnoevA
                        have hcmA : sA.cmHeight = s.cmHeight := by
                          unfold ConsensusManager.cmHeight
                          rw [hfacts.2.1]
                        have hbelowA : ¬ (Proposal.bp sender hgt rr blk sl
                            rls).height < sA.cmHeight := by
                          rw [hcmA]
                          exact hbelow
                        have hfutA : sA.cmHeight < hgt := hfut
                        unfold ConsensusManager.add_proposal
                        rw [if_neg hbelowA, if_neg hc2, hls]
                        simp only []
                        rw [if_neg hc3, if_neg hc4, if_neg hc5,
                          add_votes_noop ctx ls.votes sA hfacts.1
                            hfacts.2.2.2.2.1]
                        simp only []
                        rw [if_neg hc6, if_neg hc7, if_pos hfutA]
                      · -- linked: the full admission path
                        rename_i hfut
                        split at hrun
                        · exact absurd (congrArg (fun t => t.2.1) hrun)
                            (by simp)
                        · rename_i blk' hlk1
                          rcases habp : ConsensusManager.add_block_proposal
                              ctx sA (Proposal.bp sender hgt rr blk' sl rls)
                            with ⟨sB, res3⟩
                          rw [habp] at hrun
                          rcases res3 with e3 | u3
                          · simp only [] at hrun
                            exact absurd (congrArg (fun t => t.2.1) hrun)
                              (by simp)
                          · cases u3
                            simp only [] at hrun
                            rcases hhm : HeightManager.add_proposal ctx
                                ((sB.ensureHeight hgt).hGet hgt)
                                (Proposal.bp sender hgt rr blk' sl rls)
                              with ⟨hm2, res4⟩
                            rw [hhm] at hrun
                            rcases res4 with e4 | b
                            · simp only [] at hrun
                              exact absurd (congrArg (fun t => t.2.1) hrun)
                                (by simp)
                            · simp only [] at hrun
                              rw [Prod.mk.injEq, Prod.mk.injEq] at hrun
                              obtain ⟨h1, h2, h3⟩ := hrun
                              obtain rfl : r = some b := (Except.ok.inj h2).symm
                              subst h3
                              subst h1
                              obtain ⟨δ1, hδ1⟩ := add_votes_tracked ctx
                                ls.votes s
                              rw [hfold] at hδ1
                              obtain ⟨δ2, hδ2⟩ := abp_tracked ctx sA
                                (Proposal.bp sender hgt rr blk' sl rls)
                              rw [habp] at hδ2
                              have htrS1 : ((sB.ensureHeight hgt).updHeight
                                  hgt hm2).tracked_protocol_failures
                                  = sB.tracked_protocol_failures := by
                                show (sB.ensureHeight
                                  hgt).tracked_protocol_failures = _
                                rw [ensureHeight_tracked]
                              rw [htrS1] at hnoev
                              have hnil : δ1 ++ δ2 = [] := by
                                have hcomp : s.tracked_protocol_failures ++
                                    (δ1 ++ δ2)
                                    = s.tracked_protocol_failures ++ [] := by
                                  rw [List.append_nil, ← List.append_assoc,
                                    ← hδ1, ← hδ2, hnoev]
                                exact List.append_cancel_left hcomp
                              obtain ⟨hδ1n, hδ2n⟩ := List.append_eq_nil.mp hnil
                              have hnoevA : sA.tracked_protocol_failures
                                  = s.tracked_protocol_failures := by
                                rw [hδ1, hδ1n, List.append_nil]
                              have hnoevB : sB.tracked_protocol_failures
                                  = sA.tracked_protocol_failures := by
                                rw [hδ2, hδ2n, List.append_nil]
                              have hwfp' := hwfp
                              unfold Proposal.wfVotes at hwfp'
                              have hslnd : sl.sendersNodup = true :=
                                (and_true_parts (and_true_parts hwfp').1).1
                              have hslhom : sl.homogeneous = true :=
                                (and_true_parts (and_true_parts hwfp').1).2
                              have hlsfacts : ls.sendersNodup = true ∧
                                  ls.homogeneous = true := by
                                by_cases hr0 : rr = 0
                                · have hq : (if rr = 0 then some sl else rls)
                                      = some ls := hls
                                  rw [if_pos hr0] at hq
                                  obtain rfl : sl = ls := Option.some.inj hq
                                  exact ⟨hslnd, hslhom⟩
                                · have hq : (if rr = 0 then some sl else rls)
                                      = some ls := hls
                                  rw [if_neg hr0] at hq
                                  rw [hq] at hwfp'
                                  exact ⟨(and_true_parts
                                    ((and_true_parts hwfp').2)).1,
                                    (and_true_parts
                                      ((and_true_parts hwfp').2)).2⟩
                              have hndls : (ls.votes.map Vote.sender).Nodup :=
                                of_decide_eq_true hlsfacts.1
                              have hfacts := add_votes_facts ctx ls.votes s sA
                                hndls hwf hfold hnoevA
                              obtain ⟨hwfB, hheadB, hstoB, habpOR, hcarryB⟩ :=
                                abp_clean_spec ctx sA sB sender hgt rr blk' sl
                                  rls habp hnoevB hfacts.1 hslnd
                              obtain ⟨hbT, hwfS2, hheadS2, hstoS2, hcandS2,
                                  htrS2, hcarryS2, hensS2, hgetS2, hreadd,
                                  hupdS2⟩ :=
                                prop_write_spec ctx sB
                                  (Proposal.bp sender hgt rr blk' sl rls)
                                  hm2 b hhm hwfB hh1 hvn
                              have hensS2' : ((sB.ensureHeight hgt).updHeight
                                  hgt hm2).ensureHeight hgt
                                  = (sB.ensureHeight hgt).updHeight hgt hm2 :=
                                hensS2
                              have hgetS2' : ((sB.ensureHeight hgt).updHeight
                                  hgt hm2).hGet hgt = hm2 := hgetS2
                              have hupdS2' : (((sB.ensureHeight
                                  hgt).updHeight hgt hm2).updHeight hgt hm2)
                                  = (sB.ensureHeight hgt).updHeight hgt hm2 :=
                                hupdS2
                              have hcarryS2' : ∀ w, recordedDead ctx sB w →
                                  recordedDead ctx ((sB.ensureHeight
                                    hgt).updHeight hgt hm2) w := hcarryS2
                              have hheadS2' : ((sB.ensureHeight
                                  hgt).updHeight hgt hm2).head = sB.head :=
                                hheadS2
                              have hwfS2' : ((sB.ensureHeight hgt).updHeight
                                  hgt hm2).wfState = true := hwfS2
                              have hstoS2' : ((sB.ensureHeight hgt).updHeight
                                  hgt hm2).stored = sB.stored := hstoS2
                              have hcandS2' : ((sB.ensureHeight
                                  hgt).updHeight hgt hm2).block_candidates
                                  = sB.block_candidates := hcandS2
                              have hlsheq : rr ≠ 0 → ls.lsHeight = hgt := by
                                intro hr0
                                have hc4' := not_bang_eq_true hc4
                                rcases or_true_parts hc4' with hA | hB
                                · exact of_decide_eq_true hA
                                · exact absurd (of_decide_eq_true hB) hr0
                              have hrecB : ∀ w ∈ ls.votes,
                                  recordedDead ctx sB w := by
                                intro w hwmem
                                have h0 : recordedDead ctx sA w :=
                                  hfacts.2.2.2.2.1 w hwmem
                                rcases habpOR with ⟨hst, hEq⟩ |
                                    ⟨hst, hq2, hlsh2, hlkc, hslrec⟩
                                · rw [hEq]
                                  exact h0
                                · refine hcarryB w h0 ?_
                                  intro v hvmem
                                  by_cases hr0 : rr = 0
                                  · have hq : (if rr = 0 then some sl
                                        else rls) = some ls := hls
                                    rw [if_pos hr0] at hq
                                    have hsl : sl = ls := Option.some.inj hq
                                    by_cases hvw : v = w
                                    · exact Or.inr (Or.inl hvw)
                                    · refine Or.inl ?_
                                      intro hsend
                                      refine hvw (sender_inj_of_nodup ls.votes
                                        hndls v w ?_ hwmem hsend)
                                      rw [← hsl]
                                      exact hvmem
                                  · refine Or.inr (Or.inr ?_)
                                    rintro ⟨hhh, _⟩
                                    have hv1 : v.height = sl.lsHeight :=
                                      (homogeneous_fields sl v hslhom hvmem).1
                                    have hw1 : w.height = ls.lsHeight :=
                                      (homogeneous_fields ls w hlsfacts.2
                                        hwmem).1
                                    have hsl1 : sl.lsHeight = hgt - 1 :=
                                      not_not.mp hlsh2
                                    have hls1 : ls.lsHeight = hgt :=
                                      hlsheq hr0
                                    rw [hv1, hsl1, hw1, hls1] at hhh
                                    have hh1' : 1 ≤ hgt := hh1
                                    omega
                              have hrecS2 : ∀ w ∈ ls.votes, recordedDead ctx
                                  ((sB.ensureHeight hgt).updHeight hgt hm2)
                                  w := fun w hw =>
                                hcarryS2' w (hrecB w hw)
                              -- conditions of the second call
                              have hcmeq : ((sB.ensureHeight hgt).updHeight
                                  hgt hm2).cmHeight = s.cmHeight := by
                                unfold ConsensusManager.cmHeight
                                rw [hheadS2', hheadB, hfacts.2.1]
                              have hbelow2 : ¬ ((Proposal.bp sender hgt rr
                                  blk' sl rls).height <
                                  ((sB.ensureHeight hgt).updHeight hgt
                                    hm2).cmHeight) := by
                                rw [hcmeq]
                                exact hbelow
                              have hc2' : ¬ (!(ctx.contract.isvalidator
                                  (Proposal.bp sender hgt rr blk' sl
                                    rls).sender &&
                                  ctx.contract.isproposer (Proposal.bp sender
                                    hgt rr blk' sl rls))) = true := hc2
                              have hls' : (Proposal.bp sender hgt rr blk' sl
                                  rls).lockset? = some ls := hls
                              have hc4'' : ¬ (!(decide (ls.lsHeight =
                                  (Proposal.bp sender hgt rr blk' sl
                                    rls).height) ||
                                  decide ((Proposal.bp sender hgt rr blk' sl
                                    rls).round = 0))) = true := hc4
                              have hc5'' : ¬ (!(decide ((Proposal.bp sender
                                  hgt rr blk' sl rls).round = ls.lsRound + 1)
                                  ||
                                  decide ((Proposal.bp sender hgt rr blk' sl
                                    rls).round = 0))) = true := hc5
                              have hbn : blk'.number = blk.number :=
                                (hlink blk blk' hlk1).1
                              have hc6' : ¬ blk'.number ≠ hgt := by
                                rw [hbn]
                                exact hc6
                              have hcmeqA : ((sB.ensureHeight hgt).updHeight
                                  hgt hm2).cmHeight = sA.cmHeight := by
                                unfold ConsensusManager.cmHeight
                                rw [hheadS2', hheadB]
                              have hfut2 : ¬ ((sB.ensureHeight
                                  hgt).updHeight hgt hm2).cmHeight < hgt := by
                                rw [hcmeqA]
                                exact hfut
                              have hstoeq : ((sB.ensureHeight hgt).updHeight
                                  hgt hm2).stored = sA.stored := by
                                rw [hstoS2', hstoB]
                              -- the second add_block_proposal is a no-op
                              have habp2 :
                                  ConsensusManager.add_block_proposal ctx
                                    ((sB.ensureHeight hgt).updHeight hgt hm2)
                                    (Proposal.bp sender hgt rr blk' sl rls)
                                  = ((sB.ensureHeight hgt).updHeight hgt hm2,
                                    .ok ()) := by
                                unfold ConsensusManager.add_block_proposal
                                simp only []
                                rcases habpOR with ⟨hst, hEq⟩ |
                                    ⟨hst, hq2, hlsh2, hlkc, hslrec⟩
                                · rw [if_pos (show (Proposal.bp sender hgt rr
                                    blk' sl rls).blockhash ∈ ((sB.ensureHeight
                                      hgt).updHeight hgt hm2).stored by
                                    rw [hstoeq]; exact hst)]
                                · rw [if_neg (show ¬ (Proposal.bp sender hgt
                                    rr blk' sl rls).blockhash ∈
                                    ((sB.ensureHeight hgt).updHeight hgt
                                      hm2).stored by
                                    rw [hstoeq]; exact hst),
                                    if_neg hq2, if_neg hlsh2,
                                    add_votes_noop ctx sl.votes _ hwfS2'
                                      (fun v hv => hcarryS2' v (hslrec v hv))]
                                  simp only []
                                  have hlkc2 : ((sB.ensureHeight
                                      hgt).updHeight hgt
                                      hm2).block_candidates.lookup
                                      ((Proposal.bp sender hgt rr blk' sl
                                        rls).blockhash)
                                      = some (Proposal.bp sender hgt rr blk'
                                        sl rls) := by
                                    rw [hcandS2']
                                    exact hlkc
                                  rw [candidates_set_self _ _ _
                                    (wfState_parts _ hwfS2').2.1 hlkc2]
                              -- assemble the second call
                              unfold ConsensusManager.add_proposal
                              rw [if_neg hbelow2, if_neg hc2', hls']
                              simp only []
                              rw [if_neg hc3, if_neg hc4'', if_neg hc5'',
                                add_votes_noop ctx ls.votes _ hwfS2' hrecS2]
                              simp only []
                              rw [if_neg hc6', if_neg hc7, if_neg hfut2,
                                (hlink blk blk' hlk1).2]
                              simp only []
                              rw [habp2]
                              simp only []
                              rw [hensS2', hgetS2', hreadd]
                              simp only []
                              rw [hupdS2', hbT]
                · -- VotingInstruction
                  rename_i sd2 hgt rr2 lsv
                  split at hrun
                  · exact absurd (congrArg (fun t => t.2.1) hrun) (by simp)
                  · rename_i hqp
                    rcases hhm : HeightManager.add_proposal ctx
                        ((sA.ensureHeight hgt).hGet hgt)
                        (Proposal.vi sd2 hgt rr2 lsv)
                      with ⟨hm2, res4⟩
                    rw [hhm] at hrun
                    rcases res4 with e4 | b
                    · simp only [] at hrun
                      exact absurd (congrArg (fun t => t.2.1) hrun) (by simp)
                    · simp only [] at hrun
                      rw [Prod.mk.injEq, Prod.mk.injEq] at hrun
                      obtain ⟨h1, h2, h3⟩ := hrun
                      obtain rfl : r = some b := (Except.ok.inj h2).symm
                      subst h3
                      subst h1
                      have htrS1 : ((sA.ensureHeight hgt).updHeight hgt
                          hm2).tracked_protocol_failures
                          = sA.tracked_protocol_failures := by
                        show (sA.ensureHeight hgt).tracked_protocol_failures
                          = _
                        rw [ensureHeight_tracked]
                      rw [htrS1] at hnoev
                      have hlveq : lsv = ls := by
                        have hq : some lsv = some ls := hls
                        exact Option.some.inj hq
                      subst hlveq
                      have hwfp' := hwfp
                      unfold Proposal.wfVotes at hwfp'
                      have hndls : (lsv.votes.map Vote.sender).Nodup :=
                        of_decide_eq_true (and_true_parts hwfp').1
                      have hfacts := add_votes_facts ctx lsv.votes s sA
                        hndls hwf hfold hnoev
                      obtain ⟨hbT, hwfS2, hheadS2, hstoS2, hcandS2,
                          htrS2, hcarryS2, hensS2, hgetS2, hreadd,
                          hupdS2⟩ :=
                        prop_write_spec ctx sA
                          (Proposal.vi sd2 hgt rr2 lsv) hm2 b hhm
                          hfacts.1 hh1 hvn
                      have hensS2' : ((sA.ensureHeight hgt).updHeight
                          hgt hm2).ensureHeight hgt
                          = (sA.ensureHeight hgt).updHeight hgt hm2 := hensS2
                      have hgetS2' : ((sA.ensureHeight hgt).updHeight
                          hgt hm2).hGet hgt = hm2 := hgetS2
                      have hupdS2' : (((sA.ensureHeight hgt).updHeight hgt
                          hm2).updHeight hgt hm2)
                          = (sA.ensureHeight hgt).updHeight hgt hm2 := hupdS2
                      have hcarryS2' : ∀ w, recordedDead ctx sA w →
                          recordedDead ctx ((sA.ensureHeight hgt).updHeight
                            hgt hm2) w := hcarryS2
                      have hheadS2' : ((sA.ensureHeight hgt).updHeight hgt
                          hm2).head = sA.head := hheadS2
                      have hwfS2' : ((sA.ensureHeight hgt).updHeight hgt
                          hm2).wfState = true := hwfS2
                      have hrecS2 : ∀ w ∈ lsv.votes, recordedDead ctx
                          ((sA.ensureHeight hgt).updHeight hgt hm2) w :=
                        fun w hw => hcarryS2' w (hfacts.2.2.2.2.1 w hw)
                      have hcmeq : ((sA.ensureHeight hgt).updHeight hgt
                          hm2).cmHeight = s.cmHeight := by
                        unfold ConsensusManager.cmHeight
                        rw [hheadS2', hfacts.2.1]
                      have hbelow2 : ¬ ((Proposal.vi sd2 hgt rr2
                          lsv).height < ((sA.ensureHeight hgt).updHeight hgt
                            hm2).cmHeight) := by
                        rw [hcmeq]
                        exact hbelow
                      unfold ConsensusManager.add_proposal
                      rw [if_neg hbelow2, if_neg hc2, hls]
                      simp only []
                      rw [if_neg hc3, if_neg hc4, if_neg hc5,
                        add_votes_noop ctx lsv.votes _ hwfS2' hrecS2]
                      simp only []
                      rw [if_neg hqp, hensS2', hgetS2', hreadd]
                      simp only []
                      rw [hupdS2', hbT]

/-- Claim C9 witness: the clean genesis-height admission of `c9pG` into
the fresh engine `c9sG` — the first call is admitted with no evidence,
and the instantiated theorem says the second call returns the same
result on the unchanged state. -/
theorem add_proposal_idempotent_on_clean_admission_witness :
    ((ConsensusManager.add_proposal ctxP2 c9sG
        c9pG).1.tracked_protocol_failures
      = c9sG.tracked_protocol_failures) ∧
    c9sG.wfState = true ∧ c9pG.wfVotes = true ∧
    ConsensusManager.add_proposal ctxP2
        (ConsensusManager.add_proposal ctxP2 c9sG c9pG).1 c9pG
      = ((ConsensusManager.add_proposal ctxP2 c9sG c9pG).1,
        .ok (some true), c9pG) :=
  ⟨rfl, by decide, by decide,
    add_proposal_idempotent_on_clean_admission ctxP2 c9sG
      (ConsensusManager.add_proposal ctxP2 c9sG c9pG).1 c9pG c9pG (some true)
      rfl rfl (by decide) (by decide)
      (fun b b' h => by
        have hb : b' = b := (Option.some.inj h).symm
        subst hb
        exact ⟨rfl, rfl⟩)⟩

end Hydrachain
